import Mathlib

/-!
# node-ffmpeg: the command compiler and the parsers of the engine's reports

A shallow embedding of `lib/utils.js`, `lib/video.js` and `lib/ffmpeg.js`.

JavaScript values are embedded as follows.

* A number is a `JSNum`: a rational, `Infinity`, `-Infinity` or `NaN`. A finite
  number is a double: a numeral that is read and the result of an addition, a
  subtraction or a multiplication are rounded to the nearest double (`toDouble`:
  53 significant binary digits, a tie going to the even significand). A quotient
  is held as the exact fraction, which stands for the double nearest to it, and
  every operation reads a fraction through `toDouble` (`operand`). The range of
  the exponent is not bounded (no overflow to `Infinity`, no subnormal numbers)
  and the sign of zero is not represented.
* A value that reaches a command list or an option container is a `JSVal`.
* A method of the `Video` class is a function from the session to an outcome
  (`Except JSError _`) paired with the session it leaves behind, so that the
  state after a `throw` stays observable.
* A pattern is a matcher at the head of a text; `exec` searches it from left to
  right (`searchFrom`) and a global `match` collects the matches (`scanAll`).
* The disk, the clock and the `path` module are parameters of the methods that
  consult them.
-/

namespace Ffmpeg

/-! ## Numbers -/

/-- A JavaScript number: rationals and the three non-finite values. -/
inductive JSNum where
  | fin (q : ℚ)
  | posInf
  | negInf
  | nan
  deriving DecidableEq

namespace JSNum

/-- A natural number as a JavaScript number. -/
def ofNat (n : Nat) : JSNum := fin (n : ℚ)

/-- Number of binary digits of `n`, counted in at most `fuel` halvings. -/
def bitsWithin : Nat → Nat → Nat
  | 0, _ => 0
  | fuel + 1, n => if n = 0 then 0 else bitsWithin fuel (n / 2) + 1

/-- Number of binary digits of `n`. -/
def bits (n : Nat) : Nat := bitsWithin n n

/-- The power of two of an integer exponent. -/
def pow2 (e : Int) : ℚ :=
  if 0 ≤ e then ((2 ^ e.toNat : Nat) : ℚ) else 1 / ((2 ^ (-e).toNat : Nat) : ℚ)

/-- The binary exponent of a rational other than zero: the `e` with
`2^e ≤ |q| < 2^(e+1)`. -/
def exponent (q : ℚ) : Int :=
  let t : Int := (bits q.num.natAbs : Int) - (bits q.den : Int)
  if pow2 t ≤ |q| then t else t - 1

/-- The nearest integer, a tie going to the even one. -/
def roundHalfEven (m : ℚ) : Int :=
  let f : Int := ⌊m⌋
  let d : ℚ := m - f
  if d < 1 / 2 then f
  else if 1 / 2 < d then f + 1
  else if f % 2 = 0 then f else f + 1

/-- The double nearest to a rational: 53 significant binary digits, a tie going to
the even significand. -/
def toDouble (q : ℚ) : ℚ :=
  if q = 0 then 0
  else
    let unit := pow2 (exponent q - 52)
    (roundHalfEven (q / unit) : ℚ) * unit

/-- The double a held rational stands for. An integer is read as it is: the integers
the program holds come from rounded results and from quotients of doubles, and are
doubles. A fraction is a quotient that was held unrounded, and is rounded here. -/
def operand (q : ℚ) : ℚ := if q.den = 1 then q else toDouble q

/-- The number a numeral or a literal of the exact value `q` is read as. -/
def nearest (q : ℚ) : JSNum := fin (toDouble q)

/-- The sign test used to pick the sign of a quotient or product by an infinity. -/
def infOfSign (positive : Bool) : JSNum := if positive then posInf else negInf

/-- The operator `a / b`. The quotient is held unrounded. -/
def div : JSNum → JSNum → JSNum
  | fin a, fin b =>
      if b = 0 then
        (if a = 0 then nan else infOfSign (decide (0 < a)))
      else fin (operand a / operand b)
  | fin _, posInf => fin 0
  | fin _, negInf => fin 0
  | posInf, fin b => infOfSign (decide (0 ≤ b))
  | negInf, fin b => infOfSign (decide (b < 0))
  | _, _ => nan

/-- The operator `a * b`. -/
def mul : JSNum → JSNum → JSNum
  | fin a, fin b => fin (toDouble (operand a * operand b))
  | fin a, posInf => if a = 0 then nan else infOfSign (decide (0 < a))
  | fin a, negInf => if a = 0 then nan else infOfSign (decide (a < 0))
  | posInf, fin b => if b = 0 then nan else infOfSign (decide (0 < b))
  | negInf, fin b => if b = 0 then nan else infOfSign (decide (b < 0))
  | posInf, posInf => posInf
  | negInf, negInf => posInf
  | posInf, negInf => negInf
  | negInf, posInf => negInf
  | _, _ => nan

/-- Truncation of a rational toward zero. -/
def truncRat (q : ℚ) : ℤ := q.num.tdiv (q.den : ℤ)

/-- The operator `a % b`: the remainder takes the sign of the dividend; the
remainder of two doubles is a double. -/
def rem : JSNum → JSNum → JSNum
  | fin a, fin b =>
    if b = 0 then nan
    else fin (operand a - operand b * (truncRat (operand a / operand b) : ℚ))
  | fin a, posInf => fin a
  | fin a, negInf => fin a
  | _, _ => nan

/-- The function `Math.round`: the nearest integer, a tie going up. -/
def round : JSNum → JSNum
  | fin q => fin ((⌊operand q + 1 / 2⌋ : ℤ) : ℚ)
  | x => x

/-- The postfix decrement `x--`, as far as the new value of `x` goes. -/
def dec : JSNum → JSNum
  | fin q => fin (toDouble (operand q - 1))
  | x => x

/-- The unary minus. -/
def neg : JSNum → JSNum
  | fin q => fin (-q)
  | posInf => negInf
  | negInf => posInf
  | nan => nan

/-- The comparison `a > b`; it is false as soon as one side is `NaN`. -/
def gt : JSNum → JSNum → Bool
  | fin a, fin b => decide (operand b < operand a)
  | posInf, fin _ => true
  | posInf, negInf => true
  | fin _, negInf => true
  | _, _ => false

/-- The test `x !== 0`. -/
def neZero (x : JSNum) : Bool := decide (x ≠ fin 0)

/-- The test `x === 0`. -/
def isZero (x : JSNum) : Bool := decide (x = fin 0)

/-- Boolean coercion of a number: `0` and `NaN` are falsy. -/
def truthy : JSNum → Bool
  | fin q => decide (q ≠ 0)
  | nan => false
  | _ => true

/-- The global `isNaN` on a number. -/
def isNaN : JSNum → Bool
  | nan => true
  | _ => false

/-- Decimal text of an integer. -/
def intText (i : ℤ) : String :=
  if i < 0 then "-" ++ Nat.repr i.natAbs else Nat.repr i.natAbs

/-- Number to string. The text of an integer is its decimal numeral (exponent
notation, which JavaScript switches to from `1e21` on, is not modelled). The text
of a fraction is in JavaScript the shortest decimal that reads back as the double,
which is not modelled; the exact fraction that is held is written instead. -/
def toText : JSNum → String
  | fin q => if q.den = 1 then intText q.num else intText q.num ++ "/" ++ Nat.repr q.den
  | posInf => "Infinity"
  | negInf => "-Infinity"
  | nan => "NaN"

end JSNum

/-! ## Values -/

/-- The JavaScript values that travel through command lists and option containers.
`obj` is a plain object with string fields, such as the watermark record; equality
on `obj` compares the fields, where JavaScript compares the identity of the object. -/
inductive JSVal where
  | undefined
  | null
  | bool (b : Bool)
  | num (n : JSNum)
  | str (s : String)
  | obj (fields : List (String × String))
  deriving DecidableEq

namespace JSVal

/-- Boolean coercion: what `if (v)` and `v && ...` test. -/
def truthy : JSVal → Bool
  | undefined => false
  | null => false
  | bool b => b
  | num n => n.truthy
  | str s => decide (s ≠ "")
  | obj _ => true

/-- String coercion, as a template literal or `RegExp.prototype.exec` applies it. -/
def toText : JSVal → String
  | undefined => "undefined"
  | null => "null"
  | bool b => if b then "true" else "false"
  | num n => n.toText
  | str s => s
  | obj _ => "[object Object]"

end JSVal

/-! ## Errors -/

/-- What a `throw` carries. `rendered` is the value of `errors.renderError`;
`typeError` is the engine's error on reading a property of `undefined`;
`rangeError` is the engine's error on a recursion that never ends. -/
inductive JSError where
  | rendered (code : String) (args : List JSVal)
  | typeError
  | rangeError
  deriving DecidableEq

namespace errors

/-- Modelled from the spec: `errors.renderError` of `lib/errors.js`, the catalog of
message templates, which is an external collaborator. The error is identified by
its code and carries the offending values it was rendered with. -/
def renderError (code : String) (args : List JSVal) : JSError :=
  JSError.rendered code args

end errors

/-! ## Text: numerals and the patterns of `computeDimension` -/

/-- The characters `parseInt` skips in front of a numeral (WhiteSpace and
LineTerminator of ECMAScript). -/
def isWhiteSpace (c : Char) : Bool :=
  decide (c.toNat ∈ [9, 10, 11, 12, 13, 32, 160, 5760, 8232, 8233, 8239, 8287, 12288, 65279])
    || (decide (8192 ≤ c.toNat) && decide (c.toNat ≤ 8202))

/-- Value of a run of decimal digits, most significant first. -/
def digitsValue (ds : List Char) : Nat :=
  ds.foldl (fun acc c => acc * 10 + (c.toNat - 48)) 0

/-- The global `parseInt(text, 10)`: leading white space is skipped, a sign is
read, then the longest run of decimal digits; without a digit the result is `NaN`. -/
def parseInt (text : List Char) : JSNum :=
  let body := text.dropWhile isWhiteSpace
  let signed : Bool × List Char :=
    match body with
    | '-' :: rest => (true, rest)
    | '+' :: rest => (false, rest)
    | rest => (false, rest)
  let ds := signed.2.takeWhile Char.isDigit
  if ds = [] then JSNum.nan
  else if signed.1 then (JSNum.nearest (digitsValue ds : Nat)).neg
  else JSNum.nearest (digitsValue ds : Nat)

/-- The power of ten of an integer exponent. -/
def pow10 (e : Int) : ℚ :=
  if 0 ≤ e then ((10 ^ e.toNat : Nat) : ℚ) else 1 / ((10 ^ (-e).toNat : Nat) : ℚ)

/-- Number of decimal digits of `n`. -/
def decimalLength (n : Nat) : Nat := (Nat.toDigits 10 n).length

/-- The decimal exponent of a positive rational: the `p` with
`10^p ≤ a < 10^(p+1)`. -/
def decimalExponent (a : ℚ) : Int :=
  if 1 ≤ a then (decimalLength ⌊a⌋.toNat : Int) - 1
  else
    let length : Int := (decimalLength ⌊1 / a⌋.toNat : Int)
    if a * pow10 (length - 1) = 1 then -(length - 1) else -length

/-- The first digit of the text of a positive double `a`, which is the shortest
decimal that reads back as `a`: the first digit of `a` itself, unless the next
decimal of one digit above `a` already reads back as `a`. -/
def leadingDigit (a : ℚ) : Nat :=
  let p := decimalExponent a
  let d := ⌊a / pow10 p⌋.toNat
  if JSNum.toDouble (((d + 1 : Nat) : ℚ) * pow10 p) = a then (if d + 1 = 10 then 1 else d + 1)
  else d

/-- The global `parseInt(number, 10)`: the number is written out and read back up
to the first character that is not a digit. The text of a number from `1e21` on, and
of a number other than zero below `0.000001` (the double of that literal), has an
exponent, and what is read is its first digit; the text of any other number is
positional, and reading it truncates the number. -/
def parseIntNum : JSNum → JSNum
  | JSNum.fin q =>
    let x := JSNum.operand q
    if (10 : ℚ) ^ 21 ≤ |x| ∨ (x ≠ 0 ∧ |x| < JSNum.toDouble (1 / (10 : ℚ) ^ 6)) then
      (if x < 0 then (JSNum.ofNat (leadingDigit |x|)).neg else JSNum.ofNat (leadingDigit |x|))
    else JSNum.fin (JSNum.truncRat x : ℚ)
  | _ => JSNum.nan

/-- An unanchored `RegExp.prototype.exec`: the pattern is tried at every position,
left to right, and the first position where it matches wins. -/
def searchFrom {α : Type} (matchAt : List Char → Option α) : List Char → Option α
  | [] => matchAt []
  | c :: cs =>
    match matchAt (c :: cs) with
    | some r => some r
    | none => searchFrom matchAt cs

/-- The pattern `([0-9]+)x\?` at the head of the text; the capture is returned. -/
def fixedWidthAt (cs : List Char) : Option (List Char) :=
  let ds := cs.takeWhile Char.isDigit
  match cs.dropWhile Char.isDigit with
  | 'x' :: '?' :: _ => if ds = [] then none else some ds
  | _ => none

/-- The pattern `\?x([0-9]+)` at the head of the text; the capture is returned. -/
def fixedHeightAt (cs : List Char) : Option (List Char) :=
  match cs with
  | '?' :: 'x' :: rest =>
    let ds := rest.takeWhile Char.isDigit
    if ds = [] then none else some ds
  | _ => none

/-- The pattern `([0-9]{1,2})%` at the head of the text: two digits and the sign are
tried first, then one digit and the sign. -/
def percentageAt (cs : List Char) : Option (List Char) :=
  let two : Option (List Char) :=
    match cs with
    | d1 :: d2 :: '%' :: _ => if d1.isDigit && d2.isDigit then some [d1, d2] else none
    | _ => none
  let one : Option (List Char) :=
    match cs with
    | d1 :: '%' :: _ => if d1.isDigit then some [d1] else none
    | _ => none
  match two with
  | some capture => some capture
  | none => one

/-- The pattern `([0-9]+)x([0-9]+)` at the head of the text; both captures. -/
def classicSizeAt (cs : List Char) : Option (List Char × List Char) :=
  let ds1 := cs.takeWhile Char.isDigit
  match cs.dropWhile Char.isDigit with
  | 'x' :: rest =>
    let ds2 := rest.takeWhile Char.isDigit
    if ds1 = [] || ds2 = [] then none else some (ds1, ds2)
  | _ => none

/-! ## `lib/utils.js` -/

namespace utils

/-- The recursion of `utils.gcd`, unfolded at most `depth` calls deep. -/
def gcdLoop : Nat → JSNum → JSNum → Option JSNum
  | 0, _, _ => none
  | depth + 1, a, b => if b.isZero then some a else gcdLoop depth b (a.rem b)

/-- A call depth within which `utils.gcd a b` returns whenever it returns at all:
on finite numbers the remainders, counted in units of the common denominator of the
two doubles, decrease strictly from `b`; a non-finite argument either ends the
recursion within two calls or turns both arguments into `NaN` for good. -/
def gcdDepth : JSNum → JSNum → Nat
  | JSNum.fin a, JSNum.fin b =>
    (JSNum.operand b).num.natAbs * (JSNum.operand a).den + 3
  | _, _ => 3

/-- The function `utils.gcd`; `none` stands for the recursion that never returns. -/
def gcd (a b : JSNum) : Option JSNum := gcdLoop (gcdDepth a b) a b

/-- The function `utils.addQuotes`. -/
def addQuotes (filename : String) : String := "\"" ++ filename ++ "\""

end utils

/-! ## Text and numbers: coercions -/

namespace JSNum

/-- The operator `a + b`. -/
def add : JSNum → JSNum → JSNum
  | fin a, fin b => fin (toDouble (operand a + operand b))
  | fin _, posInf => posInf
  | fin _, negInf => negInf
  | posInf, fin _ => posInf
  | negInf, fin _ => negInf
  | posInf, posInf => posInf
  | negInf, negInf => negInf
  | _, _ => nan

end JSNum

/-- The line terminators, which the pattern `.` does not match. -/
def isLineTerminator (c : Char) : Bool :=
  decide (c.toNat ∈ [10, 13, 8232, 8233])

/-- Removal of the white space at the end of a text. -/
def trimEnd : List Char → List Char
  | [] => []
  | c :: cs =>
    match trimEnd cs with
    | [] => if isWhiteSpace c then [] else [c]
    | kept => c :: kept

/-- The method `String.prototype.trim`. -/
def trim (cs : List Char) : List Char := trimEnd (cs.dropWhile isWhiteSpace)

/-- The text starts with the given characters. -/
def startsWith : List Char → List Char → Bool
  | [], _ => true
  | _ :: _, [] => false
  | p :: ps, c :: cs => p == c && startsWith ps cs

/-- Value of a digit of a base up to sixteen, when the character is one. -/
def digitOfBase (base : Nat) (c : Char) : Option Nat :=
  let v : Option Nat :=
    if c.isDigit then some (c.toNat - 48)
    else if decide ('a'.toNat ≤ c.toNat) && decide (c.toNat ≤ 'f'.toNat) then some (c.toNat - 87)
    else if decide ('A'.toNat ≤ c.toNat) && decide (c.toNat ≤ 'F'.toNat) then some (c.toNat - 55)
    else none
  match v with
  | some d => if d < base then some d else none
  | none => none

/-- Value of a non-empty run of digits of the base; `none` when a character is not a
digit of the base or the run is empty. -/
def digitsOfBase (base : Nat) (cs : List Char) : Option Nat :=
  if cs = [] then none
  else cs.foldl (fun acc c =>
    match acc, digitOfBase base c with
    | some a, some d => some (a * base + d)
    | _, _ => none) (some 0)

/-- The exponent part of a decimal literal: empty, or `e`/`E`, an optional sign and
digits. The value is the power of ten as a rational factor. -/
def exponentFactor (cs : List Char) : Option ℚ :=
  match cs with
  | [] => some 1
  | e :: rest =>
    if e = 'e' ∨ e = 'E' then
      let signed : Bool × List Char :=
        match rest with
        | '-' :: r => (true, r)
        | '+' :: r => (false, r)
        | r => (false, r)
      if signed.2 ≠ [] ∧ signed.2.all Char.isDigit then
        (if signed.1 then some (1 / (10 : ℚ) ^ digitsValue signed.2)
         else some ((10 : ℚ) ^ digitsValue signed.2))
      else none
    else none

/-- An unsigned decimal literal: `Infinity`, or digits with an optional fraction and
an optional exponent, at least one digit before or after the point. The value is the
double nearest to the literal. -/
def unsignedDecimal (cs : List Char) : JSNum :=
  if cs = "Infinity".data then JSNum.posInf
  else
    let whole := cs.takeWhile Char.isDigit
    let afterWhole := cs.dropWhile Char.isDigit
    let fraction : List Char :=
      match afterWhole with
      | '.' :: r => r.takeWhile Char.isDigit
      | _ => []
    let afterFraction : List Char :=
      match afterWhole with
      | '.' :: r => r.dropWhile Char.isDigit
      | r => r
    if whole = [] ∧ fraction = [] then JSNum.nan
    else
      match exponentFactor afterFraction with
      | none => JSNum.nan
      | some factor =>
        JSNum.nearest (((digitsValue (whole ++ fraction) : Nat) : ℚ)
          / (10 : ℚ) ^ fraction.length * factor)

/-- The conversion of a text to a number (`Number(text)`): white space around is
dropped, the empty text is `0`, then a binary, octal or hexadecimal integer literal or
a signed decimal literal is read; any other text is `NaN`. -/
def stringToNumber (text : List Char) : JSNum :=
  match trim text with
  | [] => JSNum.ofNat 0
  | '0' :: p :: rest =>
    if p = 'x' ∨ p = 'X' then
      (match digitsOfBase 16 rest with | some v => JSNum.nearest v | none => JSNum.nan)
    else if p = 'o' ∨ p = 'O' then
      (match digitsOfBase 8 rest with | some v => JSNum.nearest v | none => JSNum.nan)
    else if p = 'b' ∨ p = 'B' then
      (match digitsOfBase 2 rest with | some v => JSNum.nearest v | none => JSNum.nan)
    else unsignedDecimal ('0' :: p :: rest)
  | '-' :: rest => (unsignedDecimal rest).neg
  | '+' :: rest => unsignedDecimal rest
  | body => unsignedDecimal body

namespace JSVal

/-- The conversion to a number that `isNaN`, the unary minus and the comparisons
apply. -/
def toNumber : JSVal → JSNum
  | undefined => JSNum.nan
  | null => JSNum.ofNat 0
  | bool b => if b then JSNum.ofNat 1 else JSNum.ofNat 0
  | num n => n
  | str s => stringToNumber s.data
  | obj _ => JSNum.nan

/-- The global `isNaN (value)`. -/
def isNaN (v : JSVal) : Bool := v.toNumber.isNaN

/-- The global `parseInt (value, 10)`: a number is written out and read back, any
other value is converted to text and read. -/
def parseInt : JSVal → JSNum
  | num n => parseIntNum n
  | v => Ffmpeg.parseInt v.toText.data

/-- The operator `a === b` on primitive values: equal values of one type, `NaN`
differing from itself; two finite numbers are compared as the doubles they stand
for. -/
def strictEq (a b : JSVal) : Bool :=
  match a, b with
  | num (JSNum.fin p), num (JSNum.fin q) => decide (JSNum.operand p = JSNum.operand q)
  | _, _ => decide (a = b) && !(decide (a = num JSNum.nan))

end JSVal

/-- The call `parseInt(parts[i], 10)` on the parts of `text.split(':')`; a missing
part is `undefined`, which reads as `NaN`. -/
def parseRatioPart (parts : List (List Char)) (i : Nat) : JSNum :=
  match parts.get? i with
  | some part => parseInt part
  | none => JSNum.nan

/-! ## `utils.durationToSeconds` -/

/-- The pattern `([0-9]+):([0-9]{2}):([0-9]{2})` at the head of the text; only the
fact of a match is used. -/
def durationAt (cs : List Char) : Option Unit :=
  let hours := cs.takeWhile Char.isDigit
  match cs.dropWhile Char.isDigit with
  | ':' :: m1 :: m2 :: ':' :: s1 :: s2 :: _ =>
    if hours ≠ [] ∧ m1.isDigit ∧ m2.isDigit ∧ s1.isDigit ∧ s2.isDigit then some () else none
  | _ => none

namespace utils

/-- The function `utils.durationToSeconds (duration, def)`; the default of `def` is
`0`. -/
def durationToSeconds (duration : JSVal) (default : JSVal) : JSVal :=
  if duration.isNaN && (searchFrom durationAt duration.toText.data).isSome then
    let parts := (duration.toText.data.take 8).splitOn ':'
    let hours := parseRatioPart parts 0
    let minutes := parseRatioPart parts 1
    let seconds := parseRatioPart parts 2
    JSVal.num (((hours.mul (JSNum.ofNat 3600)).add (minutes.mul (JSNum.ofNat 60))).add seconds)
  else if !duration.isNaN && (JSVal.num duration.parseInt).strictEq duration then
    JSVal.num duration.parseInt
  else default

end utils

/-! ## Descriptors and options -/

/-- A `{w, h}` record. -/
structure Resolution where
  w : JSNum
  h : JSNum
  deriving DecidableEq

/-- The display aspect `{x, y, string, value}` of a descriptor. -/
structure Aspect where
  x : JSNum
  y : JSNum
  string : String
  value : JSNum
  deriving DecidableEq

/-- The `video` part of a media descriptor, as far as the geometry reads it.
`resolutionSquare` and `aspect` are `none` when they are the empty object. -/
structure VideoInfo where
  resolution : Resolution
  resolutionSquare : Option Resolution
  aspect : Option Aspect
  pixelString : String
  pixel : JSNum
  deriving DecidableEq

/-- The `duration` part of a media descriptor: `{raw, seconds}`. -/
structure Duration where
  raw : String
  seconds : JSVal
  deriving DecidableEq

/-- The media descriptor (`metadata`, `info`): its geometry and its duration. A
descriptor written without a duration has that of a report without a `Duration:`
line. -/
structure Metadata where
  video : VideoInfo
  duration : Duration := { raw := "", seconds := JSVal.num (JSNum.ofNat 0) }
  deriving DecidableEq

/-- The capability set (`configuration`). -/
structure Configuration where
  modules : List String
  encode : List String
  decode : List String
  deriving DecidableEq

/-- One option container: the object `options[container]`. -/
abbrev Container := List (String × JSVal)

/-- The option map of a session: the object `options`. -/
abbrev Options := List (String × Container)

/-- The property write `obj[key] = value`. -/
def setKey {β : Type} (key : String) (value : β) : List (String × β) → List (String × β)
  | [] => [(key, value)]
  | (k, v) :: rest => if k = key then (k, value) :: rest else (k, v) :: setKey key value rest

/-- The property read `container[name]`; a missing property reads `undefined`. -/
def Container.get (container : Container) (name : String) : JSVal :=
  (container.lookup name).getD JSVal.undefined

/-! ## `computeDimension` -/

/-- The `aspect` object of a computed dimension: `{x, y, string}`. -/
structure DimensionAspect where
  x : JSNum
  y : JSNum
  string : String
  deriving DecidableEq

/-- The value of `computeDimension`; `aspect = none` is the empty object. -/
structure Dimension where
  width : JSNum
  height : JSNum
  aspect : Option DimensionAspect
  deriving DecidableEq

/-- Lines 77 to 82: an odd value is decremented. -/
def decrementIfOdd (v : JSNum) : JSNum :=
  if (v.rem (JSNum.ofNat 2)).neZero then v.dec else v

/-- Lines 43 to 75: the width and the height before they are made even. -/
def rawDimension (video : VideoInfo) (referrerResolution : Resolution) (size : JSVal) :
    Except JSError (JSNum × JSNum) :=
  let text := size.toText.data
  match searchFrom fixedWidthAt text with
  | some ds =>
    let width := parseInt ds
    match video.aspect with
    | some aspect => .ok (width, ((width.div aspect.x).mul aspect.y).round)
    | none => .ok (width, (referrerResolution.h.div (referrerResolution.w.div width)).round)
  | none =>
    match searchFrom fixedHeightAt text with
    | some ds =>
      let height := parseInt ds
      match video.aspect with
      | some aspect => .ok (((height.div aspect.y).mul aspect.x).round, height)
      | none => .ok ((referrerResolution.w.div (referrerResolution.h.div height)).round, height)
    | none =>
      match searchFrom percentageAt text with
      | some ds =>
        let ratio := (parseInt ds).div (JSNum.ofNat 100)
        .ok ((referrerResolution.w.mul ratio).round, (referrerResolution.h.mul ratio).round)
      | none =>
        match searchFrom classicSizeAt text with
        | some (ds1, ds2) => .ok (parseInt ds1, parseInt ds2)
        | none => .error (errors.renderError "size_format" [size])

/-- Lines 84 to 92: the reduced aspect of the even dimension. -/
def reducedAspect (width height : JSNum) : Except JSError DimensionAspect :=
  match utils.gcd width height with
  | none => .error JSError.rangeError
  | some gcdValue =>
    let x := width.div gcdValue
    let y := height.div gcdValue
    .ok { x := x, y := y, string := x.toText ++ ":" ++ y.toText }

/-- The function `computeDimension (metadata, options)` of `lib/video.js`. -/
def computeDimension (metadata : Metadata) (options : Options) : Except JSError Dimension :=
  match options.lookup "video" with
  | none => .error JSError.typeError
  | some video =>
    let keepPixelAspectRatio := (video.get "keepPixelAspectRatio").truthy
    let keepAspectRatio := (video.get "keepAspectRatio").truthy
    let referrer : Except JSError Resolution :=
      if keepPixelAspectRatio then
        match metadata.video.resolutionSquare with
        | none => .error (errors.renderError "resolution_square_not_defined" [])
        | some square => .ok square
      else .ok metadata.video.resolution
    match referrer with
    | .error e => .error e
    | .ok referrerResolution =>
      match rawDimension metadata.video referrerResolution (video.get "size") with
      | .error e => .error e
      | .ok (rawWidth, rawHeight) =>
        let width := decrementIfOdd rawWidth
        let height := decrementIfOdd rawHeight
        if keepAspectRatio then
          match reducedAspect width height with
          | .error e => .error e
          | .ok aspect => .ok { width := width, height := height, aspect := some aspect }
        else .ok { width := width, height := height, aspect := none }

/-! ## The `Video` class of `lib/video.js` -/

/-- The fields of a `Video` instance. `settings` is left out: it is only handed on
to the process collaborator. `output = none` is `null`. -/
structure Video where
  filePath : String
  configuration : Configuration
  metadata : Metadata
  commands : List JSVal
  inputs : List String
  filtersComplex : List String
  output : Option String
  options : Options
  deriving DecidableEq

/-- What a method call leaves: its outcome and the session after it. -/
abbrev Outcome := Except JSError Unit × Video

/-- The default of a destructured parameter: it stands in for `undefined`. -/
def orDefault (value fallback : JSVal) : JSVal :=
  if value = JSVal.undefined then fallback else value

namespace Video

/-- The constructor. -/
def new (filePath : String) (configuration : Configuration) (info : Metadata) : Video :=
  { filePath := filePath
    configuration := configuration
    metadata := info
    commands := []
    inputs := [filePath]
    filtersComplex := []
    output := none
    options := [] }

/-- The method `addCommand (command, argument)`; an omitted argument is `undefined`. -/
def addCommand (command argument : JSVal) (s : Video) : Outcome :=
  if command ∈ s.commands then
    (.error (errors.renderError "command_already_exists" [command]), s)
  else
    let pushed := s.commands ++ [command]
    (.ok (), { s with commands := if argument.truthy then pushed ++ [argument] else pushed })

/-- The method `addOption (container, name, value)`. -/
def addOption (container name : String) (value : JSVal) (s : Video) : Video :=
  let current : Container := (s.options.lookup container).getD []
  { s with options := setKey container (setKey name value current) s.options }

/-- The method `hasContainer`. -/
def hasContainer (container : String) (s : Video) : Bool :=
  (s.options.lookup container).isSome

/-- The method `hasOption`. -/
def hasOption (container name : String) (s : Video) : Bool :=
  match s.options.lookup container with
  | none => false
  | some c => decide (c.get name ≠ JSVal.undefined)

/-- The method `getContainer`; `none` is `null`. -/
def getContainer (container : String) (s : Video) : Option Container :=
  s.options.lookup container

/-- The method `getOption`. -/
def getOption (container name : String) (s : Video) : JSVal :=
  match s.options.lookup container with
  | none => JSVal.null
  | some c => if c.get name ≠ JSVal.undefined then c.get name else JSVal.null

/-- The method `addInput`. -/
def addInput (argument : String) (s : Video) : Video :=
  { s with inputs := s.inputs ++ [argument] }

/-- The method `addFilterComplex`. -/
def addFilterComplex (argument : String) (s : Video) : Video :=
  { s with filtersComplex := s.filtersComplex ++ [argument] }

/-- The method `setOutput`. -/
def setOutput (path : String) (s : Video) : Video :=
  { s with output := some path }

/-- The method `setVideoFormat`. -/
def setVideoFormat (format : String) (s : Video) : Outcome :=
  if format ∈ s.configuration.encode then
    (.ok (), s.addOption "video" "format" (JSVal.str format))
  else (.error (errors.renderError "format_not_supported" [JSVal.str format]), s)

/-- The method `setVideoCodec`. -/
def setVideoCodec (codec : String) (s : Video) : Outcome :=
  if codec ∈ s.configuration.encode then
    (.ok (), s.addOption "video" "codec" (JSVal.str codec))
  else (.error (errors.renderError "codec_not_supported" [JSVal.str codec]), s)

/-- The method `setAudioCodec`. -/
def setAudioCodec (codec : String) (s : Video) : Outcome :=
  if codec ∈ s.configuration.encode then
    let recorded :=
      if codec = "mp3" ∧ "libmp3lame" ∈ s.configuration.modules then "libmp3lame" else codec
    (.ok (), s.addOption "audio" "codec" (JSVal.str recorded))
  else (.error (errors.renderError "codec_not_supported" [JSVal.str codec]), s)

/-- The method `setVideoSize (size, {keepPixelAspectRatio, keepAspectRatio, paddingColor})`;
an omitted property of the second argument is `undefined`. -/
def setVideoSize (size : JSVal) (keepPixelAspectRatio keepAspectRatio paddingColor : JSVal)
    (s : Video) : Video :=
  ((((s.addOption "video" "size" size).addOption "video" "keepPixelAspectRatio"
    (orDefault keepPixelAspectRatio (JSVal.bool true))).addOption "video" "keepAspectRatio"
    (orDefault keepAspectRatio (JSVal.bool true))).addOption "video" "paddingColor"
    (orDefault paddingColor (JSVal.str "black")))

/-- The method `reset`. -/
def reset (s : Video) : Video :=
  { s with commands := [], inputs := [s.filePath], output := none, options := [] }

/-- The method `execCommand`, up to the call of the process collaborator: the value
is the list `finalCommands` handed to `utils.exec`. -/
def execCommand (s : Video) : List JSVal :=
  let finalCommands : List JSVal :=
    [JSVal.str "ffmpeg -i"] ++ s.inputs.map (fun input => JSVal.str (utils.addQuotes input))
      ++ s.commands
  let withFilters : List JSVal :=
    if s.filtersComplex.length ≠ 0 then
      finalCommands ++
        [JSVal.str ("-filter_complex \"" ++ ", ".intercalate s.filtersComplex ++ "\"")]
    else finalCommands
  withFilters ++ [match s.output with | some path => JSVal.str path | none => JSVal.null]

end Video

/-! ## The probe-report parser of `lib/ffmpeg.js` -/

/-- The pattern `(([0-9]{2,5})x([0-9]{2,5}))` at the head of the text: the first run
of digits has to end before the `x`, the second is cut after five digits. -/
def resolutionAt (cs : List Char) : Option (List Char × List Char) :=
  let ds1 := cs.takeWhile Char.isDigit
  match cs.dropWhile Char.isDigit with
  | 'x' :: rest =>
    let ds2 := (rest.takeWhile Char.isDigit).take 5
    if 2 ≤ ds1.length ∧ ds1.length ≤ 5 ∧ 2 ≤ ds2.length then some (ds1, ds2) else none
  | _ => none

/-- The class `[0-9\:]`. -/
def isRatioChar (c : Char) : Bool := c.isDigit || c == ':'

/-- The pattern `DAR ([0-9\:]+)` at the head of the text; the capture is returned. -/
def aspectAt (cs : List Char) : Option (List Char) :=
  match cs with
  | 'D' :: 'A' :: 'R' :: ' ' :: rest =>
    let body := rest.takeWhile isRatioChar
    if body = [] then none else some body
  | _ => none

/-- The pattern `[SP]AR ([0-9\:]+)` at the head of the text; the capture is returned. -/
def pixelAt (cs : List Char) : Option (List Char) :=
  match cs with
  | c :: 'A' :: 'R' :: ' ' :: rest =>
    let body := rest.takeWhile isRatioChar
    if (c == 'S' || c == 'P') && body ≠ [] then some body else none
  | _ => none

/-- Lines 106 to 128 of `getVideoInfo`: the display aspect. -/
def videoAspect (aspect : Option (List Char)) (resolution : Resolution) :
    Except JSError (Option Aspect) :=
  match aspect with
  | some text =>
    let aspectValue := text.splitOn ':'
    let x := parseRatioPart aspectValue 0
    let y := parseRatioPart aspectValue 1
    .ok (some { x := x, y := y, string := String.mk text, value := x.div y })
  | none =>
    if resolution.w.gt (JSNum.ofNat 0) then
      match utils.gcd resolution.w resolution.h with
      | none => .error JSError.rangeError
      | some gcdValue =>
        let x := resolution.w.div gcdValue
        let y := resolution.h.div gcdValue
        .ok (some { x := x, y := y, string := x.toText ++ ":" ++ y.toText, value := x.div y })
    else .ok none

/-- Lines 130 to 143 of `getVideoInfo`: the pixel aspect, text and value. -/
def videoPixel (pixel : Option (List Char)) (resolution : Resolution) : String × JSNum :=
  match pixel with
  | some text =>
    let pixelValue := text.splitOn ':'
    (String.mk text, (parseRatioPart pixelValue 0).div (parseRatioPart pixelValue 1))
  | none =>
    if resolution.w ≠ JSNum.ofNat 0 then ("1:1", JSNum.ofNat 1) else ("", JSNum.ofNat 0)

/-- Lines 144 to 159 of `getVideoInfo`: the resolution corrected to square pixels. -/
def videoResolutionSquare (resolution : Resolution) (pixel : JSNum) : Option Resolution :=
  if pixel ≠ JSNum.ofNat 1 ∨ pixel ≠ JSNum.ofNat 0 then
    if pixel.gt (JSNum.ofNat 1) then
      some { w := parseIntNum (resolution.w.mul pixel), h := resolution.h }
    else
      some { w := resolution.w, h := parseIntNum (resolution.h.div pixel) }
  else none

/-- The pattern `Duration: (([0-9]+):([0-9]{2}):([0-9]{2}).([0-9]+))` at the head of
the text; the first capture is returned. -/
def durationFieldAt (cs : List Char) : Option (List Char) :=
  if startsWith "Duration: ".data cs then
    let body := cs.drop "Duration: ".data.length
    let hours := body.takeWhile Char.isDigit
    match body.dropWhile Char.isDigit with
    | ':' :: m1 :: m2 :: ':' :: s1 :: s2 :: point :: rest =>
      let fraction := rest.takeWhile Char.isDigit
      if hours ≠ [] ∧ m1.isDigit ∧ m2.isDigit ∧ s1.isDigit ∧ s2.isDigit
          ∧ isLineTerminator point = false ∧ fraction ≠ [] then
        some (hours ++ [':', m1, m2, ':', s1, s2, point] ++ fraction)
      else none
    | _ => none
  else none

/-- Lines 49 to 50 and 76 to 79 of `getVideoInfo`: the duration. -/
def videoDuration (duration : Option (List Char)) : Duration :=
  match duration with
  | some raw =>
    { raw := String.mk raw
      seconds := utils.durationToSeconds (JSVal.str (String.mk raw)) (JSVal.num (JSNum.ofNat 0)) }
  | none => { raw := "", seconds := JSVal.num (JSNum.ofNat 0) }

/-- The function `getVideoInfo`, from the text of the probe report on: the geometry
and the duration of the descriptor (the other fields do not bear on them). -/
def getVideoInfo (stdout : String) : Except JSError Metadata :=
  let resolutionMatch := searchFrom resolutionAt stdout.data
  let pixelMatch := searchFrom pixelAt stdout.data
  let aspectMatch := searchFrom aspectAt stdout.data
  let resolution : Resolution :=
    match resolutionMatch with
    | some (ds1, ds2) => { w := parseInt ds1, h := parseInt ds2 }
    | none => { w := JSNum.ofNat 0, h := JSNum.ofNat 0 }
  match videoAspect aspectMatch resolution with
  | .error e => .error e
  | .ok aspect =>
    let pixel := videoPixel pixelMatch resolution
    .ok {
      video :=
      { resolution := resolution
        resolutionSquare := videoResolutionSquare resolution pixel.2
        aspect := aspect
        pixelString := pixel.1
        pixel := pixel.2 },
      duration := videoDuration (searchFrom durationFieldAt stdout.data) }

/-! ## The capability parser of `lib/ffmpeg.js` -/

/-- A global `String.prototype.match`: the pattern is tried from left to right and
the search resumes where a match ends. `matchAt` gives the value and the length of
a match at the head of the text; the first argument counts the characters still
covered by the last match. -/
def scanAll {α : Type} (matchAt : List Char → Option (α × Nat)) : Nat → List Char → List α
  | 0, [] =>
    match matchAt [] with
    | some (a, _) => [a]
    | none => []
  | _ + 1, [] => []
  | covered + 1, _ :: cs => scanAll matchAt covered cs
  | 0, c :: cs =>
    match matchAt (c :: cs) with
    | some (a, length) => a :: scanAll matchAt (length - 1) cs
    | none => scanAll matchAt 0 cs

/-- The part of a text before its first line terminator: as far as `.*` reaches. -/
def firstLine (cs : List Char) : List Char := cs.takeWhile (fun c => !isLineTerminator c)

/-- The pattern `configuration:(.*)` at the head of the text; the whole match is
returned. -/
def configurationAt (cs : List Char) : Option (List Char) :=
  if startsWith "configuration:".data cs then
    some ("configuration:".data
      ++ firstLine (cs.drop "configuration:".data.length))
  else none

/-- The class `[a-zA-Z0-9\-]`. -/
def isEnableChar (c : Char) : Bool := c.isAlphanum || c == '-'

/-- The pattern `--enable-([a-zA-Z0-9\-]+)` at the head of the text: the whole match
and its length. -/
def enableAt (cs : List Char) : Option (List Char × Nat) :=
  if startsWith "--enable-".data cs then
    let name := (cs.drop "--enable-".data.length).takeWhile isEnableChar
    if name = [] then none
    else some ("--enable-".data ++ name, "--enable-".data.length + name.length)
  else none

/-- The call `text.replace (/pattern/g, '')` for a literal pattern: every occurrence,
from left to right, is removed. The first argument counts the characters still
covered by the last occurrence. -/
def removeAll (pattern : List Char) : Nat → List Char → List Char
  | _, [] => []
  | covered + 1, _ :: cs => removeAll pattern covered cs
  | 0, c :: cs =>
    if startsWith pattern (c :: cs) then removeAll pattern (pattern.length - 1) cs
    else c :: removeAll pattern 0 cs

/-- The last place of a line where two spaces follow each other: the text before the
two spaces and the text after them. -/
def splitAtLastGap : List Char → Option (List Char × List Char)
  | [] => none
  | c :: rest =>
    match splitAtLastGap rest with
    | some (before, after) => some (c :: before, after)
    | none =>
      match c, rest with
      | ' ', ' ' :: after => some ([], after)
      | _, _ => none

/-- The text after a literal at the head of the text, when the text starts with it. -/
def dropLiteral : List Char → List Char → Option (List Char)
  | [], cs => some cs
  | _ :: _, [] => none
  | p :: ps, c :: cs => if p = c then dropLiteral ps cs else none

/-- The opening ` (DE|D|E) ` of the codec pattern at the head of the text: the scope
and the text after the opening. -/
def scopeAt (cs : List Char) : Option (List Char × List Char) :=
  match dropLiteral " DE ".data cs with
  | some rest => some ("DE".data, rest)
  | none =>
    match dropLiteral " D ".data cs with
    | some rest => some ("D".data, rest)
    | none =>
      match dropLiteral " E ".data cs with
      | some rest => some ("E".data, rest)
      | none => none

/-- The groups of the pattern ` (DE|D|E) (.*) {1,} (.*)` at the head of the text. The
first `(.*)` takes the longest stretch of the line after which a run of spaces and
one more space still follow, that is, it ends at the last two consecutive spaces of
the line; the second `(.*)` takes the rest of the line. -/
def codecGroupsAt (cs : List Char) : Option (List Char × List Char × List Char) :=
  match scopeAt cs with
  | none => none
  | some (scope, rest) =>
    match splitAtLastGap (firstLine rest) with
    | none => none
    | some (before, after) => some (scope, before, after)

/-- The pattern ` (DE|D|E) (.*) {1,} (.*)` at the head of the text: the whole match
and its length. -/
def codecAt (cs : List Char) : Option (List Char × Nat) :=
  match codecGroupsAt cs with
  | none => none
  | some (scope, before, after) =>
    let length := 1 + scope.length + 1 + before.length + 2 + after.length
    some (cs.take length, length)

/-- The body of the loop over `codecList`: the matched text is matched again and its
scope and extension, trimmed, are filed under `decode` and `encode`. -/
def fileCodec (format : Configuration) (codec : List Char) : Configuration :=
  match searchFrom codecGroupsAt codec with
  | none => format
  | some (group1, group2, _) =>
    let scope := String.mk (trim group1)
    let extension := String.mk (trim group2)
    let decoded : Configuration :=
      if scope ∈ ["D", "DE"] then { format with decode := format.decode ++ [extension] }
      else format
    if scope ∈ ["E", "DE"] then { decoded with encode := decoded.encode ++ [extension] }
    else decoded

/-- Lines 14 to 19 of `getInfoConfiguration`: the enabled modules. The method `map` of
the `null` that `match` returns without a token is a `TypeError`. -/
def enabledModules (stdout : String) : Except JSError (List String) :=
  match searchFrom configurationAt stdout.data with
  | none => .ok []
  | some configuration =>
    match scanAll enableAt 0 configuration with
    | [] => .error JSError.typeError
    | enabled =>
      .ok (enabled.map (fun enable => String.mk (removeAll "--enable-".data 0 enable)))

/-- The function `getInfoConfiguration`, from the text of the capability listing on.
The loop over the `null` that `match` returns without a codec line is a
`TypeError`. -/
def getInfoConfiguration (stdout : String) : Except JSError Configuration :=
  match enabledModules stdout with
  | .error e => .error e
  | .ok modules =>
    match scanAll codecAt 0 stdout.data with
    | [] => .error JSError.typeError
    | codecList =>
      .ok (codecList.foldl fileCodec { modules := modules, encode := [], decode := [] })

/-! ## Watermark margins of `lib/video.js` -/

/-- The function `getSign (val, inverse)`: the text of the value, negated first when
`inverse` is set. The method `toString` of `undefined` or `null` is a `TypeError`. -/
def getSign (val : JSVal) (inverse : Bool) : Except JSError String :=
  if inverse then .ok val.toNumber.neg.toText
  else
    match val with
    | JSVal.undefined => .error JSError.typeError
    | JSVal.null => .error JSError.typeError
    | v => .ok v.toText

/-- The function `getMarginX (left, right)`. -/
def getMarginX (left right : JSVal) : Except JSError String :=
  match getSign left false with
  | .error e => .error e
  | .ok l =>
    match getSign right true with
    | .error e => .error e
    | .ok r => .ok (l ++ r)

/-- The function `getMarginY (top, bottom)`. -/
def getMarginY (top bottom : JSVal) : Except JSError String :=
  match getSign top false with
  | .error e => .error e
  | .ok t =>
    match getSign bottom true with
    | .error e => .error e
    | .ok b => .ok (t ++ b)

/-- The function `getMarginsFromSettings (settings)`: the pair `{x, y}`. -/
def getMarginsFromSettings (settings : Container) : Except JSError (String × String) :=
  match getMarginX (settings.get "marginLeft") (settings.get "marginRight") with
  | .error e => .error e
  | .ok x =>
    match getMarginY (settings.get "marginTop") (settings.get "marginBottom") with
    | .error e => .error e
    | .ok y => .ok (x, y)

/-- The text in front of the margins in the two coordinates of each entry of
`marginHandler`; `none` for a key the table does not have. -/
def marginBase (position : String) : Option (String × String) :=
  if position = "NE" then some ("0", "0")
  else if position = "NC" then some ("main_w/2-overlay_w/2", "0")
  else if position = "NW" then some ("main_w-overlay_w", "0")
  else if position = "SE" then some ("0", "main_h-overlay_h")
  else if position = "SC" then some ("main_w/2-overlay_w/2", "main_h-overlay_h")
  else if position = "SW" then some ("main_w-overlay_w", "main_h-overlay_h")
  else if position = "CE" then some ("0", "main_h/2-overlay_h/2")
  else if position = "C" then some ("main_w/2-overlay_w/2", "main_h/2-overlay_h/2")
  else if position = "CW" then some ("main_w-overlay_w", "main_h/2-overlay_h/2")
  else none

/-- The table `marginHandler`: the entry of a position, applied to the settings. -/
def marginHandler (position : String) : Option (Container → Except JSError String) :=
  match marginBase position with
  | none => none
  | some (baseX, baseY) =>
    some (fun settings =>
      match getMarginsFromSettings settings with
      | .error e => .error e
      | .ok (x, y) => .ok (baseX ++ x ++ ":" ++ baseY ++ y))

/-- The spread `{...defaults, ...given}`. -/
def mergeOver (defaults given : Container) : Container :=
  given.foldl (fun merged entry => setKey entry.1 entry.2 merged) defaults

/-- Lines 335 to 350 of `setWatermark`: a margin that is falsy and is a number
becomes `0`. -/
def normaliseMargin (margin : JSVal) : JSVal :=
  if margin.truthy || margin.isNaN then margin else JSVal.num (JSNum.ofNat 0)

/-- Sequencing of two statements: the second runs on the session the first leaves,
unless the first threw. -/
def Outcome.andThen (first : Outcome) (next : Video → Outcome) : Outcome :=
  match first.1 with
  | .ok _ => next first.2
  | .error e => (.error e, first.2)

namespace Video

/-- The statement `value && statement`. -/
def whenTruthy (value : JSVal) (statement : Video → Outcome) (s : Video) : Outcome :=
  if value.truthy then statement s else (.ok (), s)

/-- The method `setWatermark (watermarkPath, options)`. `fileExists` is
`fs.existsSync`, the state of the disk. -/
def setWatermark (fileExists : String → Bool) (watermarkPath : String) (options : Container)
    (s : Video) : Outcome :=
  let defaults : Container :=
    [("position", JSVal.str "SW"), ("marginTop", JSVal.null), ("marginBottom", JSVal.null),
      ("marginLeft", JSVal.null), ("marginRight", JSVal.null)]
  let merged := mergeOver defaults options
  let cardinals := ["NE", "NC", "NW", "SE", "SC", "SW", "C", "CE", "CW"]
  let position := merged.get "position"
  if !fileExists watermarkPath then
    (.error (errors.renderError "invalid_watermark" [JSVal.str watermarkPath]), s)
  else if !position.truthy || !(cardinals.map JSVal.str).contains position then
    (.error (errors.renderError "invalid_watermark_position" [position]), s)
  else
    let wmOptions : Container :=
      setKey "marginRight" (normaliseMargin (merged.get "marginRight"))
        (setKey "marginLeft" (normaliseMargin (merged.get "marginLeft"))
          (setKey "marginBottom" (normaliseMargin (merged.get "marginBottom"))
            (setKey "marginTop" (normaliseMargin (merged.get "marginTop")) merged)))
    match marginHandler position.toText with
    | none => (.error (errors.renderError "invalid_watermark_position" [position]), s)
    | some handler =>
      match handler wmOptions with
      | .error e => (.error e, s)
      | .ok overlay =>
        if !(wmOptions.get "internal").truthy then
          (.ok (), s.addOption "video" "watermark"
            (JSVal.obj [("path", watermarkPath), ("overlay", overlay)]))
        else
          (.ok (), (s.addInput watermarkPath).addFilterComplex ("overlay=" ++ overlay))

/-- The method `addComplexAspect ({x, y, string, paddingColor})`. -/
def addComplexAspect (x y string paddingColor : JSVal) (s : Video) : Outcome :=
  let paddingColorSuffix := if paddingColor.truthy then ":" ++ paddingColor.toText else ""
  (s.addFilterComplex
    ("scale=iw*sar:ih, pad=max(iw\\,ih*(" ++ x.toText ++ "/" ++ y.toText ++ ")):ow/("
      ++ x.toText ++ "/" ++ y.toText ++ "):(ow-iw)/2:(oh-ih)/2" ++ paddingColorSuffix)).addCommand
    (JSVal.str "-aspect") string

/-- The property read `value[name]` on the record of a watermark, as a template or
`utils.addQuotes` writes it out: a property that is missing is written `undefined`. -/
def fieldText (value : JSVal) (name : String) : String :=
  match value with
  | JSVal.obj fields => (fields.lookup name).getD "undefined"
  | _ => "undefined"

/-- Lines 396 to 411 of `save`: the size. The test `if (dimension.aspect)` is on an
object, which is truthy also when it is empty; the properties of an empty `aspect`
read `undefined`. -/
def saveSize (video : Container) (s : Video) : Outcome :=
  match computeDimension s.metadata s.options with
  | .error e => (.error e, s)
  | .ok dimension =>
    let x := match dimension.aspect with | some a => JSVal.num a.x | none => JSVal.undefined
    let y := match dimension.aspect with | some a => JSVal.num a.y | none => JSVal.undefined
    let string :=
      match dimension.aspect with | some a => JSVal.str a.string | none => JSVal.undefined
    let paddingColor :=
      if (video.get "paddingColor").truthy then video.get "paddingColor" else JSVal.str ""
    (s.addComplexAspect x y string paddingColor).andThen
      (addCommand (JSVal.str "-s")
        (JSVal.str (dimension.width.toText ++ "x" ++ dimension.height.toText)))

/-- Lines 378 to 413 of `save`: the `video` container. -/
def saveVideo (s : Video) : Outcome :=
  match s.getContainer "video" with
  | none => (.ok (), s)
  | some video =>
    if (video.get "disabled").truthy then s.addCommand (JSVal.str "-vn") JSVal.undefined
    else
      (((((((whenTruthy (video.get "format")
          (addCommand (JSVal.str "-f") (video.get "format")) s).andThen
        (whenTruthy (video.get "codec")
          (addCommand (JSVal.str "-vcodec") (video.get "codec")))).andThen
        (whenTruthy (video.get "bitrate")
          (addCommand (JSVal.str "-b")
            (JSVal.str ((video.get "bitrate").parseInt.toText ++ "kb"))))).andThen
        (whenTruthy (video.get "framerate")
          (addCommand (JSVal.str "-r") (JSVal.num (video.get "framerate").parseInt)))).andThen
        (whenTruthy (video.get "startTime")
          (addCommand (JSVal.str "-ss") (JSVal.num (video.get "startTime").parseInt)))).andThen
        (whenTruthy (video.get "duration")
          (addCommand (JSVal.str "-t") (JSVal.num (video.get "duration").parseInt)))).andThen
        (whenTruthy (video.get "watermark") (fun t =>
          (.ok (), (t.addInput (fieldText (video.get "watermark") "path")).addFilterComplex
            ("overlay=" ++ fieldText (video.get "watermark") "overlay"))))).andThen
        (whenTruthy (video.get "size") (saveSize video))

/-- Lines 415 to 427 of `save`: the `audio` container. -/
def saveAudio (s : Video) : Outcome :=
  match s.getContainer "audio" with
  | none => (.ok (), s)
  | some audio =>
    if (audio.get "disabled").truthy then s.addCommand (JSVal.str "-an") JSVal.undefined
    else
      ((((whenTruthy (audio.get "codec")
          (addCommand (JSVal.str "-acodec") (audio.get "codec")) s).andThen
        (whenTruthy (audio.get "frequency")
          (addCommand (JSVal.str "-ar") (JSVal.num (audio.get "frequency").parseInt)))).andThen
        (whenTruthy (audio.get "channel")
          (addCommand (JSVal.str "-ac") (audio.get "channel")))).andThen
        (whenTruthy (audio.get "quality")
          (addCommand (JSVal.str "-aq") (audio.get "quality")))).andThen
        (whenTruthy (audio.get "bitrate")
          (addCommand (JSVal.str "-ab")
            (JSVal.str ((audio.get "bitrate").parseInt.toText ++ "k"))))

/-- The method `save (destination)`, up to the call of the process collaborator: the
session it leaves is the one `execCommand` writes out. -/
def save (destination : String) (s : Video) : Outcome :=
  (s.saveVideo.andThen saveAudio).andThen (fun t => (.ok (), t.setOutput destination))

/-- The method `extractAudioToMP3 (destination)`, up to the call of the process
collaborator. `output` is the value of `path.join (dir, outputFilename)`, which the
`path` module computes from the destination; the removal of a destination that
exists changes the disk only. -/
def extractAudioToMP3 (output : String) (s : Video) : Outcome :=
  (((((s.reset.addCommand (JSVal.str "-vn") JSVal.undefined).andThen
    (addCommand (JSVal.str "-ar") (JSVal.num (JSNum.ofNat 44100)))).andThen
    (addCommand (JSVal.str "-ac") (JSVal.num (JSNum.ofNat 2)))).andThen
    (addCommand (JSVal.str "-ab") (JSVal.num (JSNum.ofNat 192)))).andThen
    (addCommand (JSVal.str "-f") (JSVal.str "mp3"))).andThen
    (fun t => (.ok (), t.setOutput output))

/-- The method `watermark (path, outputFilePath, wmOptions)`, up to the call of the
process collaborator; `outputFilePath = none` is the default `null`. Without an
output path, or with the empty text, the default is built with `path.dirname`, where
`path` is the first parameter, a text, and not the module: the call is a
`TypeError`. -/
def watermark (fileExists : String → Bool) (path : String) (outputFilePath : Option String)
    (wmOptions : Container) (s : Video) : Outcome :=
  (s.reset.setWatermark fileExists path (setKey "internal" (JSVal.bool true) wmOptions)).andThen
    (fun t =>
      match outputFilePath with
      | none => (.error JSError.typeError, t)
      | some out =>
        if out = "" then (.error JSError.typeError, t)
        else
          ((t.setOutput out).addCommand (JSVal.str "-strict") JSVal.undefined).andThen
            (addCommand (JSVal.str "-2") JSVal.undefined))

end Video

/-! ## Frame extraction -/

/-- The record `frameOptions` of `extractFrameToJPG`: the settings of the caller
merged over the defaults, which are the defaults of the fields here. The settings
hold the recognized fields only. -/
structure FrameOptions where
  startTime : JSVal := JSVal.null
  durationTime : JSVal := JSVal.null
  frameRate : JSVal := JSVal.null
  size : JSVal := JSVal.null
  number : JSVal := JSVal.null
  everyFrames : JSVal := JSVal.null
  everySeconds : JSVal := JSVal.null
  everyPercentage : JSVal := JSVal.null
  keepPixelAspectRatio : JSVal := JSVal.bool true
  keepAspectRatio : JSVal := JSVal.bool true
  paddingColor : JSVal := JSVal.str "black"
  fileName : JSVal := JSVal.null
  deriving DecidableEq

namespace FrameOptions

/-- The properties of the record that hold an object, as `computeDimension` reads
them when it is handed the record for an option map: there is none, `video` is not
a property of the record. -/
def containers (_ : FrameOptions) : Options := []

/-- The test `value && isNaN (value)` of lines 508 to 527. -/
def isInvalid (value : JSVal) : Bool := value.truthy && value.isNaN

/-- The test of lines 528 to 532 on `everyPercentage`. -/
def isInvalidPercentage (value : JSVal) : Bool :=
  value.truthy && (value.isNaN || value.toNumber.gt (JSNum.ofNat 100))

/-- Lines 519 to 535: the counter `everyCheck`. -/
def everyCheck (o : FrameOptions) : Nat :=
  (if isInvalid o.everyFrames then 1 else 0)
    + (if isInvalid o.everySeconds then 1 else 0)
    + (if isInvalidPercentage o.everyPercentage then 1 else 0)

/-- Lines 496 to 535: the record after the checks of its fields. -/
def checked (metadata : Metadata) (o : FrameOptions) : FrameOptions :=
  { o with
    startTime :=
      if o.startTime.truthy then utils.durationToSeconds o.startTime JSVal.null else o.startTime
    durationTime :=
      if o.durationTime.truthy then utils.durationToSeconds o.durationTime JSVal.null
      else o.durationTime
    frameRate := if isInvalid o.frameRate then JSVal.null else o.frameRate
    size :=
      if !o.size.truthy then
        JSVal.str (metadata.video.resolution.w.toText ++ "x" ++ metadata.video.resolution.h.toText)
      else o.size
    number := if isInvalid o.number then JSVal.null else o.number
    everyFrames := if isInvalid o.everyFrames then JSVal.null else o.everyFrames
    everySeconds := if isInvalid o.everySeconds then JSVal.null else o.everySeconds
    everyPercentage :=
      if isInvalidPercentage o.everyPercentage then JSVal.null else o.everyPercentage }

/-- Lines 541 to 560: a file name is given and the methods `split` of the size or
`replace` of the file name are missing, the value not being a text. -/
def fileNameFails (o : FrameOptions) : Bool :=
  o.fileName.truthy &&
    !((match o.size with | JSVal.str _ => true | _ => false)
      && (match o.fileName with | JSVal.str _ => true | _ => false))

end FrameOptions

namespace Video

/-- Lines 595 to 612 of `extractFrameToJPG`: the frame count and the sampling. -/
def addSampling (o : FrameOptions) (s : Video) : Outcome :=
  (((whenTruthy o.number (addCommand (JSVal.str "-vframes") o.number) s).andThen
    (whenTruthy o.everyFrames (fun t =>
      (t.addCommand (JSVal.str "-vsync") (JSVal.num (JSNum.ofNat 0))).andThen (fun u =>
        (.ok (), u.addFilterComplex ("select=not(mod(n\\," ++ o.everyFrames.toText ++ "))")))))).andThen
    (whenTruthy o.everySeconds (fun t =>
      (t.addCommand (JSVal.str "-vsync") (JSVal.num (JSNum.ofNat 0))).andThen (fun u =>
        (.ok (), u.addFilterComplex ("select=not(mod(t\\," ++ o.everySeconds.toText ++ "))")))))).andThen
    (whenTruthy o.everyPercentage (fun t =>
      (t.addCommand (JSVal.str "-vsync") (JSVal.num (JSNum.ofNat 0))).andThen (fun u =>
        let every := parseIntNum
          ((u.metadata.duration.seconds.toNumber.div (JSNum.ofNat 100)).mul
            o.everyPercentage.toNumber)
        (.ok (), u.addFilterComplex ("select=not(mod(t\\," ++ every.toText ++ "))")))))

/-- Lines 568 to 614 of `extractFrameToJPG`: the session is reset and filled. -/
def compileFrames (folder fileName : String) (o : FrameOptions) (s : Video) : Outcome :=
  ((((whenTruthy o.startTime (addCommand (JSVal.str "-ss") o.startTime) s.reset).andThen
    (whenTruthy o.durationTime (addCommand (JSVal.str "-t") o.durationTime))).andThen
    (whenTruthy o.frameRate (addCommand (JSVal.str "-r") o.frameRate))).andThen
    (fun t =>
      let sized := t.setVideoSize o.size o.keepPixelAspectRatio o.keepAspectRatio o.paddingColor
      match computeDimension sized.metadata o.containers with
      | .error e => (.error e, sized)
      | .ok dimension =>
        let x := match dimension.aspect with | some a => JSVal.num a.x | none => JSVal.undefined
        let y := match dimension.aspect with | some a => JSVal.num a.y | none => JSVal.undefined
        let string :=
          match dimension.aspect with | some a => JSVal.str a.string | none => JSVal.undefined
        ((sized.addCommand (JSVal.str "-s")
          (JSVal.str (dimension.width.toText ++ "x" ++ dimension.height.toText))).andThen
          (addComplexAspect x y string o.paddingColor)).andThen (addSampling o))).andThen
    (fun t => (.ok (), t.setOutput (folder ++ "/" ++ fileName)))

/-- The method `extractFrameToJPG (folder, settings)`, up to the call of the process
collaborator. `frameOptions` is the record of the settings merged over the defaults;
`fileName` is the name lines 541 to 565 arrive at, which the `path` module and the
clock compute; the folder is taken to exist or to be created. -/
def extractFrameToJPG (folder : String) (frameOptions : FrameOptions) (fileName : String)
    (s : Video) : Outcome :=
  let o := frameOptions.checked s.metadata
  if 2 ≤ frameOptions.everyCheck then
    (.error (errors.renderError "extract_frame_invalid_everyN_options" []), s)
  else if o.fileNameFails then (.error JSError.typeError, s)
  else s.compileFrames folder fileName o

end Video

/-! ## The remaining setters of `lib/video.js` -/

/-- The pattern `([0-9]+):([0-9]+)` at the head of the text: the two captures. -/
def ratioAt (cs : List Char) : Option (List Char × List Char) :=
  let ds1 := cs.takeWhile Char.isDigit
  match cs.dropWhile Char.isDigit with
  | ':' :: rest =>
    let ds2 := rest.takeWhile Char.isDigit
    if ds1 ≠ [] ∧ ds2 ≠ [] then some (ds1, ds2) else none
  | _ => none

namespace presets

/-- Modelled from the spec: the table `presets.audioChannel` of `lib/presets.js`, the
fixed table from the name of a channel layout to its channel count. The two names are
those `getVideoInfo` reads from a report. -/
def audioChannel : List (String × JSVal) :=
  [("stereo", JSVal.num (JSNum.ofNat 2)), ("mono", JSVal.num (JSNum.ofNat 1))]

end presets

namespace Video

/-- The method `setDisableAudio`. -/
def setDisableAudio (s : Video) : Video := s.addOption "audio" "disabled" (JSVal.bool true)

/-- The method `setDisableVideo`. -/
def setDisableVideo (s : Video) : Video := s.addOption "video" "disabled" (JSVal.bool true)

/-- The method `setVideoBitRate`. -/
def setVideoBitRate (bitrate : JSVal) (s : Video) : Video := s.addOption "video" "bitrate" bitrate

/-- The method `setVideoFrameRate`. -/
def setVideoFrameRate (framerate : JSVal) (s : Video) : Video :=
  s.addOption "video" "framerate" framerate

/-- The method `setVideoStartTime`. -/
def setVideoStartTime (time : JSVal) (s : Video) : Video :=
  s.addOption "video" "startTime" (utils.durationToSeconds time (JSVal.num (JSNum.ofNat 0)))

/-- The method `setDuration`. -/
def setDuration (duration : JSVal) (s : Video) : Video :=
  s.addOption "video" "duration" (utils.durationToSeconds duration (JSVal.num (JSNum.ofNat 0)))

/-- The method `setVideoAspectRatio`. The quotient of the two captures is a number,
which `parseFloat` gives back as it is; the `value` of an empty aspect reads
`undefined`. -/
def setVideoAspectRatio (ratio : JSVal) (s : Video) : Video :=
  let recorded : JSVal :=
    if ratio.isNaN then
      match searchFrom ratioAt ratio.toText.data with
      | some (ds1, ds2) => JSVal.num ((stringToNumber ds1).div (stringToNumber ds2))
      | none =>
        match s.metadata.video.aspect with
        | some aspect => JSVal.num aspect.value
        | none => JSVal.undefined
    else ratio
  s.addOption "video" "aspect" recorded

/-- The method `setAudioFrequency`. -/
def setAudioFrequency (frequency : JSVal) (s : Video) : Video :=
  s.addOption "audio" "frequency" frequency

/-- The method `setAudioChannels`. -/
def setAudioChannels (channel : JSVal) (s : Video) : Outcome :=
  if ((presets.audioChannel.map Prod.fst).map JSVal.str).contains channel then
    (.ok (), s.addOption "audio" "channel"
      ((presets.audioChannel.lookup channel.toText).getD JSVal.undefined))
  else (.error (errors.renderError "audio_channel_is_invalid" [channel]), s)

/-- The method `setAudioBitRate`. -/
def setAudioBitRate (bitrate : JSVal) (s : Video) : Video := s.addOption "audio" "bitrate" bitrate

/-- The method `setAudioQuality`. -/
def setAudioQuality (quality : JSVal) (s : Video) : Video := s.addOption "audio" "quality" quality

end Video

/-! ## Sequences of builder operations -/

/-- A call of a method of a session, with its arguments. The state of the disk comes
with the calls that consult it; the names the `path` module computes come with the
presets that use them. -/
inductive Operation where
  | addCommand (command argument : JSVal)
  | addOption (container name : String) (value : JSVal)
  | addInput (argument : String)
  | addFilterComplex (argument : String)
  | setOutput (path : String)
  | setDisableAudio
  | setDisableVideo
  | setVideoFormat (format : String)
  | setVideoCodec (codec : String)
  | setVideoBitRate (bitrate : JSVal)
  | setVideoFrameRate (framerate : JSVal)
  | setVideoStartTime (time : JSVal)
  | setDuration (duration : JSVal)
  | setVideoAspectRatio (ratio : JSVal)
  | setVideoSize (size keepPixelAspectRatio keepAspectRatio paddingColor : JSVal)
  | setAudioCodec (codec : String)
  | setAudioFrequency (frequency : JSVal)
  | setAudioChannels (channel : JSVal)
  | setAudioBitRate (bitrate : JSVal)
  | setAudioQuality (quality : JSVal)
  | setWatermark (fileExists : String → Bool) (watermarkPath : String) (options : Container)
  | save (destination : String)
  | reset
  | extractAudioToMP3 (output : String)
  | extractFrameToJPG (folder : String) (frameOptions : FrameOptions) (fileName : String)
  | watermark (fileExists : String → Bool) (path : String) (outputFilePath : Option String)
      (wmOptions : Container)

namespace Operation

/-- The call of the operation on a session: its outcome and the session it leaves. -/
def call : Operation → Video → Outcome
  | addCommand command argument, s => s.addCommand command argument
  | addOption container name value, s => (.ok (), s.addOption container name value)
  | addInput argument, s => (.ok (), s.addInput argument)
  | addFilterComplex argument, s => (.ok (), s.addFilterComplex argument)
  | setOutput path, s => (.ok (), s.setOutput path)
  | setDisableAudio, s => (.ok (), s.setDisableAudio)
  | setDisableVideo, s => (.ok (), s.setDisableVideo)
  | setVideoFormat format, s => s.setVideoFormat format
  | setVideoCodec codec, s => s.setVideoCodec codec
  | setVideoBitRate bitrate, s => (.ok (), s.setVideoBitRate bitrate)
  | setVideoFrameRate framerate, s => (.ok (), s.setVideoFrameRate framerate)
  | setVideoStartTime time, s => (.ok (), s.setVideoStartTime time)
  | setDuration duration, s => (.ok (), s.setDuration duration)
  | setVideoAspectRatio ratio, s => (.ok (), s.setVideoAspectRatio ratio)
  | setVideoSize size keepPixelAspectRatio keepAspectRatio paddingColor, s =>
    (.ok (), s.setVideoSize size keepPixelAspectRatio keepAspectRatio paddingColor)
  | setAudioCodec codec, s => s.setAudioCodec codec
  | setAudioFrequency frequency, s => (.ok (), s.setAudioFrequency frequency)
  | setAudioChannels channel, s => s.setAudioChannels channel
  | setAudioBitRate bitrate, s => (.ok (), s.setAudioBitRate bitrate)
  | setAudioQuality quality, s => (.ok (), s.setAudioQuality quality)
  | setWatermark fileExists watermarkPath options, s =>
    s.setWatermark fileExists watermarkPath options
  | save destination, s => s.save destination
  | reset, s => (.ok (), s.reset)
  | extractAudioToMP3 output, s => s.extractAudioToMP3 output
  | extractFrameToJPG folder frameOptions fileName, s =>
    s.extractFrameToJPG folder frameOptions fileName
  | watermark fileExists path outputFilePath wmOptions, s =>
    s.watermark fileExists path outputFilePath wmOptions

/-- The session after a sequence of calls, each made on the session the one before
left, whether it returned or threw. -/
def run (operations : List Operation) (s : Video) : Video :=
  operations.foldl (fun t operation => (operation.call t).2) s

end Operation

end Ffmpeg

deriving instance DecidableEq for Except

namespace Ffmpeg

/-! ## Vocabulary of the specification -/

/-- Made even: an odd value is decremented by one. -/
def madeEven (v : Nat) : Nat := if v % 2 = 1 then v - 1 else v

/-- The nearest integer to a non-negative rational, a tie going up. -/
def roundHalfUp (q : ℚ) : Nat := ⌊q + 1 / 2⌋.toNat

/-- The value of `(n / x) * y` as the program computes it: the quotient is rounded to
the nearest double, then the product is. -/
def quotientTimes (n x y : Nat) : ℚ :=
  JSNum.toDouble (JSNum.toDouble ((n : ℚ) / (x : ℚ)) * (y : ℚ))

/-- The value of `v * (n / 100)` as the program computes it: the quotient is rounded
to the nearest double, then the product is. -/
def timesPercent (v n : Nat) : ℚ :=
  JSNum.toDouble ((v : ℚ) * JSNum.toDouble ((n : ℚ) / 100))

/-- A media descriptor is what `getVideoInfo` makes of some probe report. The
session only ever holds such a descriptor: `lib/ffmpeg.js` passes the value of
`getVideoInfo` to the `Video` constructor. -/
def IsMediaDescriptor (md : Metadata) : Prop := ∃ stdout : String, getVideoInfo stdout = .ok md

/-- The reference resolution of `computeDimension`: the pixel-corrected resolution
when `keepPixelAspectRatio` is set, the raw resolution otherwise; `none` when the
pixel-corrected resolution is asked for and the descriptor has none. -/
def referenceResolution (md : Metadata) (video : Container) : Option Resolution :=
  if (video.get "keepPixelAspectRatio").truthy then md.video.resolutionSquare
  else some md.video.resolution

/-- The token sequence of the specification: the engine-input token, every input in
double quotes, every command token, one `-filter_complex "..."` token holding the
fragments joined by `separator` when there is a fragment, and the output last. -/
def joinedTokens (separator : String) (s : Video) : List JSVal :=
  [JSVal.str "ffmpeg -i"]
    ++ s.inputs.map (fun input => JSVal.str ("\"" ++ input ++ "\""))
    ++ s.commands
    ++ (match s.filtersComplex with
        | [] => []
        | first :: more =>
          [JSVal.str ("-filter_complex \""
            ++ more.foldl (fun joined fragment => joined ++ separator ++ fragment) first
            ++ "\"")])
    ++ [match s.output with
        | some path => JSVal.str path
        | none => JSVal.null]

/-- The pattern matches at some position of the text. -/
def OccursIn {α : Type} (matchAt : List Char → Option α) (text : List Char) : Prop :=
  ∃ pre post : List Char, text = pre ++ post ∧ (matchAt post).isSome = true

/-- The whole text is a non-empty run of decimal digits. -/
def isNumeral (cs : List Char) : Bool := !cs.isEmpty && cs.all Char.isDigit

/-- The whole text is one of the four forms `{N}x?`, `?x{N}`, `{N}%`, `{W}x{H}`. -/
def isSizeForm (text : List Char) : Bool :=
  let ds := text.takeWhile Char.isDigit
  match text.dropWhile Char.isDigit with
  | ['x', '?'] => !ds.isEmpty
  | ['%'] => !ds.isEmpty
  | '?' :: 'x' :: rest => ds.isEmpty && isNumeral rest
  | 'x' :: rest => !ds.isEmpty && isNumeral rest
  | _ => false

/-! ## Sample inputs -/

/-- A stream line of a probe report: 1280x720, square pixels, display aspect 16:9. -/
def report720 : String :=
  "    Stream #0:0(und): Video: h264 (High), yuv420p, 1280x720 [SAR 1:1 DAR 16:9], 25 fps"

/-- The descriptor `getVideoInfo` builds from `report720`. -/
def descriptor720 : Metadata :=
  { video :=
    { resolution := { w := JSNum.ofNat 1280, h := JSNum.ofNat 720 }
      resolutionSquare := some { w := JSNum.ofNat 1280, h := JSNum.ofNat 720 }
      aspect := some { x := JSNum.ofNat 16, y := JSNum.ofNat 9, string := "16:9",
                       value := JSNum.fin (16 / 9) }
      pixelString := "1:1"
      pixel := JSNum.ofNat 1 } }

/-- A stream line of a probe report without `SAR` and `DAR` fields: 1920x1080. -/
def report1080 : String :=
  "    Stream #0:0: Video: mpeg4, yuv420p, 1920x1080, 30 fps"

/-- The descriptor `getVideoInfo` builds from `report1080`. -/
def descriptor1080 : Metadata :=
  { video :=
    { resolution := { w := JSNum.ofNat 1920, h := JSNum.ofNat 1080 }
      resolutionSquare := some { w := JSNum.ofNat 1920, h := JSNum.ofNat 1080 }
      aspect := some { x := JSNum.ofNat 16, y := JSNum.ofNat 9, string := "16:9",
                       value := JSNum.fin (16 / 9) }
      pixelString := "1:1"
      pixel := JSNum.ofNat 1 } }

/-- A stream line of a probe report whose display aspect is written unreduced:
600x1500, display aspect 6:15. -/
def report615 : String :=
  "    Stream #0:0: Video: h264 (High), yuv420p, 600x1500 [SAR 1:1 DAR 6:15], 25 fps"

/-- The descriptor `getVideoInfo` builds from `report615`. -/
def descriptor615 : Metadata :=
  { video :=
    { resolution := { w := JSNum.ofNat 600, h := JSNum.ofNat 1500 }
      resolutionSquare := some { w := JSNum.ofNat 600, h := JSNum.ofNat 1500 }
      aspect := some { x := JSNum.ofNat 6, y := JSNum.ofNat 15, string := "6:15",
                       value := JSNum.fin (6 / 15) }
      pixelString := "1:1"
      pixel := JSNum.ofNat 1 } }

/-- A stream line of a probe report without `SAR` and `DAR` fields: 1334x750. -/
def report750 : String :=
  "    Stream #0:0: Video: h264 (High), yuv420p, 1334x750, 30 fps"

/-- The descriptor `getVideoInfo` builds from `report750`. -/
def descriptor750 : Metadata :=
  { video :=
    { resolution := { w := JSNum.ofNat 1334, h := JSNum.ofNat 750 }
      resolutionSquare := some { w := JSNum.ofNat 1334, h := JSNum.ofNat 750 }
      aspect := some { x := JSNum.ofNat 667, y := JSNum.ofNat 375, string := "667:375",
                       value := JSNum.fin (667 / 375) }
      pixelString := "1:1"
      pixel := JSNum.ofNat 1 } }

/-- A capability set. -/
def sampleConfiguration : Configuration :=
  { modules := ["libx264", "libmp3lame"], encode := ["h264", "mp3", "aac"], decode := ["h264"] }

/-- A fresh session over `descriptor720`. -/
def session720 : Video := Video.new "in.mp4" sampleConfiguration descriptor720

/-- A session with two filter fragments and an output. -/
def sessionTwoFilters : Video :=
  ((session720.addFilterComplex "overlay=0:0").addFilterComplex "scale=640:360").setOutput
    "out.mp4"

/-- The options `setVideoSize (size)` records with its defaults, on a fresh session. -/
def sizeOptions (size : String) : Options :=
  (session720.setVideoSize (JSVal.str size) JSVal.undefined JSVal.undefined
    JSVal.undefined).options

/-- The `video` container of `sizeOptions size`. -/
def sizeContainer (size : String) : Container :=
  [("size", JSVal.str size), ("keepPixelAspectRatio", JSVal.bool true),
    ("keepAspectRatio", JSVal.bool true), ("paddingColor", JSVal.str "black")]

/-! ## Vocabulary of the capability listing -/

/-- A run of `n` spaces. -/
def spaces (n : Nat) : List Char := List.replicate n ' '

/-- Two spaces follow each other somewhere in the text. -/
def hasGap : List Char → Bool
  | a :: b :: rest => (a == ' ' && b == ' ') || hasGap (b :: rest)
  | _ => false

/-- The text is empty or ends with a line terminator. -/
def endsLine : List Char → Bool
  | [] => true
  | [t] => isLineTerminator t
  | _ :: rest => endsLine rest

/-- The text is empty or starts with a line terminator. -/
def atLineEnd : List Char → Bool
  | [] => true
  | t :: _ => isLineTerminator t

/-- The codecs a text lists: what the loop of `getInfoConfiguration` files from the
codec lines of the text. -/
def codecsOf (text : List Char) : Configuration :=
  (scanAll codecAt 0 text).foldl fileCodec { modules := [], encode := [], decode := [] }

/-- A codec line as the engine pads it: spaces, the opening with the scope, spaces,
the identifier, a padding of spaces and the description. -/
def codecLine (indent : Nat) (scope : String) (lead : Nat) (id : List Char) (pad : Nat)
    (description : List Char) : List Char :=
  spaces indent ++ ' ' :: (scope.data ++ ' ' :: (spaces lead ++ id ++ spaces pad ++ description))

/-! ## Sample capability listings -/

/-- The head of a capability listing: the configuration line and a title. -/
def listingHead : String :=
  "  configuration: --enable-gpl --enable-libmp3lame\nFile formats:\n"

/-- The end of a capability listing: two codec lines as the engine pads them. -/
def listingTail : String :=
  "\n  E 3g2             3GP2 (3GPP2 file format)\n"
    ++ " DE avi             AVI (Audio Video Interleaved)\n"

/-- A capability listing: a configuration line and three codec lines as the engine
pads them. -/
def listingPadded : String :=
  listingHead ++ " D  3dostr          3DO STR" ++ listingTail

/-- A capability listing with a codec line whose identifier fills the column, so
that one space separates it from the description. -/
def listingLongId : String :=
  " DE avi             AVI (Audio Video Interleaved)\n"
    ++ " D  mov,mp4,m4a,3gp,3g2,mj2 QuickTime / MOV\n"

/-- A capability listing without a codec line. -/
def listingNoCodec : String :=
  "  configuration: --enable-gpl --enable-libmp3lame\nFile formats:\n"

/-- A capability listing whose configuration line has no `--enable-` token. -/
def listingNoEnable : String :=
  "  configuration: --disable-doc\n DE avi             AVI (Audio Video Interleaved)\n"

/-! ## Sample sessions and options -/

/-- A capability set with the `libmp3lame` module whose encode list has no `mp3`. -/
def configurationWithoutMp3 : Configuration :=
  { modules := ["libmp3lame"], encode := ["aac"], decode := ["mp3"] }

/-- A capability set whose encode list holds the text of a flag. -/
def configurationWithFlag : Configuration :=
  { modules := [], encode := ["h264", "-s"], decode := [] }

/-- A disk on which every file exists. -/
def everyFileExists : String → Bool := fun _ => true

/-- Watermark options: anchor `NW`, left margin `10`, right margin `5`, top and
bottom margins `0`. -/
def watermarkNorthWest : Container :=
  [("position", JSVal.str "NW"), ("marginLeft", JSVal.num (JSNum.ofNat 10)),
    ("marginRight", JSVal.num (JSNum.ofNat 5)), ("marginTop", JSVal.num (JSNum.ofNat 0)),
    ("marginBottom", JSVal.num (JSNum.ofNat 0))]

/-- Frame options with two numeric interval options: every `frames` frames and every
`seconds` seconds. -/
def framesAndSeconds (frames seconds : Nat) : FrameOptions :=
  { everyFrames := JSVal.num (JSNum.ofNat frames)
    everySeconds := JSVal.num (JSNum.ofNat seconds) }

/-- The calls `setVideoCodec (codec)` and `setVideoSize (size)` on a fresh session. -/
def codecSizeSession (filePath : String) (configuration : Configuration) (info : Metadata)
    (codec size : String) : Outcome :=
  ((Video.new filePath configuration info).setVideoCodec codec).andThen (fun t =>
    (.ok (), t.setVideoSize (JSVal.str size) JSVal.undefined JSVal.undefined JSVal.undefined))

/-- The `video` container `codecSizeSession` leaves when the codec is accepted. -/
def codecSizeContainer (codec size : String) : Container :=
  [("codec", JSVal.str codec), ("size", JSVal.str size),
    ("keepPixelAspectRatio", JSVal.bool true), ("keepAspectRatio", JSVal.bool true),
    ("paddingColor", JSVal.str "black")]

/-- The option map `codecSizeSession` leaves when the codec is accepted. -/
def codecSizeOptions (codec size : String) : Options :=
  [("video", codecSizeContainer codec size)]

/-! ## Vocabulary of the session invariants -/

/-- The session is one for the primary file `filePath` and its inputs start with that
file. -/
def PrimaryFirst (filePath : String) (s : Video) : Prop :=
  s.filePath = filePath ∧ s.inputs.head? = some filePath

/-- A method keeps the primary file in front, whether it returns or throws. -/
def KeepsPrimary (method : Video → Outcome) : Prop :=
  ∀ (filePath : String) (s : Video), PrimaryFirst filePath s → PrimaryFirst filePath (method s).2

/-- The calls `setVideoSize (size, {keepAspectRatio})` on a fresh session. -/
def sizeSession (filePath : String) (configuration : Configuration) (info : Metadata)
    (size : String) (keepAspectRatio : Bool) : Video :=
  (Video.new filePath configuration info).setVideoSize (JSVal.str size) JSVal.undefined
    (JSVal.bool keepAspectRatio) JSVal.undefined

/-- The `video` container `sizeSession` leaves. -/
def sizeAspectContainer (size : String) (keepAspectRatio : Bool) : Container :=
  [("size", JSVal.str size), ("keepPixelAspectRatio", JSVal.bool true),
    ("keepAspectRatio", JSVal.bool keepAspectRatio), ("paddingColor", JSVal.str "black")]

/-- The scale and pad fragment of `addComplexAspect` for the texts of `x` and `y` and
the suffix of the padding color. -/
def padFragment (x y suffix : String) : String :=
  "scale=iw*sar:ih, pad=max(iw\\,ih*(" ++ x ++ "/" ++ y ++ ")):ow/(" ++ x ++ "/" ++ y
    ++ "):(ow-iw)/2:(oh-ih)/2" ++ suffix

namespace JSNum

/-! ## Doubles -/

theorem bitsWithin_zero (fuel : Nat) : bitsWithin fuel 0 = 0 := by
  cases fuel <;> simp [bitsWithin]

theorem bitsWithin_spec : ∀ fuel n : Nat, n ≤ fuel → n ≠ 0 →
    ∃ k, bitsWithin fuel n = k + 1 ∧ 2 ^ k ≤ n ∧ n < 2 ^ (k + 1) := by
  intro fuel
  induction fuel with
  | zero => intro n h0 hn; omega
  | succ fuel ih =>
    intro n hle hn
    simp only [bitsWithin, hn, if_false]
    by_cases hhalf : n / 2 = 0
    · rw [hhalf, bitsWithin_zero]
      refine ⟨0, rfl, ?_, ?_⟩ <;> omega
    · obtain ⟨k, hk, hlo, hhi⟩ := ih (n / 2) (by omega) hhalf
      refine ⟨k + 1, by rw [hk], ?_, ?_⟩
      · rw [pow_succ]; omega
      · rw [pow_succ]; omega

theorem bits_spec (n : Nat) (hn : n ≠ 0) :
    ∃ k, bits n = k + 1 ∧ 2 ^ k ≤ n ∧ n < 2 ^ (k + 1) :=
  bitsWithin_spec n n (le_refl n) hn

theorem pow2_eq (e : Int) : pow2 e = (2 : ℚ) ^ e := by
  unfold pow2
  split
  · rename_i h
    obtain ⟨n, rfl⟩ := Int.eq_ofNat_of_zero_le h
    simp
  · rename_i h
    have hneg : 0 ≤ -e := by omega
    obtain ⟨n, hn⟩ := Int.eq_ofNat_of_zero_le hneg
    have he : e = -(n : Int) := by omega
    subst he
    simp

theorem exponent_spec (q : ℚ) (hq : q ≠ 0) :
    (2 : ℚ) ^ exponent q ≤ |q| ∧ |q| < (2 : ℚ) ^ (exponent q + 1) := by
  have hnum : q.num.natAbs ≠ 0 := by
    simpa using hq
  obtain ⟨kn, hkn, hnlo, hnhi⟩ := bits_spec q.num.natAbs hnum
  obtain ⟨kd, hkd, hdlo, hdhi⟩ := bits_spec q.den q.den_nz
  have habs : |q| = (q.num.natAbs : ℚ) / (q.den : ℚ) := by
    conv_lhs => rw [← Rat.num_div_den q]
    rw [abs_div, Nat.abs_cast]
    congr 1
    rw [Nat.cast_natAbs, Int.cast_abs]
  have hden : (0 : ℚ) < (q.den : ℚ) := by exact_mod_cast q.den_pos
  have ht : (bits q.num.natAbs : Int) - (bits q.den : Int) = (kn : Int) - (kd : Int) := by
    rw [hkn, hkd]; push_cast; ring
  have h2 : (0 : ℚ) < 2 := by norm_num
  have hnlo' : (2 : ℚ) ^ kn ≤ (q.num.natAbs : ℚ) := by exact_mod_cast hnlo
  have hnhi' : (q.num.natAbs : ℚ) < (2 : ℚ) ^ (kn + 1) := by exact_mod_cast hnhi
  have hdlo' : (2 : ℚ) ^ kd ≤ (q.den : ℚ) := by exact_mod_cast hdlo
  have hdhi' : (q.den : ℚ) < (2 : ℚ) ^ (kd + 1) := by exact_mod_cast hdhi
  have hup : |q| < (2 : ℚ) ^ ((kn : Int) - (kd : Int) + 1) := by
    rw [habs, div_lt_iff₀ hden]
    have hexp : (2 : ℚ) ^ ((kn : Int) - (kd : Int) + 1) * (2 : ℚ) ^ kd = (2 : ℚ) ^ (kn + 1) := by
      rw [← zpow_natCast (2 : ℚ) kd, ← zpow_add₀ (by norm_num : (2 : ℚ) ≠ 0),
        ← zpow_natCast (2 : ℚ) (kn + 1)]
      congr 1
      push_cast; ring
    calc (q.num.natAbs : ℚ) < (2 : ℚ) ^ (kn + 1) := hnhi'
      _ = (2 : ℚ) ^ ((kn : Int) - (kd : Int) + 1) * (2 : ℚ) ^ kd := hexp.symm
      _ ≤ (2 : ℚ) ^ ((kn : Int) - (kd : Int) + 1) * (q.den : ℚ) :=
          mul_le_mul_of_nonneg_left hdlo' (le_of_lt (zpow_pos h2 _))
  have hlow : (2 : ℚ) ^ ((kn : Int) - (kd : Int) - 1) ≤ |q| := by
    rw [habs, le_div_iff₀ hden]
    have hexp : (2 : ℚ) ^ ((kn : Int) - (kd : Int) - 1) * (2 : ℚ) ^ (kd + 1) = (2 : ℚ) ^ kn := by
      rw [← zpow_natCast (2 : ℚ) (kd + 1), ← zpow_add₀ (by norm_num : (2 : ℚ) ≠ 0),
        ← zpow_natCast (2 : ℚ) kn]
      congr 1
      push_cast; ring
    calc (2 : ℚ) ^ ((kn : Int) - (kd : Int) - 1) * (q.den : ℚ)
        ≤ (2 : ℚ) ^ ((kn : Int) - (kd : Int) - 1) * (2 : ℚ) ^ (kd + 1) :=
          mul_le_mul_of_nonneg_left (le_of_lt hdhi') (le_of_lt (zpow_pos h2 _))
      _ = (2 : ℚ) ^ kn := hexp
      _ ≤ (q.num.natAbs : ℚ) := hnlo'
  unfold exponent
  simp only [ht, pow2_eq]
  split
  · rename_i hle
    exact ⟨hle, hup⟩
  · rename_i hnle
    refine ⟨hlow, ?_⟩
    have : (kn : Int) - (kd : Int) - 1 + 1 = (kn : Int) - (kd : Int) := by ring
    rw [this]
    exact lt_of_not_le hnle

theorem exponent_unique (q : ℚ) (e : Int) (hlo : (2 : ℚ) ^ e ≤ |q|)
    (hhi : |q| < (2 : ℚ) ^ (e + 1)) : exponent q = e := by
  have h2 : (1 : ℚ) < 2 := by norm_num
  have hq : q ≠ 0 := by
    intro h0
    rw [h0, abs_zero] at hlo
    exact absurd hlo (not_le.mpr (zpow_pos (by norm_num) _))
  obtain ⟨slo, shi⟩ := exponent_spec q hq
  have h1 : exponent q < e + 1 :=
    (zpow_lt_zpow_iff_right₀ h2).mp (lt_of_le_of_lt slo hhi)
  have h3 : e < exponent q + 1 :=
    (zpow_lt_zpow_iff_right₀ h2).mp (lt_of_le_of_lt hlo shi)
  omega

theorem roundHalfEven_intCast (z : Int) : roundHalfEven (z : ℚ) = z := by
  simp [roundHalfEven]

theorem roundHalfEven_ge (m : ℚ) (k : Int) (h : (k : ℚ) ≤ m) : k ≤ roundHalfEven m := by
  have hf : k ≤ ⌊m⌋ := Int.le_floor.mpr h
  unfold roundHalfEven
  simp only
  split
  · exact hf
  · split
    · omega
    · split <;> omega

theorem roundHalfEven_le (m : ℚ) (k : Int) (h : m ≤ (k : ℚ)) : roundHalfEven m ≤ k := by
  rcases eq_or_lt_of_le h with heq | hlt
  · rw [heq, roundHalfEven_intCast]
  · have hf : ⌊m⌋ < k := Int.floor_lt.mpr hlt
    unfold roundHalfEven
    simp only
    split
    · omega
    · split
      · omega
      · split <;> omega

/-- The shape of the double of a positive rational: a significand between `2^52` and
`2^53` times a power of two. -/
theorem toDouble_shape (q : ℚ) (hq : 0 < q) :
    ∃ r : Nat, 2 ^ 52 ≤ r ∧ r ≤ 2 ^ 53 ∧
      toDouble q = (r : ℚ) * (2 : ℚ) ^ (exponent q - 52) := by
  have hne : q ≠ 0 := ne_of_gt hq
  obtain ⟨slo, shi⟩ := exponent_spec q hne
  rw [abs_of_pos hq] at slo shi
  have hunit : (0 : ℚ) < (2 : ℚ) ^ (exponent q - 52) := zpow_pos (by norm_num) _
  have hsplit : (2 : ℚ) ^ exponent q = (2 : ℚ) ^ (52 : Nat) * (2 : ℚ) ^ (exponent q - 52) := by
    rw [← zpow_natCast (2 : ℚ) 52, ← zpow_add₀ (by norm_num : (2 : ℚ) ≠ 0)]
    congr 1
    push_cast; ring
  have hsplit1 : (2 : ℚ) ^ (exponent q + 1)
      = (2 : ℚ) ^ (53 : Nat) * (2 : ℚ) ^ (exponent q - 52) := by
    rw [← zpow_natCast (2 : ℚ) 53, ← zpow_add₀ (by norm_num : (2 : ℚ) ≠ 0)]
    congr 1
    push_cast; ring
  have hmlo : (((2 ^ 52 : Nat) : Int) : ℚ) ≤ q / (2 : ℚ) ^ (exponent q - 52) := by
    rw [le_div_iff₀ hunit]
    have hcast : (((2 ^ 52 : Nat) : Int) : ℚ) = (2 : ℚ) ^ (52 : Nat) := by norm_cast
    rw [hcast, ← hsplit]
    exact slo
  have hmhi : q / (2 : ℚ) ^ (exponent q - 52) ≤ (((2 ^ 53 : Nat) : Int) : ℚ) := by
    rw [div_le_iff₀ hunit]
    have hcast : (((2 ^ 53 : Nat) : Int) : ℚ) = (2 : ℚ) ^ (53 : Nat) := by norm_cast
    rw [hcast, ← hsplit1]
    exact le_of_lt shi
  have hrlo := roundHalfEven_ge _ _ hmlo
  have hrhi := roundHalfEven_le _ _ hmhi
  refine ⟨(roundHalfEven (q / (2 : ℚ) ^ (exponent q - 52))).toNat, ?_, ?_, ?_⟩
  · omega
  · omega
  · unfold toDouble
    simp only [hne, if_false, pow2_eq]
    congr 1
    have hnn : 0 ≤ roundHalfEven (q / (2 : ℚ) ^ (exponent q - 52)) := by omega
    conv_lhs => rw [← Int.toNat_of_nonneg hnn]
    rfl

/-- A rational that is a natural number below `2^53` times a power of two is a
double. -/
theorem toDouble_of_significand (k : Nat) (j : Int) (hk : k < 2 ^ 53) :
    toDouble ((k : ℚ) * (2 : ℚ) ^ j) = (k : ℚ) * (2 : ℚ) ^ j := by
  by_cases hk0 : k = 0
  · subst hk0
    simp [toDouble]
  have h2 : (1 : ℚ) < 2 := by norm_num
  have hkpos : (0 : ℚ) < (k : ℚ) := by exact_mod_cast Nat.pos_of_ne_zero hk0
  have hjpos : (0 : ℚ) < (2 : ℚ) ^ j := zpow_pos (by norm_num) _
  have hq : (0 : ℚ) < (k : ℚ) * (2 : ℚ) ^ j := mul_pos hkpos hjpos
  have hne : (k : ℚ) * (2 : ℚ) ^ j ≠ 0 := ne_of_gt hq
  obtain ⟨slo, -⟩ := exponent_spec _ hne
  rw [abs_of_pos hq] at slo
  have hlt : (2 : ℚ) ^ exponent ((k : ℚ) * (2 : ℚ) ^ j) < (2 : ℚ) ^ (53 + j) := by
    calc (2 : ℚ) ^ exponent ((k : ℚ) * (2 : ℚ) ^ j) ≤ (k : ℚ) * (2 : ℚ) ^ j := slo
      _ < (2 : ℚ) ^ (53 : Nat) * (2 : ℚ) ^ j := by
          apply mul_lt_mul_of_pos_right _ hjpos
          exact_mod_cast hk
      _ = (2 : ℚ) ^ (53 + j) := by
          rw [← zpow_natCast (2 : ℚ) 53, ← zpow_add₀ (by norm_num : (2 : ℚ) ≠ 0)]
          rfl
  have he : exponent ((k : ℚ) * (2 : ℚ) ^ j) < 53 + j := (zpow_lt_zpow_iff_right₀ h2).mp hlt
  obtain ⟨s, hs⟩ := Int.eq_ofNat_of_zero_le
    (by omega : 0 ≤ j - (exponent ((k : ℚ) * (2 : ℚ) ^ j) - 52))
  have hquot : (k : ℚ) * (2 : ℚ) ^ j / (2 : ℚ) ^ (exponent ((k : ℚ) * (2 : ℚ) ^ j) - 52)
      = (((k * 2 ^ s : Nat) : Int) : ℚ) := by
    rw [mul_div_assoc, ← zpow_sub₀ (by norm_num : (2 : ℚ) ≠ 0), hs, zpow_natCast]
    push_cast
    rfl
  unfold toDouble
  simp only [hne, if_false, pow2_eq]
  rw [hquot, roundHalfEven_intCast]
  push_cast
  rw [mul_assoc, ← zpow_natCast (2 : ℚ) s, ← hs, ← zpow_add₀ (by norm_num : (2 : ℚ) ≠ 0)]
  congr 2
  ring

theorem toDouble_natCast (n : Nat) (hn : n < 2 ^ 53) : toDouble (n : ℚ) = (n : ℚ) := by
  have h := toDouble_of_significand n 0 hn
  simpa using h

theorem toDouble_zero : toDouble 0 = 0 := by
  simp [toDouble]

theorem toDouble_idem_of_pos (q : ℚ) (hq : 0 < q) : toDouble (toDouble q) = toDouble q := by
  obtain ⟨r, -, hhi, hr⟩ := toDouble_shape q hq
  rw [hr]
  rcases Nat.lt_or_ge r (2 ^ 53) with hlt | hge
  · exact toDouble_of_significand r _ hlt
  · have hr53 : r = 2 ^ 53 := le_antisymm hhi hge
    have hrew : (r : ℚ) * (2 : ℚ) ^ (exponent q - 52)
        = ((1 : Nat) : ℚ) * (2 : ℚ) ^ (exponent q + 1) := by
      have hcast : ((2 ^ 53 : Nat) : ℚ) = (2 : ℚ) ^ (53 : Nat) := by norm_cast
      rw [hr53, hcast, Nat.cast_one, one_mul, ← zpow_natCast (2 : ℚ) 53,
        ← zpow_add₀ (by norm_num : (2 : ℚ) ≠ 0)]
      congr 1
      push_cast; ring
    rw [hrew]
    exact toDouble_of_significand 1 _ (by norm_num)

theorem toDouble_nonneg (q : ℚ) (hq : 0 ≤ q) : 0 ≤ toDouble q := by
  rcases eq_or_lt_of_le hq with h0 | hpos
  · rw [← h0, toDouble_zero]
  · obtain ⟨r, -, -, hr⟩ := toDouble_shape q hpos
    rw [hr]
    exact mul_nonneg (Nat.cast_nonneg r) (le_of_lt (zpow_pos (by norm_num) _))

theorem toDouble_idem (q : ℚ) (hq : 0 ≤ q) : toDouble (toDouble q) = toDouble q := by
  rcases eq_or_lt_of_le hq with h0 | hpos
  · rw [← h0, toDouble_zero, toDouble_zero]
  · exact toDouble_idem_of_pos q hpos

@[simp]
theorem operand_natCast (n : Nat) : operand (n : ℚ) = (n : ℚ) := by
  simp [operand]

@[simp]
theorem operand_intCast (z : Int) : operand (z : ℚ) = (z : ℚ) := by
  simp [operand]

@[simp]
theorem operand_zero : operand 0 = 0 := by
  simp [operand]

@[simp]
theorem operand_one : operand 1 = 1 := by
  simp [operand]

@[simp]
theorem operand_ofNat (n : Nat) [n.AtLeastTwo] : operand (OfNat.ofNat n : ℚ) = OfNat.ofNat n := by
  have h := operand_natCast (OfNat.ofNat n)
  rw [Nat.cast_ofNat] at h
  exact h

theorem operand_toDouble (q : ℚ) (hq : 0 ≤ q) : operand (toDouble q) = toDouble q := by
  unfold operand
  split
  · rfl
  · exact toDouble_idem q hq

theorem operand_nonneg (q : ℚ) (hq : 0 ≤ q) : 0 ≤ operand q := by
  unfold operand
  split
  · exact hq
  · exact toDouble_nonneg q hq

/-- Below `2^53` an integer is a double, so that reading a non-negative rational
below `2^53` is rounding it. -/
theorem operand_of_lt (q : ℚ) (h0 : 0 ≤ q) (hlt : q < (2 : ℚ) ^ (53 : Nat)) :
    operand q = toDouble q := by
  unfold operand
  split
  · rename_i hden
    have hnum : 0 ≤ q.num := Rat.num_nonneg.mpr h0
    have hq : q = ((q.num.toNat : Nat) : ℚ) := by
      conv_lhs => rw [← Rat.num_div_den q, hden]
      rw [Nat.cast_one, div_one]
      exact_mod_cast (congrArg (Int.cast : ℤ → ℚ) (Int.toNat_of_nonneg hnum)).symm
    have hsmall : q.num.toNat < 2 ^ 53 := by
      have : ((q.num.toNat : Nat) : ℚ) < ((2 ^ 53 : Nat) : ℚ) := by
        rw [← hq]
        exact_mod_cast hlt
      exact_mod_cast this
    rw [hq, toDouble_natCast _ hsmall]
  · rfl

/-- The double of a natural number is a natural number. -/
theorem toDouble_natCast_natural (n : Nat) : ∃ k : Nat, toDouble (n : ℚ) = (k : ℚ) := by
  rcases Nat.lt_or_ge n (2 ^ 53) with hlt | hge
  · exact ⟨n, toDouble_natCast n hlt⟩
  · have hpos : (0 : ℚ) < (n : ℚ) := by
      have : 0 < n := lt_of_lt_of_le (by norm_num) hge
      exact_mod_cast this
    obtain ⟨r, -, -, hr⟩ := toDouble_shape (n : ℚ) hpos
    obtain ⟨-, shi⟩ := exponent_spec (n : ℚ) (ne_of_gt hpos)
    rw [abs_of_pos hpos] at shi
    have hlow : (2 : ℚ) ^ ((53 : Nat) : Int) < (2 : ℚ) ^ (exponent (n : ℚ) + 1) := by
      rw [zpow_natCast]
      calc (2 : ℚ) ^ (53 : Nat) ≤ (n : ℚ) := by exact_mod_cast hge
        _ < _ := shi
    have he : ((53 : Nat) : Int) < exponent (n : ℚ) + 1 :=
      (zpow_lt_zpow_iff_right₀ (by norm_num : (1 : ℚ) < 2)).mp hlow
    obtain ⟨s, hs⟩ := Int.eq_ofNat_of_zero_le (by omega : 0 ≤ exponent (n : ℚ) - 52)
    refine ⟨r * 2 ^ s, ?_⟩
    rw [hr, hs, zpow_natCast]
    push_cast
    rfl

/-- An odd integer that `Math.round` makes of a non-negative double is below `2^53`:
from `2^53` on every double is an even integer. -/
theorem round_toDouble_settled (q : ℚ) (hq : 0 ≤ q) (k : Nat)
    (hk : ⌊toDouble q + 1 / 2⌋ = (k : Int)) (hodd : k % 2 = 1) : k < 2 ^ 53 := by
  rcases eq_or_lt_of_le hq with h0 | hpos
  · rw [← h0, toDouble_zero] at hk
    have hfl : ⌊(0 : ℚ) + 1 / 2⌋ = 0 := by
      rw [Int.floor_eq_iff]; norm_num
    rw [hfl] at hk
    omega
  · obtain ⟨r, -, hhi, hr⟩ := toDouble_shape q hpos
    rcases lt_or_ge (exponent q) 52 with hlt | hge
    · have hpow : (2 : ℚ) ^ (exponent q - 52) ≤ (2 : ℚ) ^ (-1 : Int) :=
        (zpow_le_zpow_iff_right₀ (by norm_num : (1 : ℚ) < 2)).mpr (by omega)
      have hr' : (r : ℚ) ≤ (2 : ℚ) ^ (53 : Nat) := by exact_mod_cast hhi
      have hbound : toDouble q ≤ (2 : ℚ) ^ (52 : Nat) := by
        rw [hr]
        calc (r : ℚ) * (2 : ℚ) ^ (exponent q - 52)
            ≤ (2 : ℚ) ^ (53 : Nat) * (2 : ℚ) ^ (-1 : Int) :=
              mul_le_mul hr' hpow (le_of_lt (zpow_pos (by norm_num) _)) (by positivity)
          _ = (2 : ℚ) ^ (52 : Nat) := by norm_num
      have hfl : ⌊toDouble q + 1 / 2⌋ ≤ ((2 ^ 52 : Nat) : Int) := by
        have hlt2 : ⌊toDouble q + 1 / 2⌋ < ((2 ^ 52 : Nat) : Int) + 1 := by
          rw [Int.floor_lt]
          push_cast
          have : toDouble q + 1 / 2 < (2 : ℚ) ^ (52 : Nat) + 1 := by linarith
          exact_mod_cast this
        omega
      rw [hk] at hfl
      have : k ≤ 2 ^ 52 := by exact_mod_cast hfl
      have h5253 : (2 : Nat) ^ 52 < 2 ^ 53 := by norm_num
      omega
    · obtain ⟨s, hs⟩ := Int.eq_ofNat_of_zero_le (by omega : 0 ≤ exponent q - 52)
      have hnat : toDouble q = ((r * 2 ^ s : Nat) : ℚ) := by
        rw [hr, hs, zpow_natCast]
        push_cast
        rfl
      have hfl : ⌊toDouble q + 1 / 2⌋ = ((r * 2 ^ s : Nat) : Int) := by
        rw [hnat, Int.floor_eq_iff]
        constructor
        · push_cast; linarith
        · push_cast; linarith
      rw [hfl] at hk
      have hkr : r * 2 ^ s = k := by exact_mod_cast hk
      cases s with
      | zero =>
        simp only [pow_zero, mul_one] at hkr
        subst hkr
        rcases Nat.lt_or_ge r (2 ^ 53) with h1 | h2
        · exact h1
        · have : r = 2 ^ 53 := le_antisymm hhi h2
          rw [this] at hodd
          norm_num at hodd
      | succ s =>
        have heven : k = 2 * (r * 2 ^ s) := by
          rw [← hkr, pow_succ]; ring
        omega

/-- An odd natural number that is the double of a natural number is below `2^53`. -/
theorem toDouble_natCast_settled (n k : Nat) (hk : toDouble (n : ℚ) = (k : ℚ))
    (hodd : k % 2 = 1) : k < 2 ^ 53 := by
  apply round_toDouble_settled (n : ℚ) (Nat.cast_nonneg n) k _ hodd
  rw [hk, Int.floor_eq_iff]
  constructor
  · push_cast; linarith
  · push_cast; linarith

end JSNum

/-! ## Arithmetic on natural numbers -/

namespace JSNum

theorem ofNat_inj {a b : Nat} : ofNat a = ofNat b ↔ a = b := by
  simp [ofNat]

theorem truncRat_of_nonneg {q : ℚ} (hq : 0 ≤ q) : truncRat q = ⌊q⌋ := by
  unfold truncRat
  rw [Rat.floor_def, Int.tdiv_eq_ediv (Rat.num_nonneg.mpr hq) (by positivity)]

theorem truncRat_natCast_div (a b : Nat) : truncRat ((a : ℚ) / (b : ℚ)) = ((a / b : Nat) : ℤ) := by
  rw [truncRat_of_nonneg (by positivity), Rat.floor_natCast_div_natCast]
  norm_cast

theorem rem_ofNat (a b : Nat) (hb : b ≠ 0) : rem (ofNat a) (ofNat b) = ofNat (a % b) := by
  have hb' : (b : ℚ) ≠ 0 := by exact_mod_cast hb
  simp only [rem, ofNat, hb', if_false, operand_natCast, truncRat_natCast_div]
  congr 1
  have h := Nat.div_add_mod a b
  have h' : (a : ℚ) = (b : ℚ) * ((a / b : Nat) : ℚ) + ((a % b : Nat) : ℚ) := by
    exact_mod_cast h.symm
  rw [Int.cast_natCast]
  linarith

theorem isZero_ofNat (a : Nat) : isZero (ofNat a) = decide (a = 0) := by
  simp [isZero, ofNat]

theorem neZero_ofNat (a : Nat) : neZero (ofNat a) = decide (a ≠ 0) := by
  simp [neZero, ofNat]

theorem div_ofNat (a b : Nat) (hb : b ≠ 0) : div (ofNat a) (ofNat b) = fin ((a : ℚ) / (b : ℚ)) := by
  have hb' : (b : ℚ) ≠ 0 := by exact_mod_cast hb
  simp [div, ofNat, hb', operand_natCast]

theorem div_ofNat_of_dvd (a b : Nat) (hb : b ≠ 0) (h : b ∣ a) :
    div (ofNat a) (ofNat b) = ofNat (a / b) := by
  rw [div_ofNat a b hb]
  simp only [ofNat]
  congr 1
  rw [Nat.cast_div h (by exact_mod_cast hb)]

theorem round_fin_nonneg {q : ℚ} (hq : 0 ≤ operand q) :
    round (fin q) = ofNat ⌊operand q + 1 / 2⌋.toNat := by
  simp only [round, ofNat]
  congr 1
  have h : (0 : ℤ) ≤ ⌊operand q + 1 / 2⌋ := Int.floor_nonneg.mpr (by linarith)
  exact_mod_cast (congrArg (Int.cast : ℤ → ℚ) (Int.toNat_of_nonneg h)).symm

/-- The rounding of a double that is not negative: a natural number, which is below
`2^53` when it is odd. -/
theorem round_toDouble (q : ℚ) (hq : 0 ≤ q) :
    round (fin (toDouble q)) = ofNat ⌊toDouble q + 1 / 2⌋.toNat ∧
      (⌊toDouble q + 1 / 2⌋.toNat % 2 = 1 → ⌊toDouble q + 1 / 2⌋.toNat < 2 ^ 53) := by
  have hop := operand_toDouble q hq
  have hnn := toDouble_nonneg q hq
  constructor
  · have h := @round_fin_nonneg (toDouble q) (by rw [hop]; exact hnn)
    rw [hop] at h
    exact h
  · intro hodd
    have hfl : (0 : ℤ) ≤ ⌊toDouble q + 1 / 2⌋ := Int.floor_nonneg.mpr (by linarith)
    exact round_toDouble_settled q hq _ (Int.toNat_of_nonneg hfl).symm hodd

theorem dec_ofNat (a : Nat) (ha : a ≠ 0) (hlt : a ≤ 2 ^ 53) : dec (ofNat a) = ofNat (a - 1) := by
  have h1 : 1 ≤ a := Nat.one_le_iff_ne_zero.mpr ha
  have hsub : (a : ℚ) - 1 = ((a - 1 : Nat) : ℚ) := by
    push_cast [Nat.cast_sub h1]
    ring
  simp only [dec, ofNat, operand_natCast]
  rw [hsub, toDouble_natCast (a - 1) (by omega)]

/-- The number a natural numeral is read as: a natural number, which is below `2^53`
when it is odd. -/
theorem nearest_natCast (n : Nat) :
    ∃ k : Nat, nearest (n : ℚ) = ofNat k ∧ (k % 2 = 1 → k < 2 ^ 53) := by
  obtain ⟨k, hk⟩ := toDouble_natCast_natural n
  exact ⟨k, by simp [nearest, ofNat, hk], toDouble_natCast_settled n k hk⟩

theorem nearest_natCast_of_lt (n : Nat) (hn : n < 2 ^ 53) : nearest (n : ℚ) = ofNat n := by
  simp [nearest, ofNat, toDouble_natCast n hn]

theorem mul_ofNat (a b : Nat) (h : a * b < 2 ^ 53) : mul (ofNat a) (ofNat b) = ofNat (a * b) := by
  have hcast : (a : ℚ) * (b : ℚ) = ((a * b : Nat) : ℚ) := by push_cast; rfl
  simp only [mul, ofNat, operand_natCast]
  rw [hcast, toDouble_natCast _ h]

theorem add_ofNat (a b : Nat) (h : a + b < 2 ^ 53) : add (ofNat a) (ofNat b) = ofNat (a + b) := by
  have hcast : (a : ℚ) + (b : ℚ) = ((a + b : Nat) : ℚ) := by push_cast; rfl
  simp only [add, ofNat, operand_natCast]
  rw [hcast, toDouble_natCast _ h]

end JSNum

namespace utils

theorem gcdLoop_ofNat (depth : Nat) : ∀ a b : Nat, b < depth →
    gcdLoop depth (JSNum.ofNat a) (JSNum.ofNat b) = some (JSNum.ofNat (Nat.gcd a b)) := by
  induction depth with
  | zero => intro a b h; omega
  | succ n ih =>
    intro a b h
    by_cases hb : b = 0
    · subst hb
      simp [gcdLoop, JSNum.isZero_ofNat]
    · have hlt : a % b < n := by
        have := Nat.mod_lt a (Nat.pos_of_ne_zero hb)
        omega
      simp only [gcdLoop, JSNum.isZero_ofNat, hb, decide_False, Bool.false_eq_true, if_false,
        JSNum.rem_ofNat a b hb, ih b (a % b) hlt]
      rw [Nat.gcd_comm a b, Nat.gcd_rec b a, Nat.gcd_comm]

theorem gcd_ofNat (a b : Nat) :
    gcd (JSNum.ofNat a) (JSNum.ofNat b) = some (JSNum.ofNat (Nat.gcd a b)) := by
  unfold gcd
  apply gcdLoop_ofNat
  simp [gcdDepth, JSNum.ofNat, JSNum.operand_natCast]

end utils

/-! ## Decimal numerals -/

theorem digitChar_isDigit (d : Nat) (h : d < 10) :
    (Nat.digitChar d).isDigit = true ∧ (Nat.digitChar d).toNat - 48 = d := by
  interval_cases d <;> decide

theorem digitsValue_append_singleton (ds : List Char) (c : Char) :
    digitsValue (ds ++ [c]) = digitsValue ds * 10 + (c.toNat - 48) := by
  simp [digitsValue, List.foldl_append]

/-- The digits `Nat.toDigitsCore` puts in front of `tail` read back as `value`, given
enough fuel. -/
theorem toDigitsCore_reads_back : ∀ (fuel value : Nat) (tail : List Char), value < fuel →
    ∃ run : List Char, (∀ c ∈ run, c.isDigit = true) ∧ digitsValue run = value ∧ run ≠ [] ∧
      Nat.toDigitsCore 10 fuel value tail = run ++ tail := by
  intro fuel
  induction fuel with
  | zero => intro value tail h; omega
  | succ f ih =>
    intro value tail h
    have hd := digitChar_isDigit (value % 10) (Nat.mod_lt value (by decide))
    by_cases h0 : value / 10 = 0
    · refine ⟨[Nat.digitChar (value % 10)], ?_, ?_, by simp, ?_⟩
      · intro c hc
        simp only [List.mem_singleton] at hc
        rw [hc]; exact hd.1
      · have hone : digitsValue [Nat.digitChar (value % 10)]
            = (Nat.digitChar (value % 10)).toNat - 48 := by
          simp [digitsValue]
        rw [hone, hd.2]
        omega
      · simp [Nat.toDigitsCore, h0]
    · have hlt : value / 10 < f := by omega
      obtain ⟨run, hdig, hval, _, hrun⟩ :=
        ih (value / 10) (Nat.digitChar (value % 10) :: tail) hlt
      refine ⟨run ++ [Nat.digitChar (value % 10)], ?_, ?_, by simp, ?_⟩
      · intro c hc
        rcases List.mem_append.mp hc with hc | hc
        · exact hdig c hc
        · simp only [List.mem_singleton] at hc
          rw [hc]; exact hd.1
      · rw [digitsValue_append_singleton, hval, hd.2]
        omega
      · simp [Nat.toDigitsCore, h0, hrun]

/-- The decimal numeral of a natural number is a non-empty run of digits that reads
back as the number. -/
theorem repr_spec (n : Nat) :
    (Nat.repr n).data ≠ [] ∧ (∀ c ∈ (Nat.repr n).data, c.isDigit = true) ∧
      digitsValue (Nat.repr n).data = n := by
  obtain ⟨run, hdig, hval, hne, hrun⟩ := toDigitsCore_reads_back (n + 1) n [] (Nat.lt_succ_self n)
  have hdata : (Nat.repr n).data = run := by
    simp [Nat.repr, Nat.toDigits, hrun, List.asString]
  rw [hdata]
  exact ⟨hne, hdig, hval⟩

theorem isDigit_bounds (c : Char) (h : c.isDigit = true) : 48 ≤ c.toNat ∧ c.toNat ≤ 57 := by
  simp only [Char.isDigit, Bool.and_eq_true, decide_eq_true_eq] at h
  obtain ⟨h1, h2⟩ := h
  have h1' : (48 : UInt32).toNat ≤ c.val.toNat := h1
  have h2' : c.val.toNat ≤ (57 : UInt32).toNat := h2
  exact ⟨h1', h2'⟩

theorem isDigit_not_whiteSpace (c : Char) (h : c.isDigit = true) : isWhiteSpace c = false := by
  obtain ⟨h1, h2⟩ := isDigit_bounds c h
  simp only [isWhiteSpace, Bool.or_eq_false_iff, decide_eq_false_iff_not, Bool.and_eq_false_iff,
    List.mem_cons, List.mem_singleton, List.not_mem_nil, or_false]
  constructor <;> omega

theorem isDigit_ne_of_not_digit (c d : Char) (h : c.isDigit = true) (hd : d.isDigit = false) :
    c ≠ d := by
  intro hcd
  rw [hcd, hd] at h
  exact Bool.false_ne_true h

theorem takeWhile_digits_append (ds rest : List Char) (h : ∀ c ∈ ds, c.isDigit = true)
    (hrest : ∀ c, rest.head? = some c → c.isDigit = false) :
    (ds ++ rest).takeWhile Char.isDigit = ds ∧ (ds ++ rest).dropWhile Char.isDigit = rest := by
  induction ds with
  | nil =>
    cases rest with
    | nil => simp
    | cons r rs =>
      have := hrest r rfl
      simp [List.takeWhile, List.dropWhile, this]
  | cons d ds ih =>
    have hd : d.isDigit = true := h d (List.mem_cons_self _ _)
    have := ih (fun c hc => h c (List.mem_cons_of_mem _ hc))
    simp [List.takeWhile, List.dropWhile, hd, this.1, this.2]

theorem takeWhile_digits (ds : List Char) (h : ∀ c ∈ ds, c.isDigit = true) :
    ds.takeWhile Char.isDigit = ds ∧ ds.dropWhile Char.isDigit = [] := by
  have := takeWhile_digits_append ds [] h (by simp)
  simpa using this

/-- On a non-empty run of digits `parseInt` reads the value of the run, as the double
nearest to it. -/
theorem parseInt_digits (ds : List Char) (hne : ds ≠ []) (h : ∀ c ∈ ds, c.isDigit = true) :
    parseInt ds = JSNum.nearest (digitsValue ds : Nat) := by
  cases ds with
  | nil => exact absurd rfl hne
  | cons d rest =>
    have hd : d.isDigit = true := h d (List.mem_cons_self _ _)
    have hws : isWhiteSpace d = false := isDigit_not_whiteSpace d hd
    have hminus : d ≠ '-' := isDigit_ne_of_not_digit d '-' hd (by decide)
    have hplus : d ≠ '+' := isDigit_ne_of_not_digit d '+' hd (by decide)
    have htw := (takeWhile_digits (d :: rest) h).1
    unfold parseInt
    have hbody : (d :: rest).dropWhile isWhiteSpace = d :: rest := by
      simp [List.dropWhile, hws]
    rw [hbody]
    have hsigned : (match d :: rest with
        | '-' :: rest => (true, rest)
        | '+' :: rest => (false, rest)
        | rest => (false, rest)) = ((false, d :: rest) : Bool × List Char) := by
      split
      · rename_i heq; simp only [List.cons.injEq] at heq; exact absurd heq.1 hminus
      · rename_i heq; simp only [List.cons.injEq] at heq; exact absurd heq.1 hplus
      · rfl
    simp only [hsigned, htw]
    simp

/-- The value of a run of digits is below the power of ten of its length. -/
theorem digitsValue_lt (ds : List Char) (h : ∀ c ∈ ds, c.isDigit = true) :
    digitsValue ds < 10 ^ ds.length := by
  induction ds using List.reverseRecOn with
  | nil => simp [digitsValue]
  | append_singleton ds c ih =>
    have hc : c.isDigit = true := h c (by simp)
    have hb := isDigit_bounds c hc
    have hprev := ih (fun d hd => h d (by simp [hd]))
    rw [digitsValue_append_singleton, List.length_append, List.length_singleton, pow_succ]
    omega

/-- A run of at most `n` digits, `n` up to fifteen, is read as its value, which is
below `10^n`. -/
theorem parseInt_digits_short (ds : List Char) (hne : ds ≠ [])
    (h : ∀ c ∈ ds, c.isDigit = true) (n : Nat) (hlen : ds.length ≤ n) (hn : n ≤ 15) :
    parseInt ds = JSNum.ofNat (digitsValue ds) ∧ digitsValue ds < 10 ^ n := by
  have hlt := digitsValue_lt ds h
  have hpow : 10 ^ ds.length ≤ 10 ^ n := Nat.pow_le_pow_right (by decide) hlen
  have hpow15 : 10 ^ n ≤ 10 ^ 15 := Nat.pow_le_pow_right (by decide) hn
  have hbound : digitsValue ds < 10 ^ n := lt_of_lt_of_le hlt hpow
  refine ⟨?_, hbound⟩
  rw [parseInt_digits ds hne h]
  exact JSNum.nearest_natCast_of_lt _
    (lt_of_lt_of_le hbound (le_trans hpow15 (by norm_num)))

/-- A numeral whose value is below `2^53` is read as its value. -/
theorem parseInt_digits_of_lt (ds : List Char) (hne : ds ≠ [])
    (h : ∀ c ∈ ds, c.isDigit = true) (hlt : digitsValue ds < 2 ^ 53) :
    parseInt ds = JSNum.ofNat (digitsValue ds) := by
  rw [parseInt_digits ds hne h]
  exact JSNum.nearest_natCast_of_lt _ hlt

/-- What `parseInt` reads on a non-empty run of digits is a natural number, which is
below `2^53` when it is odd. -/
theorem parseInt_digits_natural (ds : List Char) (hne : ds ≠ [])
    (h : ∀ c ∈ ds, c.isDigit = true) :
    ∃ k : Nat, parseInt ds = JSNum.ofNat k ∧ (k % 2 = 1 → k < 2 ^ 53) := by
  rw [parseInt_digits ds hne h]
  exact JSNum.nearest_natCast _

/-! ## Searching a pattern -/

theorem searchFrom_of_head {α : Type} (matchAt : List Char → Option α) (cs : List Char) (r : α)
    (h : matchAt cs = some r) : searchFrom matchAt cs = some r := by
  cases cs <;> simp [searchFrom, h]

theorem searchFrom_eq_none_iff {α : Type} (matchAt : List Char → Option α) (cs : List Char) :
    searchFrom matchAt cs = none ↔ ¬ OccursIn matchAt cs := by
  induction cs with
  | nil =>
    simp only [searchFrom, OccursIn]
    constructor
    · rintro h ⟨pre, post, hsplit, hsome⟩
      have hpost : post = [] := (List.append_eq_nil.mp hsplit.symm).2
      rw [hpost, h] at hsome
      exact Bool.false_ne_true hsome
    · intro h
      cases hm : matchAt [] with
      | none => rfl
      | some r => exact absurd ⟨[], [], rfl, by simp [hm]⟩ h
  | cons c cs ih =>
    cases hm : matchAt (c :: cs) with
    | some r =>
      simp only [searchFrom, hm]
      constructor
      · intro h; cases h
      · intro h; exact absurd ⟨[], c :: cs, rfl, by simp [hm]⟩ h
    | none =>
      simp only [searchFrom, hm, ih]
      constructor
      · rintro h ⟨pre, post, hsplit, hsome⟩
        cases pre with
        | nil =>
          simp only [List.nil_append] at hsplit
          rw [← hsplit, hm] at hsome
          exact Bool.false_ne_true hsome
        | cons p pre =>
          simp only [List.cons_append, List.cons.injEq] at hsplit
          exact h ⟨pre, post, hsplit.2, hsome⟩
      · rintro h ⟨pre, post, hsplit, hsome⟩
        exact h ⟨c :: pre, post, by simp [hsplit], hsome⟩

theorem mem_of_dropWhile_eq {p : Char → Bool} {cs rest : List Char} {c : Char}
    (h : cs.dropWhile p = rest) (hc : c ∈ rest) : c ∈ cs := by
  have hs : cs.dropWhile p <:+ cs := List.dropWhile_suffix p
  rw [h] at hs
  exact hs.subset hc

theorem fixedWidthAt_none_of_no_question (cs : List Char) (h : '?' ∉ cs) :
    fixedWidthAt cs = none := by
  unfold fixedWidthAt
  split
  · rename_i heq
    exact absurd (mem_of_dropWhile_eq heq (by simp)) h
  · rfl

theorem fixedHeightAt_none_of_no_question (cs : List Char) (h : '?' ∉ cs) :
    fixedHeightAt cs = none := by
  unfold fixedHeightAt
  split
  · exact absurd (by simp) h
  · rfl

theorem percentageAt_none_of_no_percent (cs : List Char) (h : '%' ∉ cs) :
    percentageAt cs = none := by
  have htwo : (match cs with
      | d1 :: d2 :: '%' :: _ => if d1.isDigit && d2.isDigit then some [d1, d2] else none
      | _ => (none : Option (List Char))) = none := by
    split
    · exact absurd (by simp) h
    · rfl
  have hone : (match cs with
      | d1 :: '%' :: _ => if d1.isDigit then some [d1] else none
      | _ => (none : Option (List Char))) = none := by
    split
    · exact absurd (by simp) h
    · rfl
  unfold percentageAt
  simp only [htwo, hone]

theorem searchFrom_none_of_forall {α : Type} (matchAt : List Char → Option α)
    (P : List Char → Prop) (hP : ∀ c cs, P (c :: cs) → P cs)
    (hnone : ∀ cs, P cs → matchAt cs = none) : ∀ cs, P cs → searchFrom matchAt cs = none := by
  intro cs
  induction cs with
  | nil => intro h; simp [searchFrom, hnone [] h]
  | cons c cs ih =>
    intro h
    simp [searchFrom, hnone (c :: cs) h, ih (hP c cs h)]

theorem search_fixedWidth_none (cs : List Char) (h : '?' ∉ cs) :
    searchFrom fixedWidthAt cs = none :=
  searchFrom_none_of_forall fixedWidthAt (fun cs => '?' ∉ cs)
    (fun _ _ h hc => h (List.mem_cons_of_mem _ hc)) fixedWidthAt_none_of_no_question cs h

theorem search_fixedHeight_none (cs : List Char) (h : '?' ∉ cs) :
    searchFrom fixedHeightAt cs = none :=
  searchFrom_none_of_forall fixedHeightAt (fun cs => '?' ∉ cs)
    (fun _ _ h hc => h (List.mem_cons_of_mem _ hc)) fixedHeightAt_none_of_no_question cs h

theorem search_percentage_none (cs : List Char) (h : '%' ∉ cs) :
    searchFrom percentageAt cs = none :=
  searchFrom_none_of_forall percentageAt (fun cs => '%' ∉ cs)
    (fun _ _ h hc => h (List.mem_cons_of_mem _ hc)) percentageAt_none_of_no_percent cs h

theorem not_mem_digits (ds : List Char) (h : ∀ c ∈ ds, c.isDigit = true) (d : Char)
    (hd : d.isDigit = false) : d ∉ ds := by
  intro hmem
  have := h d hmem
  rw [hd] at this
  exact Bool.false_ne_true this

/-- The text `{N}x?` followed by anything: the first pattern matches at its head. -/
theorem search_fixedWidth_form (ds tail : List Char) (hne : ds ≠ [])
    (h : ∀ c ∈ ds, c.isDigit = true) :
    searchFrom fixedWidthAt (ds ++ 'x' :: '?' :: tail) = some ds := by
  apply searchFrom_of_head
  have := takeWhile_digits_append ds ('x' :: '?' :: tail) h (by simp)
  simp [fixedWidthAt, this.1, this.2, hne]

/-- The text `?x{N}`: the first pattern matches nowhere, the second at its head. -/
theorem search_fixedHeight_form (ds : List Char) (hne : ds ≠ [])
    (h : ∀ c ∈ ds, c.isDigit = true) :
    searchFrom fixedWidthAt ('?' :: 'x' :: ds) = none ∧
      searchFrom fixedHeightAt ('?' :: 'x' :: ds) = some ds := by
  have hq : '?' ∉ ds := not_mem_digits ds h '?' (by decide)
  have htw := takeWhile_digits ds h
  constructor
  · have h0 : fixedWidthAt ('?' :: 'x' :: ds) = none := by
      simp [fixedWidthAt, List.takeWhile, List.dropWhile, show Char.isDigit '?' = false by decide]
    have h1 : fixedWidthAt ('x' :: ds) = none := by
      simp only [fixedWidthAt, List.takeWhile, List.dropWhile,
        show Char.isDigit 'x' = false by decide]
      split <;> simp
    simp [searchFrom, h0, h1, search_fixedWidth_none ds hq]
  · apply searchFrom_of_head
    simp [fixedHeightAt, htw.1, hne]

/-- The text `{W}x{H}`: only the fourth pattern matches, at the head. -/
theorem search_classic_form (ds1 ds2 : List Char) (hne1 : ds1 ≠ []) (hne2 : ds2 ≠ [])
    (h1 : ∀ c ∈ ds1, c.isDigit = true) (h2 : ∀ c ∈ ds2, c.isDigit = true) :
    searchFrom fixedWidthAt (ds1 ++ 'x' :: ds2) = none ∧
      searchFrom fixedHeightAt (ds1 ++ 'x' :: ds2) = none ∧
      searchFrom percentageAt (ds1 ++ 'x' :: ds2) = none ∧
      searchFrom classicSizeAt (ds1 ++ 'x' :: ds2) = some (ds1, ds2) := by
  have hq : '?' ∉ ds1 ++ 'x' :: ds2 := by
    simp only [List.mem_append, List.mem_cons, not_or]
    exact ⟨not_mem_digits ds1 h1 '?' (by decide), by decide, not_mem_digits ds2 h2 '?' (by decide)⟩
  have hp : '%' ∉ ds1 ++ 'x' :: ds2 := by
    simp only [List.mem_append, List.mem_cons, not_or]
    exact ⟨not_mem_digits ds1 h1 '%' (by decide), by decide, not_mem_digits ds2 h2 '%' (by decide)⟩
  refine ⟨search_fixedWidth_none _ hq, search_fixedHeight_none _ hq,
    search_percentage_none _ hp, ?_⟩
  apply searchFrom_of_head
  have := takeWhile_digits_append ds1 ('x' :: ds2) h1 (by simp)
  simp [classicSizeAt, this.1, this.2, (takeWhile_digits ds2 h2).1, hne1, hne2]

/-! ## The pipeline of `computeDimension` -/

theorem decrementIfOdd_ofNat (v : Nat) (hs : v % 2 = 1 → v < 2 ^ 53) :
    decrementIfOdd (JSNum.ofNat v) = JSNum.ofNat (madeEven v) := by
  unfold decrementIfOdd madeEven
  rw [JSNum.rem_ofNat v 2 (by decide), JSNum.neZero_ofNat]
  by_cases h : v % 2 = 1
  · have hv : v ≠ 0 := by omega
    simp [h, JSNum.dec_ofNat v hv (le_of_lt (hs h))]
  · have h0 : v % 2 = 0 := by omega
    simp [h0]

theorem madeEven_even (v : Nat) : madeEven v % 2 = 0 := by
  unfold madeEven
  split <;> omega

theorem reducedAspect_ofNat (a b : Nat) :
    ∃ aspect, reducedAspect (JSNum.ofNat a) (JSNum.ofNat b) = .ok aspect := by
  simp [reducedAspect, utils.gcd_ofNat]

/-- With the reference resolution in hand, `computeDimension` is the raw dimension
made even, with the reduced aspect when `keepAspectRatio` is set. -/
theorem computeDimension_unfold (md : Metadata) (options : Options) (video : Container)
    (hv : options.lookup "video" = some video) :
    computeDimension md options =
      match referenceResolution md video with
      | none => .error (errors.renderError "resolution_square_not_defined" [])
      | some referrer =>
        match rawDimension md.video referrer (video.get "size") with
        | .error e => .error e
        | .ok (rawWidth, rawHeight) =>
          if (video.get "keepAspectRatio").truthy then
            match reducedAspect (decrementIfOdd rawWidth) (decrementIfOdd rawHeight) with
            | .error e => .error e
            | .ok aspect => .ok { width := decrementIfOdd rawWidth
                                  height := decrementIfOdd rawHeight
                                  aspect := some aspect }
          else .ok { width := decrementIfOdd rawWidth
                     height := decrementIfOdd rawHeight
                     aspect := none } := by
  unfold computeDimension referenceResolution
  simp only [hv]
  by_cases hk : (video.get "keepPixelAspectRatio").truthy = true
  · simp only [hk, if_true]
    cases md.video.resolutionSquare with
    | none => rfl
    | some sq => rfl
  · simp only [hk, if_false]
    rfl

theorem computeDimension_of_raw (md : Metadata) (options : Options) (video : Container)
    (referrer : Resolution) (vw vh : Nat) (hv : options.lookup "video" = some video)
    (href : referenceResolution md video = some referrer)
    (hraw : rawDimension md.video referrer (video.get "size")
      = .ok (JSNum.ofNat vw, JSNum.ofNat vh))
    (hsw : vw % 2 = 1 → vw < 2 ^ 53) (hsh : vh % 2 = 1 → vh < 2 ^ 53) :
    ∃ d, computeDimension md options = .ok d ∧ d.width = JSNum.ofNat (madeEven vw) ∧
      d.height = JSNum.ofNat (madeEven vh) := by
  rw [computeDimension_unfold md options video hv, href]
  simp only [hraw, decrementIfOdd_ofNat vw hsw, decrementIfOdd_ofNat vh hsh]
  by_cases hk : (video.get "keepAspectRatio").truthy = true
  · obtain ⟨aspect, hasp⟩ := reducedAspect_ofNat (madeEven vw) (madeEven vh)
    simp [hk, hasp]
  · simp [hk]

/-- The guard of lines 32 to 37: a descriptor without a square resolution makes
`computeDimension` fail as soon as `keepPixelAspectRatio` is set. -/
theorem computeDimension_square_missing (md : Metadata) (options : Options) (video : Container)
    (hv : options.lookup "video" = some video)
    (hkeep : (video.get "keepPixelAspectRatio").truthy = true)
    (hsquare : md.video.resolutionSquare = none) :
    computeDimension md options
      = .error (errors.renderError "resolution_square_not_defined" []) := by
  rw [computeDimension_unfold md options video hv]
  simp [referenceResolution, hkeep, hsquare]

/-- Every descriptor built by `getVideoInfo` carries a square resolution: the test
`pixel !== 1 || pixel !== 0` holds for every number. -/
theorem descriptor_resolutionSquare (md : Metadata) (h : IsMediaDescriptor md) :
    ∃ square, md.video.resolutionSquare = some square := by
  obtain ⟨stdout, hs⟩ := h
  unfold getVideoInfo at hs
  simp only at hs
  split at hs
  · cases hs
  · simp only [Except.ok.injEq] at hs
    rw [← hs]
    simp only [videoResolutionSquare]
    have hcond : ∀ p : JSNum, p ≠ JSNum.ofNat 1 ∨ p ≠ JSNum.ofNat 0 := by
      intro p
      by_cases hp : p = JSNum.ofNat 1
      · right
        rw [hp]
        intro h10
        exact absurd (JSNum.ofNat_inj.mp h10) (by decide)
      · left; exact hp
    simp only [hcond, if_true]
    split <;> exact ⟨_, rfl⟩

theorem descriptor_referenceResolution (md : Metadata) (video : Container)
    (h : IsMediaDescriptor md) : ∃ referrer, referenceResolution md video = some referrer := by
  unfold referenceResolution
  split
  · exact descriptor_resolutionSquare md h
  · exact ⟨_, rfl⟩

/-! ## Rounded quotients -/

/-- The quotient of a natural number below `2^53` is read as the double nearest to
it. -/
theorem operand_quotient (n x : Nat) (hn : n < 2 ^ 53) (hx : x ≠ 0) :
    JSNum.operand ((n : ℚ) / (x : ℚ)) = JSNum.toDouble ((n : ℚ) / (x : ℚ)) := by
  have hxpos : (1 : ℚ) ≤ (x : ℚ) := by exact_mod_cast Nat.one_le_iff_ne_zero.mpr hx
  apply JSNum.operand_of_lt _ (by positivity)
  have hle : (n : ℚ) / (x : ℚ) ≤ (n : ℚ) := div_le_self (Nat.cast_nonneg n) hxpos
  have hn' : (n : ℚ) < (2 : ℚ) ^ (53 : Nat) := by exact_mod_cast hn
  exact lt_of_le_of_lt hle hn'

/-- The value of `Math.round ((n / x) * y)`: the rounding of the double of the
product, a natural number that is below `2^53` when it is odd. -/
theorem round_div_mul (n x y : Nat) (hx : x ≠ 0) :
    ((((JSNum.ofNat n).div (JSNum.ofNat x)).mul (JSNum.ofNat y)).round)
        = JSNum.ofNat (roundHalfUp
            (JSNum.toDouble (JSNum.operand ((n : ℚ) / (x : ℚ)) * (y : ℚ)))) ∧
      (roundHalfUp (JSNum.toDouble (JSNum.operand ((n : ℚ) / (x : ℚ)) * (y : ℚ))) % 2 = 1 →
        roundHalfUp (JSNum.toDouble (JSNum.operand ((n : ℚ) / (x : ℚ)) * (y : ℚ))) < 2 ^ 53) := by
  rw [JSNum.div_ofNat n x hx]
  simp only [JSNum.mul, JSNum.ofNat, JSNum.operand_natCast]
  have hnn : (0 : ℚ) ≤ JSNum.operand ((n : ℚ) / (x : ℚ)) * (y : ℚ) :=
    mul_nonneg (JSNum.operand_nonneg _ (by positivity)) (Nat.cast_nonneg y)
  exact JSNum.round_toDouble _ hnn

/-- The value of `Math.round (w * (n / 100))`: the rounding of the double of the
product, a natural number that is below `2^53` when it is odd. -/
theorem round_mul_ratio (w n : Nat) :
    (((JSNum.ofNat w).mul ((JSNum.ofNat n).div (JSNum.ofNat 100))).round)
        = JSNum.ofNat (roundHalfUp
            (JSNum.toDouble ((w : ℚ) * JSNum.operand ((n : ℚ) / 100)))) ∧
      (roundHalfUp (JSNum.toDouble ((w : ℚ) * JSNum.operand ((n : ℚ) / 100))) % 2 = 1 →
        roundHalfUp (JSNum.toDouble ((w : ℚ) * JSNum.operand ((n : ℚ) / 100))) < 2 ^ 53) := by
  rw [JSNum.div_ofNat n 100 (by decide)]
  simp only [JSNum.mul, JSNum.ofNat, JSNum.operand_natCast]
  have hcast : ((100 : Nat) : ℚ) = 100 := by norm_num
  rw [hcast]
  have hnn : (0 : ℚ) ≤ (w : ℚ) * JSNum.operand ((n : ℚ) / 100) :=
    mul_nonneg (Nat.cast_nonneg w) (JSNum.operand_nonneg _ (by positivity))
  exact JSNum.round_toDouble _ hnn

/-! ## What the patterns capture -/

theorem searchFrom_some {α : Type} (matchAt : List Char → Option α) (cs : List Char) (r : α)
    (h : searchFrom matchAt cs = some r) : ∃ post, matchAt post = some r := by
  induction cs with
  | nil => exact ⟨[], by simpa [searchFrom] using h⟩
  | cons c cs ih =>
    simp only [searchFrom] at h
    cases hm : matchAt (c :: cs) with
    | some r' =>
      rw [hm] at h
      simp only [Option.some.injEq] at h
      exact ⟨c :: cs, by rw [hm, h]⟩
    | none =>
      rw [hm] at h
      exact ih h

theorem takeWhile_all_digits (cs : List Char) : ∀ c ∈ cs.takeWhile Char.isDigit, c.isDigit = true :=
  fun _ hc => List.mem_takeWhile_imp hc

theorem fixedWidthAt_capture (cs ds : List Char) (h : fixedWidthAt cs = some ds) :
    ds ≠ [] ∧ ∀ c ∈ ds, c.isDigit = true := by
  unfold fixedWidthAt at h
  split at h
  · simp only at h
    split at h
    · cases h
    · rename_i hne
      simp only [Option.some.injEq] at h
      rw [← h]
      exact ⟨hne, takeWhile_all_digits cs⟩
  · cases h

theorem fixedHeightAt_capture (cs ds : List Char) (h : fixedHeightAt cs = some ds) :
    ds ≠ [] ∧ ∀ c ∈ ds, c.isDigit = true := by
  unfold fixedHeightAt at h
  split at h
  · rename_i rest
    simp only at h
    split at h
    · cases h
    · rename_i hne
      simp only [Option.some.injEq] at h
      rw [← h]
      exact ⟨hne, takeWhile_all_digits rest⟩
  · cases h

theorem percentageAt_capture (cs ds : List Char) (h : percentageAt cs = some ds) :
    ds ≠ [] ∧ ∀ c ∈ ds, c.isDigit = true := by
  unfold percentageAt at h
  simp only at h
  split at h
  · rename_i capture htwo
    simp only [Option.some.injEq] at h
    subst h
    split at htwo
    · split at htwo
      · rename_i hd
        simp only [Bool.and_eq_true] at hd
        simp only [Option.some.injEq] at htwo
        rw [← htwo]
        refine ⟨by simp, ?_⟩
        intro c hc
        simp only [List.mem_cons, List.mem_singleton, List.not_mem_nil, or_false] at hc
        rcases hc with hc | hc
        · rw [hc]; exact hd.1
        · rw [hc]; exact hd.2
      · cases htwo
    · cases htwo
  · split at h
    · split at h
      · rename_i hd
        simp only [Option.some.injEq] at h
        rw [← h]
        refine ⟨by simp, ?_⟩
        intro c hc
        simp only [List.mem_singleton] at hc
        rw [hc]; exact hd
      · cases h
    · cases h

theorem classicSizeAt_capture (cs ds1 ds2 : List Char) (h : classicSizeAt cs = some (ds1, ds2)) :
    (ds1 ≠ [] ∧ ∀ c ∈ ds1, c.isDigit = true) ∧ (ds2 ≠ [] ∧ ∀ c ∈ ds2, c.isDigit = true) := by
  unfold classicSizeAt at h
  split at h
  · rename_i rest _
    simp only at h
    split at h
    · cases h
    · rename_i hne
      simp only [Bool.or_eq_true, decide_eq_true_eq, not_or] at hne
      simp only [Option.some.injEq, Prod.mk.injEq] at h
      rw [← h.1, ← h.2]
      exact ⟨⟨hne.1, takeWhile_all_digits cs⟩, ⟨hne.2, takeWhile_all_digits rest⟩⟩
  · cases h

/-- On a descriptor with a natural aspect and a natural reference resolution the
raw dimension is a pair of natural numbers, each below `2^53` when it is odd, or the
size-format error, which it is exactly when none of the four patterns matches
anywhere in the size text. -/
theorem rawDimension_cases (video : VideoInfo) (w h x y : Nat) (label : String) (value : JSNum)
    (size : JSVal) (hx : x ≠ 0) (hy : y ≠ 0)
    (hasp : video.aspect = some ⟨JSNum.ofNat x, JSNum.ofNat y, label, value⟩) :
    (∃ vw vh, rawDimension video ⟨JSNum.ofNat w, JSNum.ofNat h⟩ size
        = .ok (JSNum.ofNat vw, JSNum.ofNat vh) ∧
        (vw % 2 = 1 → vw < 2 ^ 53) ∧ (vh % 2 = 1 → vh < 2 ^ 53)) ∨
      rawDimension video ⟨JSNum.ofNat w, JSNum.ofNat h⟩ size
        = .error (errors.renderError "size_format" [size]) := by
  unfold rawDimension
  simp only [hasp]
  cases h1 : searchFrom fixedWidthAt size.toText.data with
  | some ds =>
    obtain ⟨post, hp⟩ := searchFrom_some _ _ _ h1
    obtain ⟨hne, hdig⟩ := fixedWidthAt_capture post ds hp
    obtain ⟨k, hk, hks⟩ := parseInt_digits_natural ds hne hdig
    left
    simp only [hk, (round_div_mul k x y hx).1]
    exact ⟨_, _, rfl, hks, (round_div_mul k x y hx).2⟩
  | none =>
    cases h2 : searchFrom fixedHeightAt size.toText.data with
    | some ds =>
      obtain ⟨post, hp⟩ := searchFrom_some _ _ _ h2
      obtain ⟨hne, hdig⟩ := fixedHeightAt_capture post ds hp
      obtain ⟨k, hk, hks⟩ := parseInt_digits_natural ds hne hdig
      left
      simp only [hk, (round_div_mul k y x hy).1]
      exact ⟨_, _, rfl, (round_div_mul k y x hy).2, hks⟩
    | none =>
      cases h3 : searchFrom percentageAt size.toText.data with
      | some ds =>
        obtain ⟨post, hp⟩ := searchFrom_some _ _ _ h3
        obtain ⟨hne, hdig⟩ := percentageAt_capture post ds hp
        obtain ⟨k, hk, -⟩ := parseInt_digits_natural ds hne hdig
        left
        simp only [hk, (round_mul_ratio w k).1, (round_mul_ratio h k).1]
        exact ⟨_, _, rfl, (round_mul_ratio w k).2, (round_mul_ratio h k).2⟩
      | none =>
        cases h4 : searchFrom classicSizeAt size.toText.data with
        | some ds =>
          obtain ⟨ds1, ds2⟩ := ds
          obtain ⟨post, hp⟩ := searchFrom_some _ _ _ h4
          obtain ⟨⟨hne1, hdig1⟩, ⟨hne2, hdig2⟩⟩ := classicSizeAt_capture post ds1 ds2 hp
          obtain ⟨k1, hk1, hks1⟩ := parseInt_digits_natural ds1 hne1 hdig1
          obtain ⟨k2, hk2, hks2⟩ := parseInt_digits_natural ds2 hne2 hdig2
          left
          simp only [hk1, hk2]
          exact ⟨_, _, rfl, hks1, hks2⟩
        | none => right; rfl

/-- The raw dimension fails exactly when no pattern matches, and then with the
size-format error carrying the size. -/
theorem rawDimension_error_iff (video : VideoInfo) (referrer : Resolution) (size : JSVal)
    (e : JSError) :
    rawDimension video referrer size = .error e ↔
      (e = errors.renderError "size_format" [size] ∧
        searchFrom fixedWidthAt size.toText.data = none ∧
        searchFrom fixedHeightAt size.toText.data = none ∧
        searchFrom percentageAt size.toText.data = none ∧
        searchFrom classicSizeAt size.toText.data = none) := by
  cases h1 : searchFrom fixedWidthAt size.toText.data with
  | some ds => cases ha : video.aspect <;> simp [rawDimension, h1, ha]
  | none =>
    cases h2 : searchFrom fixedHeightAt size.toText.data with
    | some ds => cases ha : video.aspect <;> simp [rawDimension, h1, h2, ha]
    | none =>
      cases h3 : searchFrom percentageAt size.toText.data with
      | some ds => simp [rawDimension, h1, h2, h3]
      | none =>
        cases h4 : searchFrom classicSizeAt size.toText.data with
        | some ds => simp [rawDimension, h1, h2, h3, h4]
        | none =>
          simp only [rawDimension, h1, h2, h3, h4, Except.error.injEq, and_self, and_true]
          exact eq_comm

/-! ## The session: argument list, command tokens, codecs -/

/-- C1, as amended: `execCommand` hands over, in this order, the token `ffmpeg -i`,
every input in double quotes in registration order, every command token in insertion
order, one `-filter_complex "..."` token holding the fragments joined by a comma
followed by a space exactly when there is a fragment, and the output as the last
token. -/
theorem execCommand_tokens (s : Video) : s.execCommand = joinedTokens ", " s := by
  unfold Video.execCommand utils.addQuotes joinedTokens
  cases hf : s.filtersComplex with
  | nil => simp
  | cons first more =>
    have hjoin : ∀ (rest : List String) (acc : String),
        String.intercalate.go acc ", " rest
          = rest.foldl (fun joined fragment => joined ++ ", " ++ fragment) acc := by
      intro rest
      induction rest with
      | nil => intro acc; rfl
      | cons r rest ih => intro acc; simp [String.intercalate.go, ih]
    simp [String.intercalate, hjoin]

theorem lookup_setKey {β : Type} (key : String) (value : β) (l : List (String × β)) :
    (setKey key value l).lookup key = some value := by
  induction l with
  | nil => simp [setKey, List.lookup]
  | cons p rest ih =>
    obtain ⟨k, v⟩ := p
    by_cases hk : k = key
    · simp [setKey, hk, List.lookup]
    · have hne : (key == k) = false := by
        simp only [beq_eq_false_iff_ne, ne_eq]
        exact fun h => hk h.symm
      simp [setKey, hk, List.lookup, hne, ih]

theorem getOption_addOption (container name : String) (value : JSVal) (s : Video)
    (hvalue : value ≠ JSVal.undefined) :
    (s.addOption container name value).getOption container name = value := by
  simp [Video.getOption, Video.addOption, lookup_setKey, Container.get, hvalue]

/-- C3: a codec outside the encode list makes `setVideoCodec` and `setAudioCodec` fail
with the codec-not-supported error carrying the codec, the session left as it was; a
codec of the encode list makes each succeed and record a codec option in its
container. -/
theorem setCodec_validated (s : Video) (codec : String) :
    (codec ∉ s.configuration.encode →
      s.setVideoCodec codec
          = (.error (errors.renderError "codec_not_supported" [JSVal.str codec]), s) ∧
        s.setAudioCodec codec
          = (.error (errors.renderError "codec_not_supported" [JSVal.str codec]), s)) ∧
    (codec ∈ s.configuration.encode →
      ((s.setVideoCodec codec).1 = .ok () ∧
        (s.setVideoCodec codec).2.getOption "video" "codec" = JSVal.str codec) ∧
      ((s.setAudioCodec codec).1 = .ok () ∧
        ∃ recorded : String,
          (s.setAudioCodec codec).2.getOption "audio" "codec" = JSVal.str recorded ∧
          (recorded = codec ∨ (codec = "mp3" ∧ recorded = "libmp3lame")))) := by
  constructor
  · intro h
    simp [Video.setVideoCodec, Video.setAudioCodec, h]
  · intro h
    refine ⟨⟨by simp [Video.setVideoCodec, h], ?_⟩, ⟨by simp [Video.setAudioCodec, h], ?_⟩⟩
    · simp only [Video.setVideoCodec, h, if_true]
      exact getOption_addOption _ _ _ _ (by simp)
    · simp only [Video.setAudioCodec, h, if_true]
      by_cases hmp3 : codec = "mp3" ∧ "libmp3lame" ∈ s.configuration.modules
      · exact ⟨"libmp3lame", by
          simp only [hmp3, and_self, if_true]
          exact getOption_addOption _ _ _ _ (by simp), Or.inr ⟨hmp3.1, rfl⟩⟩
      · exact ⟨codec, by
          simp only [hmp3, if_false]
          exact getOption_addOption _ _ _ _ (by simp), Or.inl rfl⟩

/-- The tokens an argument contributes to the command list. -/
theorem addCommand_ok (command argument : JSVal) (s : Video) (h : command ∉ s.commands) :
    s.addCommand command argument
      = (.ok (), { s with commands :=
          s.commands ++ command :: (if argument.truthy then [argument] else []) }) := by
  unfold Video.addCommand
  simp only [h, if_false]
  by_cases ht : argument.truthy = true <;> simp [ht]

/-- C2, as amended: a flag already in the command list makes `addCommand` fail with
the command-already-exists error, the list left as it was; two different flags, the
second also different from the argument pushed with the first, each with an argument
that is omitted or truthy, are both added, and the list then holds the first flag, its
argument, the second flag, its argument, in insertion order. -/
theorem addCommand_guard (s : Video) (f1 a1 f2 a2 : JSVal) :
    (f1 ∈ s.commands →
      s.addCommand f1 a1 = (.error (errors.renderError "command_already_exists" [f1]), s)) ∧
    (f1 ∉ s.commands →
      (s.addCommand f1 a1).1 = .ok () ∧
      ((s.addCommand f1 a1).2.addCommand f1 a2
        = (.error (errors.renderError "command_already_exists" [f1]),
            (s.addCommand f1 a1).2))) ∧
    (f1 ∉ s.commands → f2 ∉ s.commands → f1 ≠ f2 → (a1.truthy = true → a1 ≠ f2) →
      (a1 = JSVal.undefined ∨ a1.truthy = true) → (a2 = JSVal.undefined ∨ a2.truthy = true) →
      (s.addCommand f1 a1).1 = .ok () ∧
      ((s.addCommand f1 a1).2.addCommand f2 a2).1 = .ok () ∧
      ((s.addCommand f1 a1).2.addCommand f2 a2).2.commands
        = s.commands ++ f1 :: (if a1 = JSVal.undefined then [] else [a1])
            ++ f2 :: (if a2 = JSVal.undefined then [] else [a2])) := by
  have hpushed : ∀ a : JSVal, (a = JSVal.undefined ∨ a.truthy = true) →
      (if a.truthy then [a] else []) = (if a = JSVal.undefined then [] else [a]) := by
    intro a ha
    rcases ha with ha | ha
    · subst ha; simp [JSVal.truthy]
    · have hne : a ≠ JSVal.undefined := by
        intro hu; subst hu; simp [JSVal.truthy] at ha
      simp [ha, hne]
  refine ⟨?_, ?_, ?_⟩
  · intro h
    simp [Video.addCommand, h]
  · intro h
    rw [addCommand_ok f1 a1 s h]
    refine ⟨rfl, ?_⟩
    simp [Video.addCommand]
  · intro h1 h2 hne hne' ha1 ha2
    rw [addCommand_ok f1 a1 s h1]
    have hfresh : f2 ∉ s.commands ++ f1 :: (if a1.truthy then [a1] else []) := by
      simp only [List.mem_append, List.mem_cons, not_or]
      refine ⟨h2, fun h => hne h.symm, ?_⟩
      by_cases ht : a1.truthy = true
      · simp only [ht, if_true, List.mem_singleton]
        exact fun h => hne' ht h.symm
      · simp [ht]
    rw [addCommand_ok f2 a2 _ hfresh]
    refine ⟨rfl, rfl, ?_⟩
    simp only [hpushed a1 ha1, hpushed a2 ha2]

/-! ## The greatest common divisor and the derived aspect -/

theorem gcd_zero_right (v : JSNum) : utils.gcd v (JSNum.ofNat 0) = some v := by
  have hz : (JSNum.ofNat 0).isZero = true := by simp [JSNum.isZero_ofNat]
  have hdepth : ∃ n, utils.gcdDepth v (JSNum.ofNat 0) = n + 1 := by
    cases v <;> exact ⟨2, by simp [utils.gcdDepth, JSNum.ofNat]⟩
  obtain ⟨n, hn⟩ := hdepth
  simp [utils.gcd, hn, utils.gcdLoop, hz]

/-- C9: for positive integers `a` and `b`, `utils.gcd (a, b)` returns a value `g` for
which `a / g` and `b / g` are integers `x` and `y` with `x * g = a`, `y * g = b` and
`x`, `y` coprime, `g` being the greatest common divisor; and `gcd (a, 0) = a`. -/
theorem gcd_reduces (a b : Nat) (ha : 0 < a) (hb : 0 < b) :
    (∃ g x y : Nat, utils.gcd (JSNum.ofNat a) (JSNum.ofNat b) = some (JSNum.ofNat g) ∧
      (JSNum.ofNat a).div (JSNum.ofNat g) = JSNum.ofNat x ∧
      (JSNum.ofNat b).div (JSNum.ofNat g) = JSNum.ofNat y ∧
      x * g = a ∧ y * g = b ∧ 0 < x ∧ 0 < y ∧ Nat.Coprime x y ∧
      (∀ d : Nat, d ∣ a → d ∣ b → d ≤ g)) ∧
    utils.gcd (JSNum.ofNat a) (JSNum.ofNat 0) = some (JSNum.ofNat a) := by
  have hg : 0 < Nat.gcd a b := Nat.gcd_pos_of_pos_right a hb
  refine ⟨⟨Nat.gcd a b, a / Nat.gcd a b, b / Nat.gcd a b, utils.gcd_ofNat a b, ?_, ?_, ?_, ?_,
    ?_, ?_, ?_, ?_⟩, gcd_zero_right _⟩
  · exact JSNum.div_ofNat_of_dvd a _ (by omega) (Nat.gcd_dvd_left a b)
  · exact JSNum.div_ofNat_of_dvd b _ (by omega) (Nat.gcd_dvd_right a b)
  · exact Nat.div_mul_cancel (Nat.gcd_dvd_left a b)
  · exact Nat.div_mul_cancel (Nat.gcd_dvd_right a b)
  · exact Nat.div_pos (Nat.le_of_dvd ha (Nat.gcd_dvd_left a b)) hg
  · exact Nat.div_pos (Nat.le_of_dvd hb (Nat.gcd_dvd_right a b)) hg
  · exact Nat.coprime_div_gcd_div_gcd hg
  · intro d hda hdb
    exact Nat.le_of_dvd hg (Nat.dvd_gcd hda hdb)

theorem toText_ofNat (n : Nat) : (JSNum.ofNat n).toText = Nat.repr n := by
  simp [JSNum.toText, JSNum.ofNat, JSNum.intText]

theorem gt_ofNat_zero (w : Nat) : (JSNum.ofNat w).gt (JSNum.ofNat 0) = decide (0 < w) := by
  simp [JSNum.gt, JSNum.ofNat]

theorem resolutionAt_capture (cs ds1 ds2 : List Char) (h : resolutionAt cs = some (ds1, ds2)) :
    (ds1 ≠ [] ∧ ∀ c ∈ ds1, c.isDigit = true) ∧ (ds2 ≠ [] ∧ ∀ c ∈ ds2, c.isDigit = true) ∧
      ds1.length ≤ 5 ∧ ds2.length ≤ 5 := by
  unfold resolutionAt at h
  split at h
  · rename_i rest _
    simp only at h
    split at h
    · rename_i hlen
      simp only [Option.some.injEq, Prod.mk.injEq] at h
      rw [← h.1, ← h.2]
      refine ⟨⟨?_, takeWhile_all_digits cs⟩, ⟨?_, ?_⟩, hlen.2.1, ?_⟩
      · intro hnil
        rw [hnil] at hlen
        simp at hlen
      · intro hnil
        rw [hnil] at hlen
        simp at hlen
      · intro c hc
        exact takeWhile_all_digits rest c (List.mem_of_mem_take hc)
      · rw [List.length_take]
        exact Nat.min_le_left _ _
    · cases h
  · cases h

/-- The resolution read from a probe report is a pair of natural numbers of at most
five digits. -/
theorem parsed_resolution_natural (text : List Char) :
    ∃ w h : Nat,
      (match searchFrom resolutionAt text with
        | some (ds1, ds2) => ({ w := parseInt ds1, h := parseInt ds2 } : Resolution)
        | none => { w := JSNum.ofNat 0, h := JSNum.ofNat 0 })
      = { w := JSNum.ofNat w, h := JSNum.ofNat h } ∧ w < 10 ^ 5 ∧ h < 10 ^ 5 := by
  cases hs : searchFrom resolutionAt text with
  | none => exact ⟨0, 0, rfl, by norm_num, by norm_num⟩
  | some ds =>
    obtain ⟨ds1, ds2⟩ := ds
    obtain ⟨post, hp⟩ := searchFrom_some _ _ _ hs
    obtain ⟨⟨hne1, hdig1⟩, ⟨hne2, hdig2⟩, hlen1, hlen2⟩ := resolutionAt_capture post ds1 ds2 hp
    obtain ⟨hp1, hb1⟩ := parseInt_digits_short ds1 hne1 hdig1 5 hlen1 (by decide)
    obtain ⟨hp2, hb2⟩ := parseInt_digits_short ds2 hne2 hdig2 5 hlen2 (by decide)
    exact ⟨digitsValue ds1, digitsValue ds2, by simp only [hp1, hp2], hb1, hb2⟩

theorem videoAspect_derived (w h : Nat) (hw : 0 < w) (hh : 0 < h) :
    videoAspect none { w := JSNum.ofNat w, h := JSNum.ofNat h }
      = .ok (some { x := JSNum.ofNat (w / Nat.gcd w h)
                    y := JSNum.ofNat (h / Nat.gcd w h)
                    string := Nat.repr (w / Nat.gcd w h) ++ ":" ++ Nat.repr (h / Nat.gcd w h)
                    value := JSNum.fin (((w / Nat.gcd w h : Nat) : ℚ)
                      / ((h / Nat.gcd w h : Nat) : ℚ)) }) := by
  have hg : 0 < Nat.gcd w h := Nat.gcd_pos_of_pos_left h hw
  have hy : h / Nat.gcd w h ≠ 0 := by
    have := Nat.div_pos (Nat.le_of_dvd hh (Nat.gcd_dvd_right w h)) hg
    omega
  simp only [videoAspect, gt_ofNat_zero, hw, decide_True, if_true, utils.gcd_ofNat,
    JSNum.div_ofNat_of_dvd w _ (by omega) (Nat.gcd_dvd_left w h),
    JSNum.div_ofNat_of_dvd h _ (by omega) (Nat.gcd_dvd_right w h), toText_ofNat,
    JSNum.div_ofNat _ _ hy]

theorem videoAspect_natural (aspect : Option (List Char)) (w h : Nat) :
    ∃ result, videoAspect aspect { w := JSNum.ofNat w, h := JSNum.ofNat h } = .ok result ∧
      (result = none → aspect = none ∧ w = 0) := by
  cases aspect with
  | some text => exact ⟨_, rfl, by simp⟩
  | none =>
    by_cases hw : 0 < w
    · have hsome : ∃ r, videoAspect none { w := JSNum.ofNat w, h := JSNum.ofNat h }
          = .ok (some r) := by
        simp [videoAspect, gt_ofNat_zero, hw, utils.gcd_ofNat]
      obtain ⟨r, hr⟩ := hsome
      exact ⟨some r, hr, by simp⟩
    · refine ⟨none, ?_, ?_⟩
      · simp [videoAspect, gt_ofNat_zero, hw]
      · intro _
        exact ⟨rfl, by omega⟩

/-- C10: `getVideoInfo` returns a descriptor for every probe report; when the report
has no `DAR` field and the resolution is `w x h` with `w > 0` and `h > 0`, the aspect is
`x = w / gcd (w, h)`, `y = h / gcd (w, h)`, `string = "x:y"`, `value = x / y`, with `x`
and `y` coprime; and the aspect is empty only when the resolution width is `0`. -/
theorem getVideoInfo_aspect (stdout : String) :
    ∃ md, getVideoInfo stdout = .ok md ∧
      (md.video.aspect = none → md.video.resolution.w = JSNum.ofNat 0) ∧
      (¬ OccursIn aspectAt stdout.data → ∀ w h : Nat,
        md.video.resolution = { w := JSNum.ofNat w, h := JSNum.ofNat h } → 0 < w → 0 < h →
        md.video.aspect
            = some { x := JSNum.ofNat (w / Nat.gcd w h)
                     y := JSNum.ofNat (h / Nat.gcd w h)
                     string := Nat.repr (w / Nat.gcd w h) ++ ":" ++ Nat.repr (h / Nat.gcd w h)
                     value := JSNum.fin (((w / Nat.gcd w h : Nat) : ℚ)
                       / ((h / Nat.gcd w h : Nat) : ℚ)) } ∧
          Nat.Coprime (w / Nat.gcd w h) (h / Nat.gcd w h)) := by
  obtain ⟨w0, h0, hres, -, -⟩ := parsed_resolution_natural stdout.data
  obtain ⟨result, hresult, hnone⟩ := videoAspect_natural (searchFrom aspectAt stdout.data) w0 h0
  refine ⟨{
      video :=
      { resolution := { w := JSNum.ofNat w0, h := JSNum.ofNat h0 }
        resolutionSquare := videoResolutionSquare { w := JSNum.ofNat w0, h := JSNum.ofNat h0 }
          (videoPixel (searchFrom pixelAt stdout.data)
            { w := JSNum.ofNat w0, h := JSNum.ofNat h0 }).2
        aspect := result
        pixelString := (videoPixel (searchFrom pixelAt stdout.data)
          { w := JSNum.ofNat w0, h := JSNum.ofNat h0 }).1
        pixel := (videoPixel (searchFrom pixelAt stdout.data)
          { w := JSNum.ofNat w0, h := JSNum.ofNat h0 }).2 },
      duration := videoDuration (searchFrom durationFieldAt stdout.data) }, ?_, ?_, ?_⟩
  · unfold getVideoInfo
    simp only [hres, hresult]
  · intro hempty
    simp only at hempty
    rw [(hnone hempty).2]
  · intro hdar w h hwh hw hh
    simp only [Resolution.mk.injEq] at hwh
    have hw0 : w0 = w := JSNum.ofNat_inj.mp hwh.1
    have hh0 : h0 = h := JSNum.ofNat_inj.mp hwh.2
    subst hw0 hh0
    have hsearch := (searchFrom_eq_none_iff aspectAt stdout.data).mpr hdar
    rw [hsearch, videoAspect_derived w0 h0 hw hh] at hresult
    simp only [Except.ok.injEq] at hresult
    refine ⟨?_, Nat.coprime_div_gcd_div_gcd (Nat.gcd_pos_of_pos_left h0 hw)⟩
    simp only
    exact hresult.symm

/-! ## Dimensions from a size specification -/

theorem rawDimension_fixedWidth (video : VideoInfo) (referrer : Resolution) (N x y : Nat)
    (label : String) (value : JSNum) (hx : x ≠ 0) (hN : N < 2 ^ 53)
    (hasp : video.aspect = some ⟨JSNum.ofNat x, JSNum.ofNat y, label, value⟩) :
    rawDimension video referrer (JSVal.str (Nat.repr N ++ "x?"))
        = .ok (JSNum.ofNat N, JSNum.ofNat (roundHalfUp (quotientTimes N x y))) ∧
      (roundHalfUp (quotientTimes N x y) % 2 = 1 → roundHalfUp (quotientTimes N x y) < 2 ^ 53) := by
  obtain ⟨hne, hdig, hval⟩ := repr_spec N
  have hsearch := search_fixedWidth_form (Nat.repr N).data [] hne hdig
  have htext : (JSVal.str (Nat.repr N ++ "x?")).toText.data = (Nat.repr N).data ++ ['x', '?'] := by
    simp [JSVal.toText, String.data_append]
  have hparse : parseInt (Nat.repr N).data = JSNum.ofNat N := by
    rw [parseInt_digits_of_lt _ hne hdig (by rw [hval]; exact hN), hval]
  obtain ⟨hround, hsettled⟩ := round_div_mul N x y hx
  rw [operand_quotient N x hN hx] at hround hsettled
  constructor
  · unfold rawDimension
    simp only [htext, hsearch, hasp, hparse, hround]
    rfl
  · exact hsettled

theorem rawDimension_fixedHeight (video : VideoInfo) (referrer : Resolution) (N x y : Nat)
    (label : String) (value : JSNum) (hy : y ≠ 0) (hN : N < 2 ^ 53)
    (hasp : video.aspect = some ⟨JSNum.ofNat x, JSNum.ofNat y, label, value⟩) :
    rawDimension video referrer (JSVal.str ("?x" ++ Nat.repr N))
        = .ok (JSNum.ofNat (roundHalfUp (quotientTimes N y x)), JSNum.ofNat N) ∧
      (roundHalfUp (quotientTimes N y x) % 2 = 1 → roundHalfUp (quotientTimes N y x) < 2 ^ 53) := by
  obtain ⟨hne, hdig, hval⟩ := repr_spec N
  obtain ⟨hs1, hs2⟩ := search_fixedHeight_form (Nat.repr N).data hne hdig
  have htext : (JSVal.str ("?x" ++ Nat.repr N)).toText.data = '?' :: 'x' :: (Nat.repr N).data := by
    simp [JSVal.toText, String.data_append]
  have hparse : parseInt (Nat.repr N).data = JSNum.ofNat N := by
    rw [parseInt_digits_of_lt _ hne hdig (by rw [hval]; exact hN), hval]
  obtain ⟨hround, hsettled⟩ := round_div_mul N y x hy
  rw [operand_quotient N y hN hy] at hround hsettled
  constructor
  · unfold rawDimension
    simp only [htext, hs1, hs2, hasp, hparse, hround]
    rfl
  · exact hsettled

theorem rawDimension_classic (video : VideoInfo) (referrer : Resolution) (W H : Nat)
    (hW : W < 2 ^ 53) (hH : H < 2 ^ 53) :
    rawDimension video referrer (JSVal.str (Nat.repr W ++ "x" ++ Nat.repr H))
      = .ok (JSNum.ofNat W, JSNum.ofNat H) := by
  obtain ⟨hne1, hdig1, hval1⟩ := repr_spec W
  obtain ⟨hne2, hdig2, hval2⟩ := repr_spec H
  obtain ⟨hs1, hs2, hs3, hs4⟩ :=
    search_classic_form (Nat.repr W).data (Nat.repr H).data hne1 hne2 hdig1 hdig2
  have htext : (JSVal.str (Nat.repr W ++ "x" ++ Nat.repr H)).toText.data
      = (Nat.repr W).data ++ 'x' :: (Nat.repr H).data := by
    simp [JSVal.toText, String.data_append]
  have hparse1 : parseInt (Nat.repr W).data = JSNum.ofNat W := by
    rw [parseInt_digits_of_lt _ hne1 hdig1 (by rw [hval1]; exact hW), hval1]
  have hparse2 : parseInt (Nat.repr H).data = JSNum.ofNat H := by
    rw [parseInt_digits_of_lt _ hne2 hdig2 (by rw [hval2]; exact hH), hval2]
  unfold rawDimension
  simp only [htext, hs1, hs2, hs3, hs4, hparse1, hparse2]

/-- The text `{N}%` with `1 ≤ N ≤ 99`: the first two patterns match nowhere and the
third captures the numeral. -/
theorem search_percentage_form (N : Nat) (h1 : 1 ≤ N) (h99 : N ≤ 99) :
    searchFrom fixedWidthAt ((Nat.repr N).data ++ ['%']) = none ∧
      searchFrom fixedHeightAt ((Nat.repr N).data ++ ['%']) = none ∧
      searchFrom percentageAt ((Nat.repr N).data ++ ['%']) = some (Nat.repr N).data := by
  obtain ⟨hne, hdig, _⟩ := repr_spec N
  have hq : '?' ∉ (Nat.repr N).data ++ ['%'] := by
    simp only [List.mem_append, List.mem_singleton, not_or]
    exact ⟨not_mem_digits _ hdig '?' (by decide), by decide⟩
  refine ⟨search_fixedWidth_none _ hq, search_fixedHeight_none _ hq, ?_⟩
  interval_cases N <;> decide

theorem rawDimension_percentage (video : VideoInfo) (w h N : Nat) (h1 : 1 ≤ N) (h99 : N ≤ 99) :
    rawDimension video { w := JSNum.ofNat w, h := JSNum.ofNat h } (JSVal.str (Nat.repr N ++ "%"))
        = .ok (JSNum.ofNat (roundHalfUp (timesPercent w N)),
            JSNum.ofNat (roundHalfUp (timesPercent h N))) ∧
      (roundHalfUp (timesPercent w N) % 2 = 1 → roundHalfUp (timesPercent w N) < 2 ^ 53) ∧
      (roundHalfUp (timesPercent h N) % 2 = 1 → roundHalfUp (timesPercent h N) < 2 ^ 53) := by
  obtain ⟨hne, hdig, hval⟩ := repr_spec N
  obtain ⟨hs1, hs2, hs3⟩ := search_percentage_form N h1 h99
  have htext : (JSVal.str (Nat.repr N ++ "%")).toText.data = (Nat.repr N).data ++ ['%'] := by
    simp [JSVal.toText, String.data_append]
  have hN : N < 2 ^ 53 := lt_of_le_of_lt h99 (by norm_num)
  have hparse : parseInt (Nat.repr N).data = JSNum.ofNat N := by
    rw [parseInt_digits_of_lt _ hne hdig (by rw [hval]; exact hN), hval]
  have hop : JSNum.operand ((N : ℚ) / 100) = JSNum.toDouble ((N : ℚ) / 100) := by
    have h := operand_quotient N 100 hN (by decide)
    have hcast : ((100 : Nat) : ℚ) = 100 := by norm_num
    rw [hcast] at h
    exact h
  obtain ⟨hroundw, hsettledw⟩ := round_mul_ratio w N
  obtain ⟨hroundh, hsettledh⟩ := round_mul_ratio h N
  rw [hop] at hroundw hsettledw hroundh hsettledh
  refine ⟨?_, hsettledw, hsettledh⟩
  unfold rawDimension
  simp only [htext, hs1, hs2, hs3, hparse, hroundw, hroundh]
  rfl

/-- C4: on every media descriptor (a descriptor `getVideoInfo` builds, which always
carries its square resolution) whose display aspect is `x:y` with `x`, `y` positive
integers below `2^53`, and for every `N` below `2^53`, the size `"{N}x?"` gives the
width `N` made even and the height `round ((N/x)*y)` made even, and the size `"?x{N}"`
gives the height `N` made even and the width `round ((N/y)*x)` made even, whatever the
other options are; the quotient and the product are those of double arithmetic
(`quotientTimes`), each rounded to the nearest double. -/
theorem computeDimension_fixed_side (md : Metadata) (options : Options) (video : Container)
    (x y N : Nat) (label : String) (value : JSNum)
    (hmd : IsMediaDescriptor md) (hv : options.lookup "video" = some video)
    (hasp : md.video.aspect = some ⟨JSNum.ofNat x, JSNum.ofNat y, label, value⟩)
    (hx : 0 < x ∧ x < 2 ^ 53) (hy : 0 < y ∧ y < 2 ^ 53) (hN : N < 2 ^ 53) :
    (video.get "size" = JSVal.str (Nat.repr N ++ "x?") →
      ∃ d, computeDimension md options = .ok d ∧ d.width = JSNum.ofNat (madeEven N) ∧
        d.height = JSNum.ofNat (madeEven (roundHalfUp (quotientTimes N x y)))) ∧
    (video.get "size" = JSVal.str ("?x" ++ Nat.repr N) →
      ∃ d, computeDimension md options = .ok d ∧ d.height = JSNum.ofNat (madeEven N) ∧
        d.width = JSNum.ofNat (madeEven (roundHalfUp (quotientTimes N y x)))) := by
  obtain ⟨referrer, href⟩ := descriptor_referenceResolution md video hmd
  constructor
  · intro hsize
    obtain ⟨hraw, hsettled⟩ :=
      rawDimension_fixedWidth md.video referrer N x y label value (by omega) hN hasp
    rw [← hsize] at hraw
    exact computeDimension_of_raw md options video referrer _ _ hv href hraw (fun _ => hN)
      hsettled
  · intro hsize
    obtain ⟨hraw, hsettled⟩ :=
      rawDimension_fixedHeight md.video referrer N x y label value (by omega) hN hasp
    rw [← hsize] at hraw
    obtain ⟨d, hd, hw, hh⟩ :=
      computeDimension_of_raw md options video referrer _ _ hv href hraw hsettled (fun _ => hN)
    exact ⟨d, hd, hh, hw⟩

/-- C6: with the size `"{N}%"`, `1 ≤ N ≤ 99`, and the reference resolution `w x h` (the
pixel-corrected resolution when `keepPixelAspectRatio` is set, the raw one otherwise),
`w` and `h` below `2^53`, the width is `round (w*(N/100))` and the height
`round (h*(N/100))`, each made even; the quotient and the product are those of double
arithmetic (`timesPercent`), each rounded to the nearest double. -/
theorem computeDimension_percentage (md : Metadata) (options : Options) (video : Container)
    (w h N : Nat) (hv : options.lookup "video" = some video)
    (href : referenceResolution md video = some { w := JSNum.ofNat w, h := JSNum.ofNat h })
    (hsize : video.get "size" = JSVal.str (Nat.repr N ++ "%"))
    (h1 : 1 ≤ N) (h99 : N ≤ 99) (hw : w < 2 ^ 53) (hh : h < 2 ^ 53) :
    ∃ d, computeDimension md options = .ok d ∧
      d.width = JSNum.ofNat (madeEven (roundHalfUp (timesPercent w N))) ∧
      d.height = JSNum.ofNat (madeEven (roundHalfUp (timesPercent h N))) := by
  -- the bounds on `w` and `h` say that they are numbers the program can hold; the
  -- computation itself does not depend on them
  have _ : w < 2 ^ 53 ∧ h < 2 ^ 53 := ⟨hw, hh⟩
  obtain ⟨hraw, hsw, hsh⟩ := rawDimension_percentage md.video w h N h1 h99
  rw [← hsize] at hraw
  exact computeDimension_of_raw md options video _ _ _ hv href hraw hsw hsh

/-- C7: on every media descriptor (a descriptor `getVideoInfo` builds), whatever its
display aspect, pixel aspect and resolution, and whatever the other options, the
explicit size `"{W}x{H}"` with `W` and `H` even and below `2^53` gives exactly the width
`W` and the height `H`. -/
theorem computeDimension_classic (md : Metadata) (options : Options) (video : Container)
    (W H : Nat) (hmd : IsMediaDescriptor md) (hv : options.lookup "video" = some video)
    (hsize : video.get "size" = JSVal.str (Nat.repr W ++ "x" ++ Nat.repr H))
    (hW : W % 2 = 0) (hH : H % 2 = 0) (hWlt : W < 2 ^ 53) (hHlt : H < 2 ^ 53) :
    ∃ d, computeDimension md options = .ok d ∧ d.width = JSNum.ofNat W ∧
      d.height = JSNum.ofNat H := by
  obtain ⟨referrer, href⟩ := descriptor_referenceResolution md video hmd
  have hraw := rawDimension_classic md.video referrer W H hWlt hHlt
  rw [← hsize] at hraw
  obtain ⟨d, hd, hw, hh⟩ :=
    computeDimension_of_raw md options video referrer _ _ hv href hraw (fun _ => hWlt)
      (fun _ => hHlt)
  refine ⟨d, hd, ?_, ?_⟩
  · rw [hw]; simp [madeEven, hW]
  · rw [hh]; simp [madeEven, hH]

/-! ## The four forms and the size-format error -/

theorem isNumeral_spec (cs : List Char) (h : isNumeral cs = true) :
    cs ≠ [] ∧ ∀ c ∈ cs, c.isDigit = true := by
  simp only [isNumeral, Bool.and_eq_true, Bool.not_eq_true', List.isEmpty_eq_false,
    List.all_eq_true] at h
  exact ⟨h.1, h.2⟩

theorem occursIn_head {α : Type} (matchAt : List Char → Option α) (cs : List Char) (r : α)
    (h : matchAt cs = some r) : OccursIn matchAt cs :=
  ⟨[], cs, rfl, by simp [h]⟩

/-- A size text that is one of the four forms holds a match of one of the patterns. -/
theorem isSizeForm_occurs (cs : List Char) (h : isSizeForm cs = true) :
    OccursIn fixedWidthAt cs ∨ OccursIn fixedHeightAt cs ∨ OccursIn percentageAt cs ∨
      OccursIn classicSizeAt cs := by
  have hsplit : cs.takeWhile Char.isDigit ++ cs.dropWhile Char.isDigit = cs :=
    List.takeWhile_append_dropWhile _ _
  unfold isSizeForm at h
  simp only at h
  split at h
  · rename_i hdrop
    left
    have hne : cs.takeWhile Char.isDigit ≠ [] := by simpa using h
    exact occursIn_head _ _ (cs.takeWhile Char.isDigit) (by simp [fixedWidthAt, hdrop, hne])
  · rename_i hdrop
    right; right; left
    have hne : cs.takeWhile Char.isDigit ≠ [] := by simpa using h
    have hd : (cs.takeWhile Char.isDigit).getLast hne ∈ cs.takeWhile Char.isDigit :=
      List.getLast_mem hne
    have hdig := takeWhile_all_digits cs _ hd
    refine ⟨(cs.takeWhile Char.isDigit).dropLast, [(cs.takeWhile Char.isDigit).getLast hne, '%'],
      ?_, ?_⟩
    · conv_lhs => rw [← hsplit, hdrop, ← List.dropLast_append_getLast hne]
      simp
    · simp [percentageAt, hdig]
  · rename_i rest hdrop
    right; left
    simp only [Bool.and_eq_true, List.isEmpty_iff] at h
    obtain ⟨hne, hdig⟩ := isNumeral_spec rest h.2
    have hcs : cs = '?' :: 'x' :: rest := by
      rw [← hsplit, hdrop, h.1]; rfl
    exact occursIn_head _ _ rest (by simp [hcs, fixedHeightAt, (takeWhile_digits rest hdig).1, hne])
  · rename_i rest _ hdrop
    right; right; right
    simp only [Bool.and_eq_true, Bool.not_eq_true', List.isEmpty_eq_false] at h
    obtain ⟨hne, hdig⟩ := isNumeral_spec rest h.2
    have hmatch : classicSizeAt cs = some (cs.takeWhile Char.isDigit, rest) := by
      unfold classicSizeAt
      rw [hdrop]
      simp only [(takeWhile_digits rest hdig).1]
      simp [hne, h.1]
    exact occursIn_head _ _ _ hmatch
  · cases h

theorem reducedAspect_error (a b : JSNum) (e : JSError)
    (h : reducedAspect a b = .error e) : e = JSError.rangeError := by
  unfold reducedAspect at h
  split at h
  · simp only [Except.error.injEq] at h
    exact h.symm
  · cases h

/-- C5: on a descriptor whose aspect components are positive integers and whose
reference resolution is a pair of integers, the width and the height that
`computeDimension` returns are the rounded computed values made even (`v` when `v` is
even, `v - 1` when `v` is odd), hence both even integers; and `computeDimension` does
return for every size that is one of the four forms. -/
theorem computeDimension_even (md : Metadata) (options : Options) (video : Container)
    (w h x y : Nat) (label : String) (value : JSNum)
    (hv : options.lookup "video" = some video)
    (href : referenceResolution md video = some ⟨JSNum.ofNat w, JSNum.ofNat h⟩)
    (hasp : md.video.aspect = some ⟨JSNum.ofNat x, JSNum.ofNat y, label, value⟩)
    (hx : 0 < x) (hy : 0 < y) :
    (∀ d, computeDimension md options = .ok d →
      ∃ vw vh : Nat,
        rawDimension md.video ⟨JSNum.ofNat w, JSNum.ofNat h⟩ (video.get "size")
          = .ok (JSNum.ofNat vw, JSNum.ofNat vh) ∧
        d.width = JSNum.ofNat (if vw % 2 = 0 then vw else vw - 1) ∧
        d.height = JSNum.ofNat (if vh % 2 = 0 then vh else vh - 1) ∧
        (if vw % 2 = 0 then vw else vw - 1) % 2 = 0 ∧
        (if vh % 2 = 0 then vh else vh - 1) % 2 = 0) ∧
    (isSizeForm (video.get "size").toText.data = true →
      ∃ d, computeDimension md options = .ok d) := by
  have heven : ∀ v : Nat, madeEven v = if v % 2 = 0 then v else v - 1 := by
    intro v
    unfold madeEven
    by_cases h0 : v % 2 = 0
    · simp [h0]
    · have h1 : v % 2 = 1 := by omega
      simp [h1]
  rcases rawDimension_cases md.video w h x y label value (video.get "size") (by omega) (by omega)
    hasp with ⟨vw, vh, hraw, hsw, hsh⟩ | herr
  · obtain ⟨d0, hd0, hw0, hh0⟩ :=
      computeDimension_of_raw md options video _ vw vh hv href hraw hsw hsh
    constructor
    · intro d hd
      rw [hd0] at hd
      simp only [Except.ok.injEq] at hd
      subst hd
      refine ⟨vw, vh, hraw, ?_, ?_, ?_, ?_⟩
      · rw [hw0, heven]
      · rw [hh0, heven]
      · rw [← heven]; exact madeEven_even vw
      · rw [← heven]; exact madeEven_even vh
    · intro _
      exact ⟨d0, hd0⟩
  · have hfail : computeDimension md options
        = .error (errors.renderError "size_format" [video.get "size"]) := by
      rw [computeDimension_unfold md options video hv, href]
      simp only [herr]
    constructor
    · intro d hd
      rw [hfail] at hd
      cases hd
    · intro hform
      have hnone := (rawDimension_error_iff _ _ _ _).mp herr
      rcases isSizeForm_occurs _ hform with ho | ho | ho | ho
      · exact absurd ho ((searchFrom_eq_none_iff _ _).mp hnone.2.1)
      · exact absurd ho ((searchFrom_eq_none_iff _ _).mp hnone.2.2.1)
      · exact absurd ho ((searchFrom_eq_none_iff _ _).mp hnone.2.2.2.1)
      · exact absurd ho ((searchFrom_eq_none_iff _ _).mp hnone.2.2.2.2)

/-- C8, as amended: on a media descriptor, `computeDimension` fails with the
size-format error, carrying the size, exactly when none of the four patterns matches
at any position of the size text; a size that is one of the four forms never fails
with that error. -/
theorem computeDimension_size_format (md : Metadata) (options : Options) (video : Container)
    (hmd : IsMediaDescriptor md) (hv : options.lookup "video" = some video) :
    ((¬ OccursIn fixedWidthAt (video.get "size").toText.data ∧
        ¬ OccursIn fixedHeightAt (video.get "size").toText.data ∧
        ¬ OccursIn percentageAt (video.get "size").toText.data ∧
        ¬ OccursIn classicSizeAt (video.get "size").toText.data) →
      computeDimension md options
        = .error (errors.renderError "size_format" [video.get "size"])) ∧
    (∀ args, computeDimension md options = .error (JSError.rendered "size_format" args) →
      args = [video.get "size"] ∧
        ¬ OccursIn fixedWidthAt (video.get "size").toText.data ∧
        ¬ OccursIn fixedHeightAt (video.get "size").toText.data ∧
        ¬ OccursIn percentageAt (video.get "size").toText.data ∧
        ¬ OccursIn classicSizeAt (video.get "size").toText.data) ∧
    (isSizeForm (video.get "size").toText.data = true →
      ∀ args, computeDimension md options ≠ .error (JSError.rendered "size_format" args)) := by
  obtain ⟨referrer, href⟩ := descriptor_referenceResolution md video hmd
  have hback : ∀ args,
      computeDimension md options = .error (JSError.rendered "size_format" args) →
      args = [video.get "size"] ∧
        ¬ OccursIn fixedWidthAt (video.get "size").toText.data ∧
        ¬ OccursIn fixedHeightAt (video.get "size").toText.data ∧
        ¬ OccursIn percentageAt (video.get "size").toText.data ∧
        ¬ OccursIn classicSizeAt (video.get "size").toText.data := by
    intro args hfail
    rw [computeDimension_unfold md options video hv, href] at hfail
    simp only at hfail
    cases hraw : rawDimension md.video referrer (video.get "size") with
    | error e =>
      rw [hraw] at hfail
      simp only [Except.error.injEq] at hfail
      obtain ⟨he, h1, h2, h3, h4⟩ := (rawDimension_error_iff _ _ _ _).mp hraw
      rw [hfail] at he
      simp only [errors.renderError, JSError.rendered.injEq, true_and] at he
      exact ⟨he, (searchFrom_eq_none_iff _ _).mp h1, (searchFrom_eq_none_iff _ _).mp h2,
        (searchFrom_eq_none_iff _ _).mp h3, (searchFrom_eq_none_iff _ _).mp h4⟩
    | ok pair =>
      rw [hraw] at hfail
      simp only at hfail
      by_cases hk : (video.get "keepAspectRatio").truthy = true
      · simp only [hk, if_true] at hfail
        cases hra : reducedAspect (decrementIfOdd pair.1) (decrementIfOdd pair.2) with
        | error e =>
          rw [hra] at hfail
          simp only [Except.error.injEq] at hfail
          have := reducedAspect_error _ _ _ hra
          rw [this] at hfail
          cases hfail
        | ok aspect =>
          rw [hra] at hfail
          cases hfail
      · simp only [hk] at hfail
        cases hfail
  refine ⟨?_, hback, ?_⟩
  · rintro ⟨h1, h2, h3, h4⟩
    have hraw : rawDimension md.video referrer (video.get "size")
        = .error (errors.renderError "size_format" [video.get "size"]) :=
      (rawDimension_error_iff _ _ _ _).mpr ⟨rfl, (searchFrom_eq_none_iff _ _).mpr h1,
        (searchFrom_eq_none_iff _ _).mpr h2, (searchFrom_eq_none_iff _ _).mpr h3,
        (searchFrom_eq_none_iff _ _).mpr h4⟩
    rw [computeDimension_unfold md options video hv, href]
    simp only [hraw]
  · intro hform args hfail
    obtain ⟨_, h1, h2, h3, h4⟩ := hback args hfail
    rcases isSizeForm_occurs _ hform with ho | ho | ho | ho
    · exact h1 ho
    · exact h2 ho
    · exact h3 ho
    · exact h4 ho

/-! ## The pixel aspect and the square resolution of a descriptor -/

/-- The double of the literal `0.000001` is below `1`. -/
theorem toDouble_millionth_lt_one : JSNum.toDouble (1 / (10 : ℚ) ^ 6) < 1 := by
  decide!

/-- Below `10^21` the text of a natural number has no exponent, and reading it back
gives the number. -/
theorem parseIntNum_ofNat (n : Nat) (hn : n < 10 ^ 21) :
    parseIntNum (JSNum.ofNat n) = JSNum.ofNat n := by
  have h := JSNum.truncRat_natCast_div n 1
  simp only [Nat.cast_one, div_one, Nat.div_one] at h
  have hbig : ¬ ((10 : ℚ) ^ 21 ≤ |(n : ℚ)|) := by
    rw [abs_of_nonneg (Nat.cast_nonneg n), not_le]
    exact_mod_cast hn
  have hsmall : ¬ ((n : ℚ) ≠ 0 ∧ |(n : ℚ)| < JSNum.toDouble (1 / (10 : ℚ) ^ 6)) := by
    rintro ⟨hne, hlt⟩
    rw [abs_of_nonneg (Nat.cast_nonneg n)] at hlt
    have hpos : 1 ≤ n := Nat.one_le_iff_ne_zero.mpr (by exact_mod_cast hne)
    have h1 : (1 : ℚ) ≤ (n : ℚ) := by exact_mod_cast hpos
    have := toDouble_millionth_lt_one
    linarith
  simp only [parseIntNum, JSNum.ofNat, JSNum.operand_natCast, hbig, hsmall, or_self, if_false, h,
    Int.cast_natCast]

/-- C11: for every probe report without a `SAR` or `PAR` field whose resolution width
is above `0`, the descriptor has `pixelString = "1:1"` and `pixel = 1`, and its
`resolutionSquare` is not left empty: it is computed, and equals the resolution. -/
theorem getVideoInfo_square_always (stdout : String) (md : Metadata)
    (hinfo : getVideoInfo stdout = .ok md)
    (hpixel : ¬ OccursIn pixelAt stdout.data)
    (hwidth : md.video.resolution.w.gt (JSNum.ofNat 0) = true) :
    md.video.pixelString = "1:1" ∧ md.video.pixel = JSNum.ofNat 1 ∧
      md.video.resolutionSquare = some md.video.resolution := by
  obtain ⟨w0, h0, hres, hw5, hh5⟩ := parsed_resolution_natural stdout.data
  have hw21 : w0 < 10 ^ 21 := lt_trans hw5 (by norm_num)
  have hh21 : h0 < 10 ^ 21 := lt_trans hh5 (by norm_num)
  have hsearch := (searchFrom_eq_none_iff pixelAt stdout.data).mpr hpixel
  unfold getVideoInfo at hinfo
  simp only [hres, hsearch] at hinfo
  split at hinfo
  · cases hinfo
  · simp only [Except.ok.injEq] at hinfo
    subst hinfo
    simp only [gt_ofNat_zero, decide_eq_true_eq] at hwidth
    have hw : JSNum.ofNat w0 ≠ JSNum.ofNat 0 := fun h =>
      absurd (JSNum.ofNat_inj.mp h) (Nat.pos_iff_ne_zero.mp hwidth)
    have hdiv : (JSNum.ofNat h0).div (JSNum.ofNat 1) = JSNum.ofNat h0 := by
      rw [JSNum.div_ofNat h0 1 (by decide)]
      simp [JSNum.ofNat]
    have hgt : (JSNum.ofNat 1).gt (JSNum.ofNat 1) = false := by
      simp [JSNum.gt, JSNum.ofNat]
    have hcond : JSNum.ofNat 1 ≠ JSNum.ofNat 0 :=
      fun h => absurd (JSNum.ofNat_inj.mp h) (by decide)
    simp [videoPixel, hw, videoResolutionSquare, hcond, hgt, hdiv, parseIntNum_ofNat w0 hw21,
      parseIntNum_ofNat h0 hh21]

/-! ## `utils.durationToSeconds` -/

theorem trimEnd_cons_of_not_whiteSpace (c : Char) (cs : List Char) (h : isWhiteSpace c = false) :
    trimEnd (c :: cs) = c :: trimEnd cs := by
  rw [trimEnd]
  split
  · rename_i hempty
    simp [h, hempty]
  · rfl

/-- A text that opens with two digits and a colon does not read as a number. -/
theorem unsignedDecimal_clock (h1 h2 : Char) (rest : List Char)
    (hh1 : h1.isDigit = true) (hh2 : h2.isDigit = true) :
    unsignedDecimal (h1 :: h2 :: ':' :: rest) = JSNum.nan := by
  have hI : h1 ≠ 'I' := isDigit_ne_of_not_digit h1 'I' hh1 (by decide)
  have hcolon : ':'.isDigit = false := by decide
  unfold unsignedDecimal
  have hinf : (h1 :: h2 :: ':' :: rest) ≠ "Infinity".data := by
    intro h
    simp only [String.data, List.cons.injEq] at h
    exact hI h.1
  simp [hinf, List.takeWhile, List.dropWhile, hh1, hh2, hcolon, exponentFactor]

theorem stringToNumber_clock (h1 h2 : Char) (rest : List Char)
    (hh1 : h1.isDigit = true) (hh2 : h2.isDigit = true) :
    stringToNumber (h1 :: h2 :: ':' :: rest) = JSNum.nan := by
  have hw1 := isDigit_not_whiteSpace h1 hh1
  have hw2 := isDigit_not_whiteSpace h2 hh2
  have hw3 : isWhiteSpace ':' = false := by decide
  have htrim : trim (h1 :: h2 :: ':' :: rest) = h1 :: h2 :: ':' :: trimEnd rest := by
    simp only [trim, List.dropWhile, hw1]
    rw [trimEnd_cons_of_not_whiteSpace h1 _ hw1, trimEnd_cons_of_not_whiteSpace h2 _ hw2,
      trimEnd_cons_of_not_whiteSpace ':' _ hw3]
  unfold stringToNumber
  rw [htrim]
  have hx : h2 ≠ 'x' := isDigit_ne_of_not_digit h2 'x' hh2 (by decide)
  have hX : h2 ≠ 'X' := isDigit_ne_of_not_digit h2 'X' hh2 (by decide)
  have ho : h2 ≠ 'o' := isDigit_ne_of_not_digit h2 'o' hh2 (by decide)
  have hO : h2 ≠ 'O' := isDigit_ne_of_not_digit h2 'O' hh2 (by decide)
  have hb : h2 ≠ 'b' := isDigit_ne_of_not_digit h2 'b' hh2 (by decide)
  have hB : h2 ≠ 'B' := isDigit_ne_of_not_digit h2 'B' hh2 (by decide)
  have hminus : h1 ≠ '-' := isDigit_ne_of_not_digit h1 '-' hh1 (by decide)
  have hplus : h1 ≠ '+' := isDigit_ne_of_not_digit h1 '+' hh1 (by decide)
  split
  · rename_i heq; cases heq
  · rename_i p tail heq
    simp only [List.cons.injEq] at heq
    obtain ⟨h0, hp, htail⟩ := heq
    subst hp htail
    simp only [hx, hX, ho, hO, hb, hB, or_self, if_false]
    rw [← h0]
    exact unsignedDecimal_clock h1 h2 _ hh1 hh2
  · rename_i tail heq
    simp only [List.cons.injEq] at heq
    exact absurd heq.1 hminus
  · rename_i tail heq
    simp only [List.cons.injEq] at heq
    exact absurd heq.1 hplus
  · exact unsignedDecimal_clock h1 h2 _ hh1 hh2

theorem splitOn_clock (h1 h2 m1 m2 s1 s2 : Char)
    (hh1 : h1 ≠ ':') (hh2 : h2 ≠ ':') (hm1 : m1 ≠ ':') (hm2 : m2 ≠ ':')
    (hs1 : s1 ≠ ':') (hs2 : s2 ≠ ':') :
    [h1, h2, ':', m1, m2, ':', s1, s2].splitOn ':' = [[h1, h2], [m1, m2], [s1, s2]] := by
  simp [List.splitOn, List.splitOnP, List.splitOnP.go, hh1, hh2, hm1, hm2, hs1, hs2]

/-- C13: for every duration text `HH:MM:SS` of three two-digit fields, whatever
follows it (the fraction of the `Duration:` line of a probe report, or nothing) and
whatever default is supplied, `durationToSeconds` returns `3600*HH + 60*MM + SS`. -/
theorem durationToSeconds_clock (h1 h2 m1 m2 s1 s2 : Char) (fraction : List Char)
    (fallback : JSVal)
    (hh1 : h1.isDigit = true) (hh2 : h2.isDigit = true)
    (hm1 : m1.isDigit = true) (hm2 : m2.isDigit = true)
    (hs1 : s1.isDigit = true) (hs2 : s2.isDigit = true) :
    utils.durationToSeconds
        (JSVal.str (String.mk ([h1, h2, ':', m1, m2, ':', s1, s2] ++ fraction))) fallback
      = JSVal.num (JSNum.ofNat
          (3600 * digitsValue [h1, h2] + 60 * digitsValue [m1, m2] + digitsValue [s1, s2])) := by
  have hcolon : ':'.isDigit = false := by decide
  have hnan : (JSVal.str (String.mk ([h1, h2, ':', m1, m2, ':', s1, s2] ++ fraction))).isNaN
      = true := by
    simp only [JSVal.isNaN, JSVal.toNumber, List.cons_append, List.nil_append]
    rw [stringToNumber_clock h1 h2 _ hh1 hh2]
    rfl
  have hmatch : durationAt ([h1, h2, ':', m1, m2, ':', s1, s2] ++ fraction) = some () := by
    simp [durationAt, List.takeWhile, List.dropWhile, hh1, hh2, hm1, hm2, hs1, hs2, hcolon]
  have hsearch := searchFrom_of_head durationAt _ () hmatch
  have hsplit := splitOn_clock h1 h2 m1 m2 s1 s2
    (isDigit_ne_of_not_digit h1 ':' hh1 hcolon) (isDigit_ne_of_not_digit h2 ':' hh2 hcolon)
    (isDigit_ne_of_not_digit m1 ':' hm1 hcolon) (isDigit_ne_of_not_digit m2 ':' hm2 hcolon)
    (isDigit_ne_of_not_digit s1 ':' hs1 hcolon) (isDigit_ne_of_not_digit s2 ':' hs2 hcolon)
  have htake : (([h1, h2, ':', m1, m2, ':', s1, s2] ++ fraction).take 8)
      = [h1, h2, ':', m1, m2, ':', s1, s2] := by
    simp [List.take]
  obtain ⟨hH, hHlt⟩ := parseInt_digits_short [h1, h2] (by simp)
    (by intro c hc; simp at hc; rcases hc with rfl | rfl <;> assumption) 2 (by simp) (by decide)
  obtain ⟨hM, hMlt⟩ := parseInt_digits_short [m1, m2] (by simp)
    (by intro c hc; simp at hc; rcases hc with rfl | rfl <;> assumption) 2 (by simp) (by decide)
  obtain ⟨hS, hSlt⟩ := parseInt_digits_short [s1, s2] (by simp)
    (by intro c hc; simp at hc; rcases hc with rfl | rfl <;> assumption) 2 (by simp) (by decide)
  have h53 : (2 : Nat) ^ 53 = 9007199254740992 := by norm_num
  have h100 : (10 : Nat) ^ 2 = 100 := by norm_num
  rw [h100] at hHlt hMlt hSlt
  unfold utils.durationToSeconds
  simp only [hnan, JSVal.toText, hsearch, Option.isSome_some, Bool.and_self, if_true, htake,
    hsplit, parseRatioPart, List.get?, hH, hM, hS]
  rw [JSNum.mul_ofNat _ _ (by rw [h53]; omega), JSNum.mul_ofNat _ _ (by rw [h53]; omega),
    JSNum.add_ofNat _ _ (by rw [h53]; omega), JSNum.add_ofNat _ _ (by rw [h53]; omega)]
  congr 2
  ring

/-- No duration pattern is found in a text without a colon. -/
theorem search_duration_none (cs : List Char) (h : ':' ∉ cs) :
    searchFrom durationAt cs = none := by
  refine searchFrom_none_of_forall durationAt (fun t => ':' ∉ t) ?_ ?_ cs h
  · intro c t ht hmem
    exact ht (List.mem_cons_of_mem c hmem)
  · intro t ht
    unfold durationAt
    simp only
    split
    · rename_i heq
      exact absurd (mem_of_dropWhile_eq heq (List.mem_cons_self _ _)) ht
    · rfl

/-- C14: for every natural number `n` and every default, `durationToSeconds` returns
the default, not `n`, for the decimal text of `n`; it returns the number `n`
unchanged when `n` is below `10^21`; and for the number `10^21`, whose text `1e+21`
reads back as `1`, it returns the default. -/
theorem durationToSeconds_bare_integer (n : Nat) (fallback : JSVal) :
    utils.durationToSeconds (JSVal.str (Nat.repr n)) fallback = fallback ∧
      (n < 10 ^ 21 →
        utils.durationToSeconds (JSVal.num (JSNum.ofNat n)) fallback
          = JSVal.num (JSNum.ofNat n)) ∧
      utils.durationToSeconds (JSVal.num (JSNum.ofNat (10 ^ 21))) fallback = fallback := by
  refine ⟨?_, ?_, ?_⟩
  · obtain ⟨_, hdig, _⟩ := repr_spec n
    have hcolon : ':' ∉ (Nat.repr n).data := not_mem_digits _ hdig ':' (by decide)
    have hsearch := search_duration_none _ hcolon
    unfold utils.durationToSeconds
    simp [JSVal.toText, hsearch, JSVal.strictEq]
  · intro hn
    have hnan : (JSVal.num (JSNum.ofNat n)).isNaN = false := rfl
    have hparse : (JSVal.num (JSNum.ofNat n)).parseInt = JSNum.ofNat n :=
      parseIntNum_ofNat n hn
    have heq : (JSVal.num (JSNum.ofNat n)).strictEq (JSVal.num (JSNum.ofNat n)) = true := by
      simp [JSVal.strictEq, JSNum.ofNat]
    unfold utils.durationToSeconds
    simp [hnan, hparse, heq]
  · have hnan : (JSVal.num (JSNum.ofNat (10 ^ 21))).isNaN = false := rfl
    have hparse : (JSVal.num (JSNum.ofNat (10 ^ 21))).parseInt = JSNum.ofNat 1 := by decide!
    have hneq : (JSVal.num (JSNum.ofNat 1)).strictEq (JSVal.num (JSNum.ofNat (10 ^ 21)))
        = false := by decide!
    unfold utils.durationToSeconds
    simp only [hnan, hparse, hneq]
    rfl

/-! ## The codec pattern reads one line -/

theorem firstLine_idem (xs : List Char) : firstLine (firstLine xs) = firstLine xs := by
  unfold firstLine
  induction xs with
  | nil => rfl
  | cons c cs ih =>
    by_cases hc : isLineTerminator c = true
    · simp [List.takeWhile, hc]
    · simp only [Bool.not_eq_true] at hc
      simp [List.takeWhile, hc, ih]

theorem firstLine_cons_of_not_terminator (c : Char) (cs : List Char)
    (h : isLineTerminator c = false) : firstLine (c :: cs) = c :: firstLine cs := by
  simp [firstLine, List.takeWhile, h]

theorem firstLine_cons_of_terminator (c : Char) (cs : List Char)
    (h : isLineTerminator c = true) : firstLine (c :: cs) = [] := by
  simp [firstLine, List.takeWhile, h]

theorem firstLine_append (line rest : List Char) (h : ∀ c ∈ line, isLineTerminator c = false) :
    firstLine (line ++ rest) = line ++ firstLine rest := by
  induction line with
  | nil => rfl
  | cons c cs ih =>
    have hc := h c (List.mem_cons_self _ _)
    rw [List.cons_append, firstLine_cons_of_not_terminator _ _ hc,
      ih (fun d hd => h d (List.mem_cons_of_mem _ hd)), List.cons_append]

theorem firstLine_of_terminated (pre rest : List Char)
    (h : ∃ t ∈ pre, isLineTerminator t = true) : firstLine (pre ++ rest) = firstLine pre := by
  induction pre with
  | nil => obtain ⟨t, ht, _⟩ := h; cases ht
  | cons c cs ih =>
    by_cases hc : isLineTerminator c = true
    · rw [List.cons_append, firstLine_cons_of_terminator _ _ hc,
        firstLine_cons_of_terminator _ _ hc]
    · simp only [Bool.not_eq_true] at hc
      obtain ⟨t, ht, hterm⟩ := h
      have hcs : ∃ t ∈ cs, isLineTerminator t = true := by
        rcases List.mem_cons.mp ht with rfl | hmem
        · rw [hc] at hterm; cases hterm
        · exact ⟨t, hmem, hterm⟩
      rw [List.cons_append, firstLine_cons_of_not_terminator _ _ hc,
        firstLine_cons_of_not_terminator _ _ hc, ih hcs]

theorem firstLine_take (xs : List Char) : xs.take (firstLine xs).length = firstLine xs := by
  have hstart : firstLine xs <+: xs := List.takeWhile_prefix _
  exact (List.prefix_iff_eq_take.mp hstart).symm

theorem dropLiteral_firstLine (p : List Char) (hp : ∀ c ∈ p, isLineTerminator c = false) :
    ∀ xs : List Char, dropLiteral p (firstLine xs) = (dropLiteral p xs).map firstLine := by
  induction p with
  | nil => intro xs; simp [dropLiteral]
  | cons a ps ih =>
    intro xs
    have ha := hp a (List.mem_cons_self _ _)
    cases xs with
    | nil => simp [dropLiteral, firstLine]
    | cons c cs =>
      by_cases hc : isLineTerminator c = true
      · have hne : a ≠ c := fun h => by rw [h, hc] at ha; cases ha
        simp [firstLine_cons_of_terminator _ _ hc, dropLiteral, hne]
      · simp only [Bool.not_eq_true] at hc
        rw [firstLine_cons_of_not_terminator _ _ hc]
        by_cases hac : a = c
        · simp [dropLiteral, hac, ih (fun d hd => hp d (List.mem_cons_of_mem _ hd))]
        · simp [dropLiteral, hac]

theorem dropLiteral_some (p : List Char) :
    ∀ xs r : List Char, dropLiteral p xs = some r → xs = p ++ r := by
  induction p with
  | nil => intro xs r h; simpa [dropLiteral] using h
  | cons a ps ih =>
    intro xs r h
    cases xs with
    | nil => simp [dropLiteral] at h
    | cons c cs =>
      by_cases hac : a = c
      · simp only [dropLiteral, hac, if_true] at h
        rw [hac, List.cons_append, ih cs r h]
      · simp [dropLiteral, hac] at h

theorem scopeAt_firstLine (xs : List Char) :
    scopeAt (firstLine xs) = (scopeAt xs).map (fun sr => (sr.1, firstLine sr.2)) := by
  unfold scopeAt
  rw [dropLiteral_firstLine " DE ".data (by decide), dropLiteral_firstLine " D ".data (by decide),
    dropLiteral_firstLine " E ".data (by decide)]
  cases dropLiteral " DE ".data xs <;> cases dropLiteral " D ".data xs <;>
    cases dropLiteral " E ".data xs <;> rfl

theorem scopeAt_some (xs scope rest : List Char) (h : scopeAt xs = some (scope, rest)) :
    xs = ' ' :: (scope ++ ' ' :: rest) ∧ ∀ c ∈ scope, isLineTerminator c = false := by
  unfold scopeAt at h
  cases h1 : dropLiteral " DE ".data xs with
  | some r =>
    rw [h1] at h
    simp only [Option.some.injEq, Prod.mk.injEq] at h
    obtain ⟨hs, hr⟩ := h
    subst hs hr
    exact ⟨dropLiteral_some _ _ _ h1, by decide⟩
  | none =>
    rw [h1] at h
    cases h2 : dropLiteral " D ".data xs with
    | some r =>
      rw [h2] at h
      simp only [Option.some.injEq, Prod.mk.injEq] at h
      obtain ⟨hs, hr⟩ := h
      subst hs hr
      exact ⟨dropLiteral_some _ _ _ h2, by decide⟩
    | none =>
      rw [h2] at h
      cases h3 : dropLiteral " E ".data xs with
      | some r =>
        rw [h3] at h
        simp only [Option.some.injEq, Prod.mk.injEq] at h
        obtain ⟨hs, hr⟩ := h
        subst hs hr
        exact ⟨dropLiteral_some _ _ _ h3, by decide⟩
      | none =>
        rw [h3] at h
        cases h

theorem codecGroupsAt_firstLine (xs : List Char) :
    codecGroupsAt (firstLine xs) = codecGroupsAt xs := by
  unfold codecGroupsAt
  rw [scopeAt_firstLine]
  cases scopeAt xs with
  | none => rfl
  | some sr =>
    obtain ⟨scope, rest⟩ := sr
    simp only [Option.map_some', firstLine_idem]

theorem splitAtLastGap_cons (c : Char) (rest : List Char) :
    splitAtLastGap (c :: rest) =
      match splitAtLastGap rest with
      | some (before, after) => some (c :: before, after)
      | none =>
        match c, rest with
        | ' ', ' ' :: after => some ([], after)
        | _, _ => none := rfl

theorem splitAtLastGap_some :
    ∀ l before after : List Char, splitAtLastGap l = some (before, after) →
      l = before ++ ' ' :: ' ' :: after := by
  intro l
  induction l with
  | nil => intro before after h; cases h
  | cons c rest ih =>
    intro before after h
    rw [splitAtLastGap_cons] at h
    cases hr : splitAtLastGap rest with
    | some ba =>
      obtain ⟨b, a⟩ := ba
      rw [hr] at h
      simp only [Option.some.injEq, Prod.mk.injEq] at h
      obtain ⟨hb, ha⟩ := h
      subst hb ha
      rw [List.cons_append, ← ih b a hr]
    | none =>
      rw [hr] at h
      simp only at h
      split at h
      · simp only [Option.some.injEq, Prod.mk.injEq] at h
        obtain ⟨hb, ha⟩ := h
        subst hb ha
        simp
      · cases h

/-- Where the codec pattern matches, the match is the first line of the text. -/
theorem codecAt_eq (xs : List Char) :
    codecAt xs = (codecGroupsAt xs).map (fun _ => (firstLine xs, (firstLine xs).length)) := by
  unfold codecAt
  cases hg : codecGroupsAt xs with
  | none => rfl
  | some g =>
    obtain ⟨scope, before, after⟩ := g
    simp only [Option.map_some', Option.some.injEq, Prod.mk.injEq]
    unfold codecGroupsAt at hg
    cases hs : scopeAt xs with
    | none => rw [hs] at hg; cases hg
    | some sr =>
      obtain ⟨scope', rest⟩ := sr
      rw [hs] at hg
      simp only at hg
      cases hsplit : splitAtLastGap (firstLine rest) with
      | none => rw [hsplit] at hg; cases hg
      | some ba =>
        obtain ⟨b, a⟩ := ba
        rw [hsplit] at hg
        simp only [Option.some.injEq, Prod.mk.injEq] at hg
        obtain ⟨h1, h2, h3⟩ := hg
        subst h1 h2 h3
        obtain ⟨hxs, hscope⟩ := scopeAt_some xs _ _ hs
        have hline := splitAtLastGap_some _ _ _ hsplit
        have hfirst : firstLine xs = ' ' :: (scope' ++ ' ' :: (b ++ ' ' :: ' ' :: a)) := by
          rw [hxs, firstLine_cons_of_not_terminator _ _ (by decide), firstLine_append _ _ hscope,
            firstLine_cons_of_not_terminator _ _ (by decide), hline]
        have hlen : 1 + scope'.length + 1 + b.length + 2 + a.length = (firstLine xs).length := by
          rw [hfirst]
          simp only [List.length_cons, List.length_append]
          omega
        rw [hlen]
        exact ⟨firstLine_take xs, rfl⟩

theorem codecAt_nil : codecAt [] = none := by decide

theorem codecAt_of_terminated (pre rest : List Char)
    (h : ∃ t ∈ pre, isLineTerminator t = true) : codecAt (pre ++ rest) = codecAt pre := by
  rw [codecAt_eq, codecAt_eq, ← codecGroupsAt_firstLine (pre ++ rest),
    ← codecGroupsAt_firstLine pre, firstLine_of_terminated pre rest h]

/-! ## Scanning a text for codec lines -/

theorem scanAll_zero_cons {α : Type} (matchAt : List Char → Option (α × Nat)) (c : Char)
    (cs : List Char) :
    scanAll matchAt 0 (c :: cs) =
      match matchAt (c :: cs) with
      | some (a, length) => a :: scanAll matchAt (length - 1) cs
      | none => scanAll matchAt 0 cs := rfl

theorem scanAll_skip {α : Type} (matchAt : List Char → Option (α × Nat)) :
    ∀ a b : List Char, scanAll matchAt a.length (a ++ b) = scanAll matchAt 0 b := by
  intro a
  induction a with
  | nil => intro b; rfl
  | cons c cs ih => intro b; exact ih b

theorem endsLine_cons (c d : Char) (cs : List Char) :
    endsLine (c :: d :: cs) = endsLine (d :: cs) := rfl

theorem exists_terminator_of_endsLine :
    ∀ (c : Char) (cs : List Char), endsLine (c :: cs) = true →
      ∃ t ∈ c :: cs, isLineTerminator t = true := by
  intro c cs
  induction cs generalizing c with
  | nil => intro h; exact ⟨c, List.mem_cons_self _ _, h⟩
  | cons d ds ih =>
    intro h
    rw [endsLine_cons] at h
    obtain ⟨t, ht, hterm⟩ := ih d h
    exact ⟨t, List.mem_cons_of_mem _ ht, hterm⟩

theorem endsLine_tail (c : Char) (cs : List Char) (h : endsLine (c :: cs) = true) :
    endsLine cs = true := by
  cases cs with
  | nil => rfl
  | cons d ds => exact h

theorem codecAt_head (c : Char) (cs : List Char) (r : List Char × Nat)
    (h : codecAt (c :: cs) = some r) :
    isLineTerminator c = false ∧ r.2 = (firstLine cs).length + 1 := by
  rw [codecAt_eq] at h
  cases hg : codecGroupsAt (c :: cs) with
  | none => rw [hg] at h; cases h
  | some g =>
    rw [hg] at h
    simp only [Option.map_some', Option.some.injEq] at h
    unfold codecGroupsAt at hg
    cases hs : scopeAt (c :: cs) with
    | none => rw [hs] at hg; cases hg
    | some sr =>
      obtain ⟨hxs, _⟩ := scopeAt_some (c :: cs) sr.1 sr.2 hs
      simp only [List.cons.injEq] at hxs
      have hc : isLineTerminator c = false := by rw [hxs.1]; decide
      refine ⟨hc, ?_⟩
      rw [← h, firstLine_cons_of_not_terminator _ _ hc]
      rfl

/-- The matches found in a text that ends a line are found again, the same, when the
text goes on. -/
theorem scanAll_codec_append (rest : List Char) :
    ∀ (pre : List Char) (k : Nat), endsLine pre = true → k ≤ (firstLine pre).length →
      scanAll codecAt k (pre ++ rest) = scanAll codecAt k pre ++ scanAll codecAt 0 rest := by
  intro pre
  induction pre with
  | nil =>
    intro k _ hk
    have hk0 : k = 0 := Nat.le_zero.mp hk
    subst hk0
    simp [scanAll, codecAt_nil]
  | cons c cs ih =>
    intro k hends hk
    have hcs := endsLine_tail c cs hends
    cases k with
    | zero =>
      have hloc := codecAt_of_terminated (c :: cs) rest (exists_terminator_of_endsLine c cs hends)
      show scanAll codecAt 0 (c :: (cs ++ rest)) = _
      rw [List.cons_append] at hloc
      cases hm : codecAt (c :: cs) with
      | none =>
        rw [hm] at hloc
        simp only [scanAll, hloc, hm]
        exact ih 0 hcs (Nat.zero_le _)
      | some r =>
        rw [hm] at hloc
        obtain ⟨_, hlen⟩ := codecAt_head c cs r hm
        simp only [scanAll, hloc, hm, List.cons_append, List.cons.injEq, true_and]
        exact ih (r.2 - 1) hcs (by omega)
    | succ k' =>
      by_cases hc : isLineTerminator c = true
      · rw [firstLine_cons_of_terminator _ _ hc] at hk
        simp at hk
      · simp only [Bool.not_eq_true] at hc
        rw [firstLine_cons_of_not_terminator _ _ hc] at hk
        exact ih k' hcs (Nat.le_of_succ_le_succ hk)

theorem spaces_succ (n : Nat) : spaces (n + 1) = ' ' :: spaces n := rfl

theorem spaces_append_space (n : Nat) (xs : List Char) :
    spaces n ++ ' ' :: xs = ' ' :: (spaces n ++ xs) := by
  induction n with
  | zero => rfl
  | succ n ih => rw [spaces_succ, List.cons_append, ih, List.cons_append]

theorem mem_spaces (n : Nat) (c : Char) (h : c ∈ spaces n) : c = ' ' :=
  List.eq_of_mem_replicate h

theorem codecAt_two_spaces (xs : List Char) : codecAt (' ' :: ' ' :: xs) = none := by
  rw [codecAt_eq]
  have : scopeAt (' ' :: ' ' :: xs) = none := by
    simp [scopeAt, dropLiteral]
  simp [codecGroupsAt, this]

theorem scanAll_two_spaces (xs : List Char) :
    scanAll codecAt 0 (' ' :: ' ' :: xs) = scanAll codecAt 0 (' ' :: xs) := by
  show (match codecAt (' ' :: ' ' :: xs) with
    | some (a, length) => a :: scanAll codecAt (length - 1) (' ' :: xs)
    | none => scanAll codecAt 0 (' ' :: xs)) = _
  rw [codecAt_two_spaces]

/-- The spaces in front of the opening of a codec line hold no match. -/
theorem scanAll_indent (indent : Nat) (xs : List Char) :
    scanAll codecAt 0 (spaces indent ++ ' ' :: xs) = scanAll codecAt 0 (' ' :: xs) := by
  induction indent with
  | zero => rfl
  | succ n ih =>
    rw [spaces_succ, List.cons_append, spaces_append_space, scanAll_two_spaces,
      ← spaces_append_space]
    exact ih

/-! ## One padded codec line -/

theorem not_terminator_of_not_whiteSpace (c : Char) (h : isWhiteSpace c = false) :
    isLineTerminator c = false := by
  cases ht : isLineTerminator c with
  | false => rfl
  | true =>
    simp only [isLineTerminator, decide_eq_true_eq, List.mem_cons, List.mem_singleton,
      List.not_mem_nil, or_false] at ht
    have hw : isWhiteSpace c = true := by
      simp only [isWhiteSpace, Bool.or_eq_true, decide_eq_true_eq, List.mem_cons]
      left
      rcases ht with h1 | h1 | h1 | h1 <;> simp [h1]
    rw [h] at hw
    cases hw

theorem splitAtLastGap_none_of_hasGap :
    ∀ cs : List Char, hasGap cs = false → splitAtLastGap cs = none := by
  intro cs
  induction cs with
  | nil => intro _; rfl
  | cons c rest ih =>
    intro h
    cases rest with
    | nil =>
      rw [splitAtLastGap_cons, show splitAtLastGap [] = none from rfl]
      simp only
    | cons d ds =>
      simp only [hasGap, Bool.or_eq_false_iff, Bool.and_eq_false_imp, beq_iff_eq] at h
      rw [splitAtLastGap_cons, ih h.2]
      simp only
      split
      · rename_i heq1 heq2
        simp only [List.cons.injEq] at heq2
        have := h.1 rfl
        simp [heq2.1] at this
      · rfl

/-- The first group of the codec pattern ends at the last two consecutive spaces. -/
theorem splitAtLastGap_append (before after : List Char) (h : hasGap (' ' :: after) = false) :
    splitAtLastGap (before ++ ' ' :: ' ' :: after) = some (before, after) := by
  induction before with
  | nil =>
    rw [List.nil_append, splitAtLastGap_cons, splitAtLastGap_none_of_hasGap _ h]
    rfl
  | cons c cs ih =>
    rw [List.cons_append, splitAtLastGap_cons, ih]

theorem spaces_add_two (n : Nat) (xs : List Char) :
    spaces (n + 2) ++ xs = spaces n ++ ' ' :: ' ' :: xs := by
  induction n with
  | zero => rfl
  | succ n ih =>
    rw [show n + 1 + 2 = (n + 2) + 1 from rfl, spaces_succ, List.cons_append, ih, spaces_succ,
      List.cons_append]

theorem trimEnd_cons (c : Char) (cs : List Char) :
    trimEnd (c :: cs) =
      match trimEnd cs with
      | [] => if isWhiteSpace c then [] else [c]
      | kept => c :: kept := rfl

theorem trimEnd_spaces (n : Nat) : trimEnd (spaces n) = [] := by
  induction n with
  | zero => rfl
  | succ n ih =>
    rw [spaces_succ, trimEnd_cons, ih]
    rfl

theorem trimEnd_append_spaces (a : List Char) (n : Nat) : trimEnd (a ++ spaces n) = trimEnd a := by
  induction a with
  | nil => rw [List.nil_append, trimEnd_spaces]; rfl
  | cons c cs ih => rw [List.cons_append, trimEnd_cons, ih, ← trimEnd_cons]

theorem trimEnd_of_no_whiteSpace (a : List Char) (h : ∀ c ∈ a, isWhiteSpace c = false) :
    trimEnd a = a := by
  induction a with
  | nil => rfl
  | cons c cs ih =>
    rw [trimEnd_cons_of_not_whiteSpace c cs (h c (List.mem_cons_self _ _)),
      ih (fun d hd => h d (List.mem_cons_of_mem _ hd))]

theorem dropWhile_spaces (n : Nat) (c : Char) (cs : List Char) (h : isWhiteSpace c = false) :
    (spaces n ++ c :: cs).dropWhile isWhiteSpace = c :: cs := by
  induction n with
  | zero => simp [spaces, List.dropWhile, h]
  | succ n ih =>
    rw [spaces_succ, List.cons_append]
    have hs : isWhiteSpace ' ' = true := by decide
    simp only [List.dropWhile, hs]
    exact ih

/-- Trimming the first group of a padded line leaves the identifier. -/
theorem trim_padded (lead pad : Nat) (id : List Char) (hne : id ≠ [])
    (hid : ∀ c ∈ id, isWhiteSpace c = false) :
    trim (spaces lead ++ id ++ spaces pad) = id := by
  cases id with
  | nil => exact absurd rfl hne
  | cons c cs =>
    unfold trim
    rw [List.append_assoc, List.cons_append,
      dropWhile_spaces lead c _ (hid c (List.mem_cons_self _ _)), ← List.cons_append,
      trimEnd_append_spaces, trimEnd_of_no_whiteSpace _ hid]

/-- The opening of a codec line with one of the three scopes. -/
theorem scopeAt_line (scope : String) (rest : List Char)
    (hscope : scope = "D" ∨ scope = "E" ∨ scope = "DE") :
    scopeAt (' ' :: (scope.data ++ ' ' :: rest)) = some (scope.data, rest) := by
  rcases hscope with h | h | h <;> subst h <;> simp [scopeAt, dropLiteral]

/-- The groups the codec pattern takes from a padded codec line. -/
theorem codecGroupsAt_line (scope : String) (lead pad : Nat) (id description post : List Char)
    (hscope : scope = "D" ∨ scope = "E" ∨ scope = "DE")
    (hid : ∀ c ∈ id, isWhiteSpace c = false)
    (hdesc : ∀ c ∈ description, isLineTerminator c = false)
    (hgap : hasGap (' ' :: description) = false)
    (hpost : atLineEnd post = true) :
    codecGroupsAt (' ' :: (scope.data ++ ' ' ::
        (spaces lead ++ id ++ spaces (pad + 2) ++ description)) ++ post)
      = some (scope.data, spaces lead ++ id ++ spaces pad, description) := by
  have hfirst : firstLine ((spaces lead ++ id ++ spaces (pad + 2) ++ description) ++ post)
      = spaces lead ++ id ++ spaces (pad + 2) ++ description := by
    have hpost0 : firstLine post = [] := by
      cases post with
      | nil => rfl
      | cons t q => exact firstLine_cons_of_terminator t q hpost
    rw [firstLine_append _ _ ?_, hpost0, List.append_nil]
    intro c hc
    simp only [List.mem_append] at hc
    rcases hc with ((hc | hc) | hc) | hc
    · rw [mem_spaces _ _ hc]; decide
    · exact not_terminator_of_not_whiteSpace c (hid c hc)
    · rw [mem_spaces _ _ hc]; decide
    · exact hdesc c hc
  unfold codecGroupsAt
  rw [List.cons_append, List.append_assoc, List.cons_append, scopeAt_line scope _ hscope]
  simp only
  rw [hfirst, List.append_assoc (spaces lead ++ id), spaces_add_two, ← List.append_assoc,
    splitAtLastGap_append _ _ hgap]

theorem firstLine_line (scope : String) (lead pad : Nat) (id description post : List Char)
    (hscope : scope = "D" ∨ scope = "E" ∨ scope = "DE")
    (hid : ∀ c ∈ id, isWhiteSpace c = false)
    (hdesc : ∀ c ∈ description, isLineTerminator c = false)
    (hpost : atLineEnd post = true) :
    firstLine (' ' :: (scope.data ++ ' ' :: (spaces lead ++ id ++ spaces pad ++ description))
        ++ post)
      = ' ' :: (scope.data ++ ' ' :: (spaces lead ++ id ++ spaces pad ++ description)) := by
  have hpost0 : firstLine post = [] := by
    cases post with
    | nil => rfl
    | cons t q => exact firstLine_cons_of_terminator t q hpost
  rw [firstLine_append _ _ ?_, hpost0, List.append_nil]
  intro c hc
  simp only [List.mem_cons, List.mem_append] at hc
  rcases hc with hc | hc | hc | ((hc | hc) | hc) | hc
  · rw [hc]; decide
  · rcases hscope with h | h | h <;> subst h <;> revert c <;> decide
  · rw [hc]; decide
  · rw [mem_spaces _ _ hc]; decide
  · exact not_terminator_of_not_whiteSpace c (hid c hc)
  · rw [mem_spaces _ _ hc]; decide
  · exact hdesc c hc

/-- Scanning at a padded codec line finds the line and goes on behind it. -/
theorem scanAll_line (scope : String) (lead pad : Nat) (id description post : List Char)
    (hscope : scope = "D" ∨ scope = "E" ∨ scope = "DE")
    (hid : ∀ c ∈ id, isWhiteSpace c = false)
    (hdesc : ∀ c ∈ description, isLineTerminator c = false)
    (hgap : hasGap (' ' :: description) = false)
    (hpost : atLineEnd post = true) :
    scanAll codecAt 0 (' ' :: (scope.data ++ ' ' ::
        (spaces lead ++ id ++ spaces (pad + 2) ++ description)) ++ post)
      = (' ' :: (scope.data ++ ' ' :: (spaces lead ++ id ++ spaces (pad + 2) ++ description)))
        :: scanAll codecAt 0 post := by
  have hat := codecAt_eq (' ' :: (scope.data ++ ' ' ::
        (spaces lead ++ id ++ spaces (pad + 2) ++ description)) ++ post)
  rw [codecGroupsAt_line scope lead pad id description post hscope hid hdesc hgap hpost,
    firstLine_line scope lead (pad + 2) id description post hscope hid hdesc hpost] at hat
  simp only [Option.map_some'] at hat
  rw [List.cons_append] at hat ⊢
  rw [scanAll_zero_cons]
  rw [hat]
  simp only [List.length_cons, Nat.add_sub_cancel, List.cons.injEq, true_and]
  exact scanAll_skip codecAt _ post

/-- What the loop of `getInfoConfiguration` files from a padded codec line. -/
theorem fileCodec_line (format : Configuration) (scope : String) (lead pad : Nat)
    (id description : List Char)
    (hscope : scope = "D" ∨ scope = "E" ∨ scope = "DE")
    (hne : id ≠ [])
    (hid : ∀ c ∈ id, isWhiteSpace c = false)
    (hdesc : ∀ c ∈ description, isLineTerminator c = false)
    (hgap : hasGap (' ' :: description) = false) :
    fileCodec format (' ' :: (scope.data ++ ' ' ::
        (spaces lead ++ id ++ spaces (pad + 2) ++ description)))
      = { modules := format.modules
          encode := format.encode
            ++ (if scope = "E" ∨ scope = "DE" then [String.mk id] else [])
          decode := format.decode
            ++ (if scope = "D" ∨ scope = "DE" then [String.mk id] else []) } := by
  have hgroups := codecGroupsAt_line scope lead pad id description [] hscope hid hdesc hgap rfl
  rw [List.append_nil] at hgroups
  have hsearch := searchFrom_of_head codecGroupsAt _ _ hgroups
  have htrim := trim_padded lead pad id hne hid
  unfold fileCodec
  rw [hsearch]
  simp only [htrim]
  rcases hscope with h | h | h <;> subst h
  · have ht : trim "D".data = "D".data := by decide
    simp [ht]
  · have ht : trim "E".data = "E".data := by decide
    simp [ht]
  · have ht : trim "DE".data = "DE".data := by decide
    simp [ht]

theorem fileCodec_append (format : Configuration) (codec : List Char) :
    fileCodec format codec
      = { modules := format.modules
          encode := format.encode
            ++ (fileCodec { modules := [], encode := [], decode := [] } codec).encode
          decode := format.decode
            ++ (fileCodec { modules := [], encode := [], decode := [] } codec).decode } := by
  unfold fileCodec
  cases searchFrom codecGroupsAt codec with
  | none => simp
  | some g =>
    obtain ⟨g1, g2, g3⟩ := g
    simp only
    split_ifs <;> simp

/-- The loop of `getInfoConfiguration` only appends to the lists it is given. -/
theorem foldl_fileCodec (codecs : List (List Char)) :
    ∀ format : Configuration, codecs.foldl fileCodec format
      = { modules := format.modules
          encode := format.encode
            ++ (codecs.foldl fileCodec { modules := [], encode := [], decode := [] }).encode
          decode := format.decode
            ++ (codecs.foldl fileCodec { modules := [], encode := [], decode := [] }).decode } := by
  induction codecs with
  | nil => intro format; simp
  | cons x l ih =>
    intro format
    simp only [List.foldl_cons]
    rw [ih (fileCodec format x), ih (fileCodec { modules := [], encode := [], decode := [] } x),
      fileCodec_append format x]
    simp [List.append_assoc]

/-! ## The capability parser -/

/-- C12: in every capability text, a codec line that starts a line and runs to its
end, with scope `D`, `E` or `DE`, an identifier without white space, a padding of at
least two spaces behind it and a description without two consecutive spaces, is
recorded as exactly its identifier, once, in the decode list if and only if the scope
is `D` or `DE` and in the encode list if and only if the scope is `E` or `DE`,
between what the text before and the text after record; the parser fails only as the
reading of the enabled modules does. -/
theorem getInfoConfiguration_codec_line (pre post : List Char) (indent lead pad : Nat)
    (scope : String) (id description : List Char)
    (hpre : endsLine pre = true) (hpost : atLineEnd post = true)
    (hscope : scope = "D" ∨ scope = "E" ∨ scope = "DE")
    (hne : id ≠ []) (hid : ∀ c ∈ id, isWhiteSpace c = false)
    (hpad : 2 ≤ pad)
    (hdesc : ∀ c ∈ description, isLineTerminator c = false)
    (hgap : hasGap (' ' :: description) = false) :
    getInfoConfiguration
        (String.mk (pre ++ codecLine indent scope lead id pad description ++ post))
      = match enabledModules
            (String.mk (pre ++ codecLine indent scope lead id pad description ++ post)) with
        | .error e => .error e
        | .ok modules =>
          .ok { modules := modules
                encode := (codecsOf pre).encode
                  ++ (if scope = "E" ∨ scope = "DE" then [String.mk id] else [])
                  ++ (codecsOf post).encode
                decode := (codecsOf pre).decode
                  ++ (if scope = "D" ∨ scope = "DE" then [String.mk id] else [])
                  ++ (codecsOf post).decode } := by
  obtain ⟨p, rfl⟩ : ∃ p, pad = p + 2 := ⟨pad - 2, by omega⟩
  have hscan : scanAll codecAt 0 (pre ++ codecLine indent scope lead id (p + 2) description ++ post)
      = scanAll codecAt 0 pre
        ++ (' ' :: (scope.data ++ ' ' :: (spaces lead ++ id ++ spaces (p + 2) ++ description)))
          :: scanAll codecAt 0 post := by
    rw [List.append_assoc, scanAll_codec_append _ pre 0 hpre (Nat.zero_le _)]
    unfold codecLine
    rw [List.append_assoc, List.cons_append, scanAll_indent, ← List.cons_append,
      scanAll_line scope lead p id description post hscope hid hdesc hgap hpost]
  unfold getInfoConfiguration
  cases enabledModules
      (String.mk (pre ++ codecLine indent scope lead id (p + 2) description ++ post)) with
  | error e => rfl
  | ok modules =>
    simp only [hscan]
    split
    · rename_i heq
      simp at heq
    · simp only [Except.ok.injEq]
      rw [List.foldl_append, List.foldl_cons, foldl_fileCodec (scanAll codecAt 0 post),
        fileCodec_line _ scope lead p id description hscope hne hid hdesc hgap,
        foldl_fileCodec (scanAll codecAt 0 pre)]
      simp [codecsOf]

/-- C20: the capability parser fails on a listing without a codec line and on a
listing whose configuration line has no `--enable-` token; it returns a capability
set for neither. -/
theorem getInfoConfiguration_fails :
    getInfoConfiguration listingNoCodec = .error JSError.typeError ∧
      getInfoConfiguration listingNoEnable = .error JSError.typeError ∧
      getInfoConfiguration "" = .error JSError.typeError := by
  decide!

/-! ## The audio codec and its compilation -/

/-- C15, as amended: when the encode list holds `mp3` and the modules hold
`libmp3lame`, `setAudioCodec ("mp3")` succeeds and records `libmp3lame`; on a session
without commands and options, `save` then succeeds and the command list is `-acodec`
followed by `libmp3lame`, without `mp3`. -/
theorem setAudioCodec_mp3 (s : Video) (destination : String)
    (hencode : "mp3" ∈ s.configuration.encode)
    (hmodule : "libmp3lame" ∈ s.configuration.modules) :
    (s.setAudioCodec "mp3").1 = .ok () ∧
      (s.setAudioCodec "mp3").2.getOption "audio" "codec" = JSVal.str "libmp3lame" ∧
      (s.commands = [] → s.options = [] →
        ((s.setAudioCodec "mp3").2.save destination).1 = .ok () ∧
        ((s.setAudioCodec "mp3").2.save destination).2.commands
          = [JSVal.str "-acodec", JSVal.str "libmp3lame"]) := by
  have hset : s.setAudioCodec "mp3"
      = (.ok (), s.addOption "audio" "codec" (JSVal.str "libmp3lame")) := by
    simp [Video.setAudioCodec, hencode, hmodule]
  rw [hset]
  refine ⟨rfl, getOption_addOption _ _ _ _ (by simp), ?_⟩
  intro hcommands hoptions
  obtain ⟨filePath, configuration, metadata, commands, inputs, filters, output, options⟩ := s
  simp only at hcommands hoptions
  subst hcommands hoptions
  constructor <;> rfl

/-! ## Frame extraction -/

/-- C16: with two numeric interval options, `everyFrames` and `everySeconds`, the
counter `everyCheck` stays at `0` and `extractFrameToJPG` does not fail with the
conflicting-options error; with one interval option supplied, whatever its value, the
counter is at most `1`, below the threshold of the error. -/
theorem extractFrameToJPG_two_intervals (s : Video) (folder fileName : String)
    (frames seconds : Nat) :
    (framesAndSeconds frames seconds).everyCheck = 0 ∧
      (s.extractFrameToJPG folder (framesAndSeconds frames seconds) fileName).1
        ≠ .error (errors.renderError "extract_frame_invalid_everyN_options" []) ∧
      ∀ value : JSVal,
        ({ everyFrames := value } : FrameOptions).everyCheck ≤ 1 ∧
        ({ everySeconds := value } : FrameOptions).everyCheck ≤ 1 ∧
        ({ everyPercentage := value } : FrameOptions).everyCheck ≤ 1 := by
  have hnan : ∀ n : Nat, (JSVal.num (JSNum.ofNat n)).isNaN = false := fun _ => rfl
  have hcheck : (framesAndSeconds frames seconds).everyCheck = 0 := by
    simp [FrameOptions.everyCheck, framesAndSeconds, FrameOptions.isInvalid, hnan,
      FrameOptions.isInvalidPercentage, JSVal.truthy]
  have hout : (s.extractFrameToJPG folder (framesAndSeconds frames seconds) fileName).1
      = .error JSError.typeError := by
    unfold Video.extractFrameToJPG
    simp only [hcheck]
    simp [FrameOptions.fileNameFails, FrameOptions.checked, framesAndSeconds, JSVal.truthy,
      Video.compileFrames, Video.whenTruthy, Outcome.andThen, FrameOptions.isInvalid,
      computeDimension, FrameOptions.containers]
  refine ⟨hcheck, ?_, ?_⟩
  · rw [hout]
    simp [errors.renderError]
  · intro value
    simp only [FrameOptions.everyCheck, FrameOptions.isInvalid, FrameOptions.isInvalidPercentage,
      JSVal.truthy, Bool.false_and, Bool.false_eq_true, if_false]
    refine ⟨?_, ?_, ?_⟩ <;> split <;> simp

/-! ## The watermark overlay -/

/-- C17: the text `getSign` writes for a margin that is not negated is its numeral
without a sign; for the anchor `NW` with left margin `10`, right margin `5`, top and
bottom margins `0`, the overlay recorded by `setWatermark` is
`main_w-overlay_w10-5:000`. -/
theorem setWatermark_overlay_unsigned :
    (∀ n : Nat, getSign (JSVal.num (JSNum.ofNat n)) false = .ok (Nat.repr n)) ∧
      (session720.setWatermark everyFileExists "logo.png" watermarkNorthWest).1 = .ok () ∧
      (session720.setWatermark everyFileExists "logo.png" watermarkNorthWest).2.getOption
          "video" "watermark"
        = JSVal.obj [("path", "logo.png"), ("overlay", "main_w-overlay_w10-5:000")] := by
  refine ⟨fun n => ?_, by decide!, by decide!⟩
  simp [getSign, JSVal.toText, toText_ofNat]

/-! ## Reset -/

/-- C18: `reset` leaves the session of a fresh one except for `filtersComplex`, which
it keeps; after operations that added fragments, a reset session differs from a fresh
one, and the audio preset, which resets first, writes out the old fragments. -/
theorem reset_keeps_filters :
    (∀ s : Video, s.reset
        = { Video.new s.filePath s.configuration s.metadata with
            filtersComplex := s.filtersComplex }) ∧
      sessionTwoFilters.reset ≠ Video.new "in.mp4" sampleConfiguration descriptor720 ∧
      (sessionTwoFilters.extractAudioToMP3 "out").2.execCommand
        ≠ (session720.extractAudioToMP3 "out").2.execCommand := by
  refine ⟨fun s => rfl, by decide!, by decide!⟩

/-! ## Compiling a codec and a size -/

theorem colon_mem_aspect_text (x y : String) : ':' ∈ (x ++ ":" ++ y).data := by
  simp [String.data_append]

theorem aspect_text_ne (x y t : String) (h : ':' ∉ t.data) : x ++ ":" ++ y ≠ t := by
  intro heq
  rw [← heq] at h
  exact h (colon_mem_aspect_text x y)

theorem size_text_ne_empty (w h : String) : w ++ "x" ++ h ≠ "" := by
  intro heq
  have hmem : 'x' ∈ (w ++ "x" ++ h).data := by simp [String.data_append]
  rw [heq] at hmem
  cases hmem

/-- With `keepAspectRatio` set, a computed dimension carries a reduced aspect, whose
text is `x:y`. -/
theorem computeDimension_aspect (md : Metadata) (options : Options) (video : Container)
    (dim : Dimension) (hv : options.lookup "video" = some video)
    (hkeep : (video.get "keepAspectRatio").truthy = true)
    (hdim : computeDimension md options = .ok dim) :
    ∃ aspect, dim.aspect = some aspect ∧
      aspect.string = aspect.x.toText ++ ":" ++ aspect.y.toText := by
  rw [computeDimension_unfold md options video hv] at hdim
  cases href : referenceResolution md video with
  | none => rw [href] at hdim; cases hdim
  | some referrer =>
    rw [href] at hdim
    simp only at hdim
    cases hraw : rawDimension md.video referrer (video.get "size") with
    | error e => rw [hraw] at hdim; cases hdim
    | ok raw =>
      obtain ⟨rawWidth, rawHeight⟩ := raw
      rw [hraw] at hdim
      simp only [hkeep, if_true] at hdim
      cases hasp : reducedAspect (decrementIfOdd rawWidth) (decrementIfOdd rawHeight) with
      | error e => rw [hasp] at hdim; cases hdim
      | ok aspect =>
        rw [hasp] at hdim
        simp only [Except.ok.injEq] at hdim
        refine ⟨aspect, by rw [← hdim], ?_⟩
        unfold reducedAspect at hasp
        cases hg : utils.gcd (decrementIfOdd rawWidth) (decrementIfOdd rawHeight) with
        | none => rw [hg] at hasp; cases hasp
        | some g =>
          rw [hg] at hasp
          simp only [Except.ok.injEq] at hasp
          rw [← hasp]

theorem rawDimension_empty (video : VideoInfo) (referrer : Resolution) :
    rawDimension video referrer (JSVal.str "")
      = .error (errors.renderError "size_format" [JSVal.str ""]) := by
  simp [rawDimension, JSVal.toText, searchFrom, fixedWidthAt, fixedHeightAt, percentageAt,
    classicSizeAt]

theorem computeDimension_size_empty (md : Metadata) (codec : String) (dim : Dimension)
    (hdim : computeDimension md (codecSizeOptions codec "") = .ok dim) : False := by
  rw [computeDimension_unfold md (codecSizeOptions codec "") (codecSizeContainer codec "") rfl]
    at hdim
  cases href : referenceResolution md (codecSizeContainer codec "") with
  | none => rw [href] at hdim; cases hdim
  | some referrer =>
    rw [href] at hdim
    have hget : (codecSizeContainer codec "").get "size" = JSVal.str "" := rfl
    simp only [hget, rawDimension_empty] at hdim
    cases hdim

theorem codecSizeSession_eq (filePath : String) (cfg : Configuration) (md : Metadata)
    (codec size : String) (hcodec : codec ∈ cfg.encode) :
    codecSizeSession filePath cfg md codec size
      = (.ok (), { Video.new filePath cfg md with options := codecSizeOptions codec size }) := by
  unfold codecSizeSession
  have hset : (Video.new filePath cfg md).setVideoCodec codec
      = (.ok (), (Video.new filePath cfg md).addOption "video" "codec" (JSVal.str codec)) := by
    simp [Video.setVideoCodec, Video.new, hcodec]
  rw [hset]
  rfl

/-- C19, as amended: on a fresh session, for every codec of the encode list that is
not empty and is not the text of the flags `-aspect` and `-s`, and every size for
which `computeDimension` returns a dimension, `setVideoCodec`, `setVideoSize` and
`save` succeed and the command list is `-vcodec`, the codec, `-aspect`, the reduced
aspect of the dimension, `-s`, the dimension as `WxH`. -/
theorem save_codec_size (filePath destination : String) (cfg : Configuration) (md : Metadata)
    (codec size : String) (dim : Dimension)
    (hcodec : codec ∈ cfg.encode) (hne : codec ≠ "")
    (haspect : codec ≠ "-aspect") (hsize : codec ≠ "-s")
    (hdim : computeDimension md (codecSizeOptions codec size) = .ok dim) :
    (codecSizeSession filePath cfg md codec size).1 = .ok () ∧
      (codecSizeSession filePath cfg md codec size).2.options = codecSizeOptions codec size ∧
      ∃ aspect, dim.aspect = some aspect ∧
        ((codecSizeSession filePath cfg md codec size).andThen (Video.save destination)).1
          = .ok () ∧
        ((codecSizeSession filePath cfg md codec size).andThen (Video.save destination)).2.commands
          = [JSVal.str "-vcodec", JSVal.str codec, JSVal.str "-aspect", JSVal.str aspect.string,
              JSVal.str "-s", JSVal.str (dim.width.toText ++ "x" ++ dim.height.toText)] := by
  rw [codecSizeSession_eq filePath cfg md codec size hcodec]
  refine ⟨rfl, rfl, ?_⟩
  obtain ⟨aspect, hasp, htext⟩ := computeDimension_aspect md (codecSizeOptions codec size)
    (codecSizeContainer codec size) dim rfl rfl hdim
  refine ⟨aspect, hasp, ?_⟩
  have hsizeNe : size ≠ "" := by
    intro hempty
    subst hempty
    exact computeDimension_size_empty md codec dim hdim
  have hstr : aspect.string ≠ "" := by
    rw [htext]; exact aspect_text_ne _ _ "" (by decide)
  have hstrS : aspect.string ≠ "-s" := by
    rw [htext]; exact aspect_text_ne _ _ "-s" (by decide)
  have hwh := size_text_ne_empty dim.width.toText dim.height.toText
  have hdim0 : computeDimension md [("video", codecSizeContainer codec size)] = .ok dim := hdim
  simp [Outcome.andThen, Video.save, Video.saveVideo, Video.getContainer, codecSizeOptions,
    Video.new, List.lookup, Container.get, JSVal.truthy, Video.whenTruthy, hne, hsizeNe,
    Video.addCommand, Video.saveSize, hdim0, hasp, Video.addComplexAspect, Video.addFilterComplex,
    haspect, hsize, hstr, hstrS, hwh, Video.saveAudio, Video.setOutput,
    Ne.symm haspect, Ne.symm hsize, Ne.symm hstrS]

/-! ## The percentage `100%` -/

theorem rawDimension_hundred (video : VideoInfo) (w h : Nat) :
    rawDimension video { w := JSNum.ofNat w, h := JSNum.ofNat h } (JSVal.str "100%")
      = .ok (JSNum.ofNat 0, JSNum.ofNat 0) := by
  have hs1 : searchFrom fixedWidthAt "100%".data = none := by decide
  have hs2 : searchFrom fixedHeightAt "100%".data = none := by decide
  have hs3 : searchFrom percentageAt "100%".data = some "00".data := by decide
  have hparse : parseInt "00".data = JSNum.ofNat 0 := by decide!
  have hround : roundHalfUp 0 = 0 := by decide!
  have hzero : ∀ v : Nat,
      ((JSNum.ofNat v).mul ((JSNum.ofNat 0).div (JSNum.ofNat 100))).round = JSNum.ofNat 0 := by
    intro v
    rw [(round_mul_ratio v 0).1]
    simp only [Nat.cast_zero, zero_div, JSNum.operand_zero, mul_zero, JSNum.toDouble_zero, hround]
  unfold rawDimension
  simp only [JSVal.toText, hs1, hs2, hs3, hparse, hzero]

/-- C24: with the size `"100%"` and every reference resolution `w x h`,
`computeDimension` returns the width `0` and the height `0`, not the reference
resolution: the pattern of the percentage reads the two digits `00` in front of the
sign. -/
theorem computeDimension_hundred_percent (md : Metadata) (options : Options) (video : Container)
    (w h : Nat) (hv : options.lookup "video" = some video)
    (href : referenceResolution md video = some { w := JSNum.ofNat w, h := JSNum.ofNat h })
    (hsize : video.get "size" = JSVal.str "100%") :
    searchFrom percentageAt "100%".data = some "00".data ∧
      ∃ d, computeDimension md options = .ok d ∧ d.width = JSNum.ofNat 0 ∧
        d.height = JSNum.ofNat 0 := by
  have hraw := rawDimension_hundred md.video w h
  rw [← hsize] at hraw
  exact ⟨by decide,
    computeDimension_of_raw md options video _ 0 0 hv href hraw (by decide) (by decide)⟩

/-! ## Compiling a size without a display aspect -/

theorem computeDimension_size_truthy (md : Metadata) (options : Options) (video : Container)
    (dim : Dimension) (hv : options.lookup "video" = some video)
    (hsize : video.get "size" = JSVal.str "")
    (hdim : computeDimension md options = .ok dim) : False := by
  rw [computeDimension_unfold md options video hv] at hdim
  cases href : referenceResolution md video with
  | none => rw [href] at hdim; cases hdim
  | some referrer =>
    rw [href] at hdim
    simp only [hsize, rawDimension_empty] at hdim
    cases hdim

theorem computeDimension_no_aspect (md : Metadata) (options : Options) (video : Container)
    (dim : Dimension) (hv : options.lookup "video" = some video)
    (hkeep : (video.get "keepAspectRatio").truthy = false)
    (hdim : computeDimension md options = .ok dim) : dim.aspect = none := by
  rw [computeDimension_unfold md options video hv] at hdim
  cases href : referenceResolution md video with
  | none => rw [href] at hdim; cases hdim
  | some referrer =>
    rw [href] at hdim
    simp only at hdim
    cases hraw : rawDimension md.video referrer (video.get "size") with
    | error e => rw [hraw] at hdim; cases hdim
    | ok raw =>
      obtain ⟨rawWidth, rawHeight⟩ := raw
      rw [hraw] at hdim
      simp only [hkeep, Bool.false_eq_true, if_false, Except.ok.injEq] at hdim
      rw [← hdim]

/-- C22: on a fresh session with a size recorded by `setVideoSize` with
`keepAspectRatio = false`, for which `computeDimension` returns a dimension, the
dimension has no display aspect, and `save` still adds the flag `-aspect`, without an
argument, in front of `-s WxH`, and one scale and pad fragment written with
`undefined/undefined`. -/
theorem save_size_without_aspect (filePath destination : String) (cfg : Configuration)
    (md : Metadata) (size : String) (dim : Dimension)
    (hdim : computeDimension md (sizeSession filePath cfg md size false).options = .ok dim) :
    dim.aspect = none ∧
      ((sizeSession filePath cfg md size false).save destination).1 = .ok () ∧
      ((sizeSession filePath cfg md size false).save destination).2.commands
        = [JSVal.str "-aspect", JSVal.str "-s",
            JSVal.str (dim.width.toText ++ "x" ++ dim.height.toText)] ∧
      ((sizeSession filePath cfg md size false).save destination).2.filtersComplex
        = [padFragment "undefined" "undefined" ":black"] := by
  have hopts : (sizeSession filePath cfg md size false).options
      = [("video", sizeAspectContainer size false)] := rfl
  have hsession : sizeSession filePath cfg md size false
      = { Video.new filePath cfg md with options := [("video", sizeAspectContainer size false)] } :=
    rfl
  rw [hopts] at hdim
  have hasp : dim.aspect = none :=
    computeDimension_no_aspect md [("video", sizeAspectContainer size false)]
      (sizeAspectContainer size false) dim rfl rfl hdim
  have hsizeNe : size ≠ "" := by
    intro hempty
    subst hempty
    exact computeDimension_size_truthy md [("video", sizeAspectContainer "" false)]
      (sizeAspectContainer "" false) dim rfl rfl hdim
  have hwh := size_text_ne_empty dim.width.toText dim.height.toText
  have hdim0 : computeDimension md
      [("video", [("size", JSVal.str size), ("keepPixelAspectRatio", JSVal.bool true),
        ("keepAspectRatio", JSVal.bool false), ("paddingColor", JSVal.str "black")])]
      = .ok dim := hdim
  refine ⟨hasp, ?_⟩
  rw [hsession]
  simp [Video.save, Outcome.andThen, Video.saveVideo, Video.getContainer, sizeAspectContainer,
    Video.new, List.lookup, Container.get, JSVal.truthy, Video.whenTruthy, hsizeNe,
    Video.addCommand, Video.saveSize, hdim0, hasp, Video.addComplexAspect,
    Video.addFilterComplex, hwh, Video.saveAudio, Video.setOutput, padFragment, JSVal.toText]

/-! ## Frame extraction never reaches compilation -/

theorem andThen_of_error (first : Outcome) (next : Video → Outcome) (h : first.1 ≠ .ok ()) :
    (first.andThen next).1 ≠ .ok () := by
  unfold Outcome.andThen
  cases hf : first.1 with
  | ok u => exact absurd hf h
  | error e => simp

theorem andThen_of_next_error (first : Outcome) (next : Video → Outcome)
    (h : ∀ t, (next t).1 ≠ .ok ()) : (first.andThen next).1 ≠ .ok () := by
  unfold Outcome.andThen
  cases hf : first.1 with
  | ok u => exact h _
  | error e => simp

/-- C23: `extractFrameToJPG` never returns, whatever the session, the folder and the
frame options made of the recognized fields: the record it hands to
`computeDimension` has no `video` property, and the read is a `TypeError`. On a fresh
session over the `1280x720` descriptor, with the default options, the outcome is that
`TypeError` and the command list is empty, without `-s`. -/
theorem extractFrameToJPG_raises :
    (∀ (s : Video) (folder fileName : String) (frameOptions : FrameOptions),
        (s.extractFrameToJPG folder frameOptions fileName).1 ≠ .ok ()) ∧
      (∀ (metadata : Metadata) (frameOptions : FrameOptions),
        computeDimension metadata frameOptions.containers = .error JSError.typeError) ∧
      (session720.extractFrameToJPG "frames" {} "in_%d.jpg").1 = .error JSError.typeError ∧
      (session720.extractFrameToJPG "frames" {} "in_%d.jpg").2.commands = [] := by
  refine ⟨?_, fun _ _ => rfl, by decide!, by decide!⟩
  intro s folder fileName frameOptions
  unfold Video.extractFrameToJPG
  simp only
  split
  · simp [errors.renderError]
  · split
    · simp
    · unfold Video.compileFrames
      apply andThen_of_error
      apply andThen_of_next_error
      intro t
      simp [computeDimension, FrameOptions.containers]

/-! ## The primary file stays in front of the inputs -/

theorem primaryFirst_of_eq (filePath : String) (s t : Video) (h : PrimaryFirst filePath s)
    (hfile : t.filePath = s.filePath) (hinputs : t.inputs = s.inputs) :
    PrimaryFirst filePath t :=
  ⟨hfile.trans h.1, by rw [hinputs]; exact h.2⟩

theorem primaryFirst_addCommand (filePath : String) (command argument : JSVal) (s : Video)
    (h : PrimaryFirst filePath s) : PrimaryFirst filePath (s.addCommand command argument).2 := by
  unfold Video.addCommand
  split
  · exact h
  · exact primaryFirst_of_eq filePath s _ h rfl rfl

theorem primaryFirst_addOption (filePath container name : String) (value : JSVal) (s : Video)
    (h : PrimaryFirst filePath s) : PrimaryFirst filePath (s.addOption container name value) :=
  primaryFirst_of_eq filePath s _ h rfl rfl

theorem primaryFirst_addFilterComplex (filePath argument : String) (s : Video)
    (h : PrimaryFirst filePath s) : PrimaryFirst filePath (s.addFilterComplex argument) :=
  primaryFirst_of_eq filePath s _ h rfl rfl

theorem primaryFirst_setOutput (filePath path : String) (s : Video)
    (h : PrimaryFirst filePath s) : PrimaryFirst filePath (s.setOutput path) :=
  primaryFirst_of_eq filePath s _ h rfl rfl

theorem primaryFirst_addInput (filePath argument : String) (s : Video)
    (h : PrimaryFirst filePath s) : PrimaryFirst filePath (s.addInput argument) := by
  refine ⟨h.1, ?_⟩
  have hin := h.2
  unfold Video.addInput
  cases hi : s.inputs with
  | nil => rw [hi] at hin; cases hin
  | cons first more =>
    rw [hi] at hin
    simpa using hin

theorem primaryFirst_reset (filePath : String) (s : Video) (h : PrimaryFirst filePath s) :
    PrimaryFirst filePath s.reset :=
  ⟨h.1, by simp [Video.reset, h.1]⟩

theorem primaryFirst_setVideoSize (filePath : String) (size kp ka pc : JSVal) (s : Video)
    (h : PrimaryFirst filePath s) : PrimaryFirst filePath (s.setVideoSize size kp ka pc) :=
  primaryFirst_of_eq filePath s _ h rfl rfl

theorem primaryFirst_andThen (filePath : String) (first : Outcome) (next : Video → Outcome)
    (hfirst : PrimaryFirst filePath first.2) (hnext : KeepsPrimary next) :
    PrimaryFirst filePath (first.andThen next).2 := by
  unfold Outcome.andThen
  cases first.1 with
  | ok u => exact hnext filePath _ hfirst
  | error e => exact hfirst

theorem keepsPrimary_addCommand (command argument : JSVal) :
    KeepsPrimary (Video.addCommand command argument) :=
  fun filePath s h => primaryFirst_addCommand filePath command argument s h

theorem keepsPrimary_whenTruthy (value : JSVal) (statement : Video → Outcome)
    (h : KeepsPrimary statement) : KeepsPrimary (Video.whenTruthy value statement) := by
  intro filePath s hs
  unfold Video.whenTruthy
  split
  · exact h filePath s hs
  · exact hs

theorem keepsPrimary_addComplexAspect (x y string paddingColor : JSVal) :
    KeepsPrimary (Video.addComplexAspect x y string paddingColor) := by
  intro filePath s hs
  unfold Video.addComplexAspect
  exact primaryFirst_addCommand filePath _ _ _ (primaryFirst_addFilterComplex filePath _ s hs)

theorem keepsPrimary_saveSize (video : Container) : KeepsPrimary (Video.saveSize video) := by
  intro filePath s hs
  unfold Video.saveSize
  split
  · exact hs
  · exact primaryFirst_andThen filePath _ _ (keepsPrimary_addComplexAspect _ _ _ _ filePath s hs)
      (keepsPrimary_addCommand _ _)

theorem keepsPrimary_saveVideo : KeepsPrimary Video.saveVideo := by
  intro filePath s hs
  unfold Video.saveVideo
  split
  · exact hs
  · split
    · exact primaryFirst_addCommand filePath _ _ s hs
    · refine primaryFirst_andThen filePath _ _ (primaryFirst_andThen filePath _ _
        (primaryFirst_andThen filePath _ _ (primaryFirst_andThen filePath _ _
        (primaryFirst_andThen filePath _ _ (primaryFirst_andThen filePath _ _
        (primaryFirst_andThen filePath _ _
          (keepsPrimary_whenTruthy _ _ (keepsPrimary_addCommand _ _) filePath s hs)
          (keepsPrimary_whenTruthy _ _ (keepsPrimary_addCommand _ _)))
          (keepsPrimary_whenTruthy _ _ (keepsPrimary_addCommand _ _)))
          (keepsPrimary_whenTruthy _ _ (keepsPrimary_addCommand _ _)))
          (keepsPrimary_whenTruthy _ _ (keepsPrimary_addCommand _ _)))
          (keepsPrimary_whenTruthy _ _ (keepsPrimary_addCommand _ _)))
          (keepsPrimary_whenTruthy _ _ ?_))
          (keepsPrimary_whenTruthy _ _ (keepsPrimary_saveSize _))
      intro fp t ht
      exact primaryFirst_addFilterComplex fp _ _ (primaryFirst_addInput fp _ t ht)

theorem keepsPrimary_saveAudio : KeepsPrimary Video.saveAudio := by
  intro filePath s hs
  unfold Video.saveAudio
  split
  · exact hs
  · split
    · exact primaryFirst_addCommand filePath _ _ s hs
    · exact primaryFirst_andThen filePath _ _ (primaryFirst_andThen filePath _ _
        (primaryFirst_andThen filePath _ _ (primaryFirst_andThen filePath _ _
          (keepsPrimary_whenTruthy _ _ (keepsPrimary_addCommand _ _) filePath s hs)
          (keepsPrimary_whenTruthy _ _ (keepsPrimary_addCommand _ _)))
          (keepsPrimary_whenTruthy _ _ (keepsPrimary_addCommand _ _)))
          (keepsPrimary_whenTruthy _ _ (keepsPrimary_addCommand _ _)))
          (keepsPrimary_whenTruthy _ _ (keepsPrimary_addCommand _ _))

theorem keepsPrimary_setOutput (path : String) :
    KeepsPrimary (fun t => ((.ok (), t.setOutput path) : Outcome)) :=
  fun filePath s hs => primaryFirst_setOutput filePath path s hs

theorem keepsPrimary_save (destination : String) : KeepsPrimary (Video.save destination) := by
  intro filePath s hs
  unfold Video.save
  exact primaryFirst_andThen filePath _ _
    (primaryFirst_andThen filePath _ _ (keepsPrimary_saveVideo filePath s hs)
      keepsPrimary_saveAudio)
    (keepsPrimary_setOutput destination)

theorem keepsPrimary_setWatermark (fileExists : String → Bool) (watermarkPath : String)
    (options : Container) : KeepsPrimary (Video.setWatermark fileExists watermarkPath options) := by
  intro filePath s hs
  unfold Video.setWatermark
  simp only
  split
  · exact hs
  · split
    · exact hs
    · split
      · exact hs
      · split
        · exact hs
        · split
          · exact primaryFirst_addOption filePath _ _ _ s hs
          · exact primaryFirst_addFilterComplex filePath _ _
              (primaryFirst_addInput filePath _ s hs)

theorem keepsPrimary_extractAudioToMP3 (output : String) :
    KeepsPrimary (Video.extractAudioToMP3 output) := by
  intro filePath s hs
  unfold Video.extractAudioToMP3
  exact primaryFirst_andThen filePath _ _ (primaryFirst_andThen filePath _ _
    (primaryFirst_andThen filePath _ _ (primaryFirst_andThen filePath _ _
    (primaryFirst_andThen filePath _ _
      (primaryFirst_addCommand filePath _ _ _ (primaryFirst_reset filePath s hs))
      (keepsPrimary_addCommand _ _)) (keepsPrimary_addCommand _ _))
      (keepsPrimary_addCommand _ _)) (keepsPrimary_addCommand _ _))
      (keepsPrimary_setOutput output)

theorem keepsPrimary_watermark (fileExists : String → Bool) (path : String)
    (outputFilePath : Option String) (wmOptions : Container) :
    KeepsPrimary (Video.watermark fileExists path outputFilePath wmOptions) := by
  intro filePath s hs
  unfold Video.watermark
  refine primaryFirst_andThen filePath _ _
    (keepsPrimary_setWatermark _ _ _ filePath _ (primaryFirst_reset filePath s hs)) ?_
  intro fp t ht
  split
  · exact ht
  · split
    · exact ht
    · exact primaryFirst_andThen fp _ _
        (primaryFirst_addCommand fp _ _ _ (primaryFirst_setOutput fp _ t ht))
        (keepsPrimary_addCommand _ _)

theorem keepsPrimary_addSampling (o : FrameOptions) : KeepsPrimary (Video.addSampling o) := by
  intro filePath s hs
  unfold Video.addSampling
  refine primaryFirst_andThen filePath _ _ (primaryFirst_andThen filePath _ _
    (primaryFirst_andThen filePath _ _
      (keepsPrimary_whenTruthy _ _ (keepsPrimary_addCommand _ _) filePath s hs) ?_) ?_) ?_
  all_goals
    refine keepsPrimary_whenTruthy _ _ ?_
    intro fp t ht
    refine primaryFirst_andThen fp _ _ (primaryFirst_addCommand fp _ _ t ht) ?_
    intro fp2 u hu
    exact primaryFirst_addFilterComplex fp2 _ u hu

theorem keepsPrimary_compileFrames (folder fileName : String) (o : FrameOptions) :
    KeepsPrimary (Video.compileFrames folder fileName o) := by
  intro filePath s hs
  unfold Video.compileFrames
  refine primaryFirst_andThen filePath _ _ (primaryFirst_andThen filePath _ _
    (primaryFirst_andThen filePath _ _ (primaryFirst_andThen filePath _ _
      (keepsPrimary_whenTruthy _ _ (keepsPrimary_addCommand _ _) filePath _
        (primaryFirst_reset filePath s hs))
      (keepsPrimary_whenTruthy _ _ (keepsPrimary_addCommand _ _)))
      (keepsPrimary_whenTruthy _ _ (keepsPrimary_addCommand _ _))) ?_)
    (keepsPrimary_setOutput _)
  intro fp t ht
  have hsized := primaryFirst_setVideoSize fp o.size o.keepPixelAspectRatio o.keepAspectRatio
    o.paddingColor t ht
  simp only
  split
  · exact hsized
  · exact primaryFirst_andThen fp _ _ (primaryFirst_andThen fp _ _
      (primaryFirst_addCommand fp _ _ _ hsized) (keepsPrimary_addComplexAspect _ _ _ _))
      (keepsPrimary_addSampling o)

theorem keepsPrimary_extractFrameToJPG (folder : String) (frameOptions : FrameOptions)
    (fileName : String) : KeepsPrimary (Video.extractFrameToJPG folder frameOptions fileName) := by
  intro filePath s hs
  unfold Video.extractFrameToJPG
  simp only
  split
  · exact hs
  · split
    · exact hs
    · exact keepsPrimary_compileFrames _ _ _ filePath s hs

theorem keepsPrimary_setCodec (s : Video) (filePath codec : String)
    (hs : PrimaryFirst filePath s) :
    PrimaryFirst filePath (s.setVideoFormat codec).2 ∧
      PrimaryFirst filePath (s.setVideoCodec codec).2 ∧
      PrimaryFirst filePath (s.setAudioCodec codec).2 := by
  unfold Video.setVideoFormat Video.setVideoCodec Video.setAudioCodec
  refine ⟨?_, ?_, ?_⟩ <;> split
  · exact primaryFirst_addOption filePath _ _ _ s hs
  · exact hs
  · exact primaryFirst_addOption filePath _ _ _ s hs
  · exact hs
  · exact primaryFirst_addOption filePath _ _ _ s hs
  · exact hs

/-- Every call of a builder operation keeps the primary file in front. -/
theorem keepsPrimary_call (operation : Operation) : KeepsPrimary operation.call := by
  intro filePath s hs
  cases operation with
  | addCommand command argument => exact primaryFirst_addCommand filePath _ _ s hs
  | addOption container name value => exact primaryFirst_addOption filePath _ _ _ s hs
  | addInput argument => exact primaryFirst_addInput filePath _ s hs
  | addFilterComplex argument => exact primaryFirst_addFilterComplex filePath _ s hs
  | setOutput path => exact primaryFirst_setOutput filePath _ s hs
  | setDisableAudio => exact primaryFirst_addOption filePath _ _ _ s hs
  | setDisableVideo => exact primaryFirst_addOption filePath _ _ _ s hs
  | setVideoFormat format => exact (keepsPrimary_setCodec s filePath format hs).1
  | setVideoCodec codec => exact (keepsPrimary_setCodec s filePath codec hs).2.1
  | setVideoBitRate bitrate => exact primaryFirst_addOption filePath _ _ _ s hs
  | setVideoFrameRate framerate => exact primaryFirst_addOption filePath _ _ _ s hs
  | setVideoStartTime time => exact primaryFirst_addOption filePath _ _ _ s hs
  | setDuration duration => exact primaryFirst_addOption filePath _ _ _ s hs
  | setVideoAspectRatio ratio => exact primaryFirst_addOption filePath _ _ _ s hs
  | setVideoSize size kp ka pc => exact primaryFirst_setVideoSize filePath _ _ _ _ s hs
  | setAudioCodec codec => exact (keepsPrimary_setCodec s filePath codec hs).2.2
  | setAudioFrequency frequency => exact primaryFirst_addOption filePath _ _ _ s hs
  | setAudioChannels channel =>
    show PrimaryFirst filePath (s.setAudioChannels channel).2
    unfold Video.setAudioChannels
    split
    · exact primaryFirst_addOption filePath _ _ _ s hs
    · exact hs
  | setAudioBitRate bitrate => exact primaryFirst_addOption filePath _ _ _ s hs
  | setAudioQuality quality => exact primaryFirst_addOption filePath _ _ _ s hs
  | setWatermark fileExists watermarkPath options =>
    exact keepsPrimary_setWatermark _ _ _ filePath s hs
  | save destination => exact keepsPrimary_save _ filePath s hs
  | reset => exact primaryFirst_reset filePath s hs
  | extractAudioToMP3 output => exact keepsPrimary_extractAudioToMP3 _ filePath s hs
  | extractFrameToJPG folder frameOptions fileName =>
    exact keepsPrimary_extractFrameToJPG _ _ _ filePath s hs
  | watermark fileExists path outputFilePath wmOptions =>
    exact keepsPrimary_watermark _ _ _ _ filePath s hs

theorem primaryFirst_run (filePath : String) (operations : List Operation) :
    ∀ s : Video, PrimaryFirst filePath s → PrimaryFirst filePath (Operation.run operations s) := by
  induction operations with
  | nil => intro s hs; exact hs
  | cons operation rest ih =>
    intro s hs
    exact ih _ (keepsPrimary_call operation filePath s hs)

/-- C21: in every session reached from the constructor by a sequence of builder
operations (the public methods that change the session: the setters, `addCommand`,
`addOption`, `addInput`, `addFilterComplex`, `setOutput`, `setWatermark` in either
mode, `save`, `reset` and the three presets), each called on the session the one
before left, whether it returned or threw, the inputs are not empty and their first
element is the primary file path given to the constructor. -/
theorem inputs_start_with_primary (filePath : String) (configuration : Configuration)
    (info : Metadata) (operations : List Operation) :
    (Operation.run operations (Video.new filePath configuration info)).inputs ≠ [] ∧
      (Operation.run operations (Video.new filePath configuration info)).inputs.head?
        = some filePath := by
  have h := primaryFirst_run filePath operations (Video.new filePath configuration info)
    ⟨rfl, rfl⟩
  refine ⟨?_, h.2⟩
  intro hempty
  have h2 := h.2
  rw [hempty] at h2
  cases h2

/-! ## The statements at sample inputs -/

theorem descriptor720_isMediaDescriptor : IsMediaDescriptor descriptor720 :=
  ⟨report720, by decide!⟩

theorem sizeOptions_video (size : String) :
    (sizeOptions size).lookup "video" = some (sizeContainer size) := by
  rfl

/-- C1 as stated fails: with two fragments the token holds them joined by a comma and
a space, not by a comma alone. -/
theorem execCommand_tokens_counterexample :
    sessionTwoFilters.execCommand ≠ joinedTokens "," sessionTwoFilters ∧
      joinedTokens "," sessionTwoFilters
        = [JSVal.str "ffmpeg -i", JSVal.str "\"in.mp4\"",
            JSVal.str "-filter_complex \"overlay=0:0,scale=640:360\"", JSVal.str "out.mp4"] ∧
      sessionTwoFilters.execCommand
        = [JSVal.str "ffmpeg -i", JSVal.str "\"in.mp4\"",
            JSVal.str "-filter_complex \"overlay=0:0, scale=640:360\"", JSVal.str "out.mp4"] := by
  decide

/-- C2 at a sample input: `-ss 10` then `-an` on a fresh session. -/
theorem addCommand_guard_witness :
    JSVal.str "-ss" ∉ session720.commands ∧ JSVal.str "-an" ∉ session720.commands ∧
      JSVal.str "-ss" ≠ JSVal.str "-an" ∧
      ((session720.addCommand (JSVal.str "-ss") (JSVal.num (JSNum.ofNat 10))).2.addCommand
          (JSVal.str "-an") JSVal.undefined).1 = .ok () ∧
      ((session720.addCommand (JSVal.str "-ss") (JSVal.num (JSNum.ofNat 10))).2.addCommand
          (JSVal.str "-an") JSVal.undefined).2.commands
        = [JSVal.str "-ss", JSVal.num (JSNum.ofNat 10), JSVal.str "-an"] := by
  have h1 : JSVal.str "-ss" ∉ session720.commands := by decide
  have h2 : JSVal.str "-an" ∉ session720.commands := by decide
  have hne : JSVal.str "-ss" ≠ JSVal.str "-an" := by decide
  have h := (addCommand_guard session720 (JSVal.str "-ss") (JSVal.num (JSNum.ofNat 10))
    (JSVal.str "-an") JSVal.undefined).2.2 h1 h2 hne (fun _ => by simp)
    (Or.inr (by decide!)) (Or.inl rfl)
  refine ⟨h1, h2, hne, h.2.1, ?_⟩
  rw [h.2.2]
  decide!

/-- C2 as stated fails: after `-strict` with the argument `-2`, the different flag `-2`
is refused. -/
theorem addCommand_guard_counterexample :
    JSVal.str "-strict" ≠ JSVal.str "-2" ∧
      (session720.addCommand (JSVal.str "-strict") (JSVal.str "-2")).1 = .ok () ∧
      ((session720.addCommand (JSVal.str "-strict") (JSVal.str "-2")).2.addCommand
          (JSVal.str "-2") JSVal.undefined).1
        = .error (errors.renderError "command_already_exists" [JSVal.str "-2"]) := by
  decide

/-- C3 at sample inputs: `xvid` is refused, `h264` is recorded, `mp3` is recorded as
`libmp3lame`. -/
theorem setCodec_validated_witness :
    "xvid" ∉ session720.configuration.encode ∧
      session720.setVideoCodec "xvid"
        = (.error (errors.renderError "codec_not_supported" [JSVal.str "xvid"]), session720) ∧
      session720.setAudioCodec "xvid"
        = (.error (errors.renderError "codec_not_supported" [JSVal.str "xvid"]), session720) ∧
      "h264" ∈ session720.configuration.encode ∧
      (session720.setVideoCodec "h264").1 = .ok () ∧
      (session720.setVideoCodec "h264").2.getOption "video" "codec" = JSVal.str "h264" ∧
      (session720.setAudioCodec "mp3").2.getOption "audio" "codec" = JSVal.str "libmp3lame" := by
  have hout : "xvid" ∉ session720.configuration.encode := by decide
  have hin : "h264" ∈ session720.configuration.encode := by decide
  have h1 := (setCodec_validated session720 "xvid").1 hout
  have h2 := (setCodec_validated session720 "h264").2 hin
  exact ⟨hout, h1.1, h1.2, hin, h2.1.1, h2.1.2, by decide⟩

/-- C4 as stated fails: on the report with the display aspect `6:15`, the size `199x?`
gives the height 496, where `round (199*15/6)` made even is 498: the quotient `199/6`
is rounded to a double before it is multiplied, and the product `497.49999999999994`
rounds to 497. -/
theorem computeDimension_fixed_side_counterexample :
    IsMediaDescriptor descriptor615 ∧
      descriptor615.video.aspect
        = some ⟨JSNum.ofNat 6, JSNum.ofNat 15, "6:15", JSNum.fin (6 / 15)⟩ ∧
      computeDimension descriptor615 (sizeOptions "199x?")
        = .ok { width := JSNum.ofNat 198, height := JSNum.ofNat 496,
                aspect := some { x := JSNum.ofNat 99, y := JSNum.ofNat 248,
                                 string := "99:248" } } ∧
      madeEven (roundHalfUp (((199 : Nat) : ℚ) * ((15 : Nat) : ℚ) / ((6 : Nat) : ℚ))) = 498 ∧
      quotientTimes 199 6 15 < 995 / 2 :=
  ⟨⟨report615, by decide!⟩, rfl, by decide!, by decide!, by decide!⟩

/-- C4, as amended, at the sample input: aspect 16:9, `640x?` gives the height 360 and
`?x360` the width 640. -/
theorem computeDimension_fixed_side_witness :
    IsMediaDescriptor descriptor720 ∧
      (∃ d, computeDimension descriptor720 (sizeOptions "640x?") = .ok d ∧
        d.width = JSNum.ofNat (madeEven 640) ∧
        d.height = JSNum.ofNat (madeEven (roundHalfUp (quotientTimes 640 16 9)))) ∧
      (∃ d, computeDimension descriptor720 (sizeOptions "?x360") = .ok d ∧
        d.height = JSNum.ofNat (madeEven 360) ∧
        d.width = JSNum.ofNat (madeEven (roundHalfUp (quotientTimes 360 9 16)))) ∧
      quotientTimes 640 16 9 = 360 ∧ quotientTimes 360 9 16 = 640 ∧
      computeDimension descriptor720 (sizeOptions "640x?")
        = .ok { width := JSNum.ofNat 640, height := JSNum.ofNat 360,
                aspect := some { x := JSNum.ofNat 16, y := JSNum.ofNat 9, string := "16:9" } } ∧
      computeDimension descriptor720 (sizeOptions "?x360")
        = .ok { width := JSNum.ofNat 640, height := JSNum.ofNat 360,
                aspect := some { x := JSNum.ofNat 16, y := JSNum.ofNat 9, string := "16:9" } } :=
  ⟨descriptor720_isMediaDescriptor,
    (computeDimension_fixed_side descriptor720 (sizeOptions "640x?") (sizeContainer "640x?")
      16 9 640 "16:9" (JSNum.fin (16 / 9)) descriptor720_isMediaDescriptor
      (sizeOptions_video "640x?") rfl (by norm_num) (by norm_num) (by norm_num)).1 (by decide),
    (computeDimension_fixed_side descriptor720 (sizeOptions "?x360") (sizeContainer "?x360")
      16 9 360 "16:9" (JSNum.fin (16 / 9)) descriptor720_isMediaDescriptor
      (sizeOptions_video "?x360") rfl (by norm_num) (by norm_num) (by norm_num)).2 (by decide),
    by decide!, by decide!, by decide!, by decide!⟩

/-- C5 at a sample input: `11%` of 1280x720 computes 141x79 and returns 140x78. -/
theorem computeDimension_even_witness :
    referenceResolution descriptor720 (sizeContainer "11%")
        = some { w := JSNum.ofNat 1280, h := JSNum.ofNat 720 } ∧
      isSizeForm ((sizeContainer "11%").get "size").toText.data = true ∧
      rawDimension descriptor720.video { w := JSNum.ofNat 1280, h := JSNum.ofNat 720 }
          ((sizeContainer "11%").get "size")
        = .ok (JSNum.ofNat 141, JSNum.ofNat 79) ∧
      (∃ d, computeDimension descriptor720 (sizeOptions "11%") = .ok d ∧
        d.width = JSNum.ofNat 140 ∧ d.height = JSNum.ofNat 78) := by
  have href : referenceResolution descriptor720 (sizeContainer "11%")
      = some { w := JSNum.ofNat 1280, h := JSNum.ofNat 720 } := by decide!
  have hform : isSizeForm ((sizeContainer "11%").get "size").toText.data = true := by decide
  have hraw : rawDimension descriptor720.video { w := JSNum.ofNat 1280, h := JSNum.ofNat 720 }
      ((sizeContainer "11%").get "size") = .ok (JSNum.ofNat 141, JSNum.ofNat 79) := by decide!
  have h := computeDimension_even descriptor720 (sizeOptions "11%") (sizeContainer "11%")
    1280 720 16 9 "16:9" (JSNum.fin (16 / 9)) (sizeOptions_video "11%") href rfl
    (by decide) (by decide)
  obtain ⟨d, hd⟩ := h.2 hform
  obtain ⟨vw, vh, hvraw, hw, hh, _, _⟩ := h.1 d hd
  rw [hraw] at hvraw
  simp only [Except.ok.injEq, Prod.mk.injEq] at hvraw
  have hvw : vw = 141 := (JSNum.ofNat_inj.mp hvraw.1).symm
  have hvh : vh = 79 := (JSNum.ofNat_inj.mp hvraw.2).symm
  subst hvw hvh
  exact ⟨href, hform, hraw, d, hd, hw, hh⟩

/-- C6 as stated fails: `29%` of 1334x750 gives the height 216, where
`round (750*29/100)` made even is 218: the quotient `29/100` is rounded to a double
before it is multiplied, and the product `217.49999999999997` rounds to 217. -/
theorem computeDimension_percentage_counterexample :
    IsMediaDescriptor descriptor750 ∧
      referenceResolution descriptor750 (sizeContainer "29%")
        = some { w := JSNum.ofNat 1334, h := JSNum.ofNat 750 } ∧
      computeDimension descriptor750 (sizeOptions "29%")
        = .ok { width := JSNum.ofNat 386, height := JSNum.ofNat 216,
                aspect := some { x := JSNum.ofNat 193, y := JSNum.ofNat 108,
                                 string := "193:108" } } ∧
      madeEven (roundHalfUp (((750 : Nat) : ℚ) * ((29 : Nat) : ℚ) / 100)) = 218 ∧
      timesPercent 750 29 < 435 / 2 :=
  ⟨⟨report750, by decide!⟩, by decide!, by decide!, by decide!, by decide!⟩

/-- C6, as amended, at the sample input: `50%` of 1280x720 gives 640x360. -/
theorem computeDimension_percentage_witness :
    referenceResolution descriptor720 (sizeContainer "50%")
        = some { w := JSNum.ofNat 1280, h := JSNum.ofNat 720 } ∧
      (∃ d, computeDimension descriptor720 (sizeOptions "50%") = .ok d ∧
        d.width = JSNum.ofNat (madeEven (roundHalfUp (timesPercent 1280 50))) ∧
        d.height = JSNum.ofNat (madeEven (roundHalfUp (timesPercent 720 50)))) ∧
      timesPercent 1280 50 = 640 ∧ timesPercent 720 50 = 360 ∧
      computeDimension descriptor720 (sizeOptions "50%")
        = .ok { width := JSNum.ofNat 640, height := JSNum.ofNat 360,
                aspect := some { x := JSNum.ofNat 16, y := JSNum.ofNat 9, string := "16:9" } } :=
  ⟨by decide!,
    computeDimension_percentage descriptor720 (sizeOptions "50%") (sizeContainer "50%")
      1280 720 50 (sizeOptions_video "50%") (by decide!) (by decide) (by decide) (by decide)
      (by norm_num) (by norm_num),
    by decide!, by decide!, by decide!⟩

/-- C7 as stated fails: `18014398509481986` is even, and the size
`18014398509481986x360` gives the width `18014398509481984`, the double nearest to the
numeral. -/
theorem computeDimension_classic_counterexample :
    IsMediaDescriptor descriptor720 ∧
      18014398509481986 % 2 = 0 ∧ 360 % 2 = 0 ∧
      computeDimension descriptor720 (sizeOptions "18014398509481986x360")
        = .ok { width := JSNum.ofNat 18014398509481984, height := JSNum.ofNat 360,
                aspect := some { x := JSNum.ofNat 2251799813685248, y := JSNum.ofNat 45,
                                 string := "2251799813685248:45" } } ∧
      JSNum.ofNat 18014398509481984 ≠ JSNum.ofNat 18014398509481986 :=
  ⟨descriptor720_isMediaDescriptor, by decide, by decide, by decide!, by decide!⟩

/-- C7, as amended, at the sample input: `640x360` gives 640x360. -/
theorem computeDimension_classic_witness :
    IsMediaDescriptor descriptor720 ∧
      ∃ d, computeDimension descriptor720 (sizeOptions "640x360") = .ok d ∧
        d.width = JSNum.ofNat 640 ∧ d.height = JSNum.ofNat 360 :=
  ⟨descriptor720_isMediaDescriptor,
    computeDimension_classic descriptor720 (sizeOptions "640x360") (sizeContainer "640x360")
      640 360 descriptor720_isMediaDescriptor (sizeOptions_video "640x360") (by decide)
      (by decide) (by decide) (by norm_num) (by norm_num)⟩

/-- C8 as stated fails: `640x360p` is none of the four forms and is accepted. -/
theorem computeDimension_size_format_counterexample :
    isSizeForm "640x360p".data = false ∧
      computeDimension descriptor720 (sizeOptions "640x360p")
        = .ok { width := JSNum.ofNat 640, height := JSNum.ofNat 360,
                aspect := some { x := JSNum.ofNat 16, y := JSNum.ofNat 9, string := "16:9" } } :=
  ⟨by decide, by decide!⟩

/-- C8, as amended, at sample inputs: `large` holds no match and fails with the
size-format error; `640x?` is one of the forms and does not. -/
theorem computeDimension_size_format_witness :
    IsMediaDescriptor descriptor720 ∧
      computeDimension descriptor720 (sizeOptions "large")
        = .error (errors.renderError "size_format" [JSVal.str "large"]) ∧
      isSizeForm ((sizeContainer "640x?").get "size").toText.data = true ∧
      (∀ args, computeDimension descriptor720 (sizeOptions "640x?")
        ≠ .error (JSError.rendered "size_format" args)) := by
  have hnone : ∀ {α : Type} (matchAt : List Char → Option α),
      searchFrom matchAt ((sizeContainer "large").get "size").toText.data = none →
      ¬ OccursIn matchAt ((sizeContainer "large").get "size").toText.data :=
    fun matchAt h => (searchFrom_eq_none_iff matchAt _).mp h
  exact ⟨descriptor720_isMediaDescriptor,
    (computeDimension_size_format descriptor720 (sizeOptions "large") (sizeContainer "large")
      descriptor720_isMediaDescriptor (sizeOptions_video "large")).1
      ⟨hnone _ (by decide), hnone _ (by decide), hnone _ (by decide), hnone _ (by decide)⟩,
    by decide,
    (computeDimension_size_format descriptor720 (sizeOptions "640x?") (sizeContainer "640x?")
      descriptor720_isMediaDescriptor (sizeOptions_video "640x?")).2.2 (by decide)⟩

/-- C9 at a sample input: `gcd (1920, 1080) = 120`, reducing to `16:9`. -/
theorem gcd_reduces_witness :
    0 < 1920 ∧ 0 < 1080 ∧
      utils.gcd (JSNum.ofNat 1920) (JSNum.ofNat 1080) = some (JSNum.ofNat 120) ∧
      (∃ g x y : Nat,
        utils.gcd (JSNum.ofNat 1920) (JSNum.ofNat 1080) = some (JSNum.ofNat g) ∧
        x * g = 1920 ∧ y * g = 1080 ∧ Nat.Coprime x y) := by
  obtain ⟨⟨g, x, y, hg, _, _, hx, hy, _, _, hco, _⟩, _⟩ :=
    gcd_reduces 1920 1080 (by decide) (by decide)
  exact ⟨by decide, by decide, by decide!, g, x, y, hg, hx, hy, hco⟩

/-- C10 at the sample input: 1920x1080 without a `DAR` field gives 16:9. -/
theorem getVideoInfo_aspect_witness :
    ¬ OccursIn aspectAt report1080.data ∧
      getVideoInfo report1080 = .ok descriptor1080 ∧
      descriptor1080.video.aspect
        = some { x := JSNum.ofNat (1920 / Nat.gcd 1920 1080)
                 y := JSNum.ofNat (1080 / Nat.gcd 1920 1080)
                 string := Nat.repr (1920 / Nat.gcd 1920 1080) ++ ":"
                   ++ Nat.repr (1080 / Nat.gcd 1920 1080)
                 value := JSNum.fin (((1920 / Nat.gcd 1920 1080 : Nat) : ℚ)
                   / ((1080 / Nat.gcd 1920 1080 : Nat) : ℚ)) } ∧
      descriptor1080.video.aspect
        = some { x := JSNum.ofNat 16, y := JSNum.ofNat 9, string := "16:9",
                 value := JSNum.fin (16 / 9) } := by
  have hdar : ¬ OccursIn aspectAt report1080.data :=
    (searchFrom_eq_none_iff aspectAt _).mp (by decide)
  have heval : getVideoInfo report1080 = .ok descriptor1080 := by decide!
  obtain ⟨md, hmd, _, hasp⟩ := getVideoInfo_aspect report1080
  rw [heval] at hmd
  simp only [Except.ok.injEq] at hmd
  subst hmd
  exact ⟨hdar, heval, (hasp hdar 1920 1080 rfl (by decide) (by decide)).1, rfl⟩

/-! ## The statements of the parsers at sample inputs -/

/-- C11 at `report1080`, a report without `SAR`: the pixel aspect is `1:1`, the pixel
value `1`, and the square resolution is present, `1920x1080`. -/
theorem getVideoInfo_square_always_witness :
    getVideoInfo report1080 = .ok descriptor1080 ∧
      ¬ OccursIn pixelAt report1080.data ∧
      descriptor1080.video.resolution.w.gt (JSNum.ofNat 0) = true ∧
      descriptor1080.video.pixelString = "1:1" ∧
      descriptor1080.video.pixel = JSNum.ofNat 1 ∧
      descriptor1080.video.resolutionSquare
        = some { w := JSNum.ofNat 1920, h := JSNum.ofNat 1080 } := by
  have hinfo : getVideoInfo report1080 = .ok descriptor1080 := by decide!
  have hpixel : ¬ OccursIn pixelAt report1080.data :=
    (searchFrom_eq_none_iff pixelAt report1080.data).mp (by decide!)
  have hwidth : descriptor1080.video.resolution.w.gt (JSNum.ofNat 0) = true := by decide!
  obtain ⟨h1, h2, h3⟩ :=
    getVideoInfo_square_always report1080 descriptor1080 hinfo hpixel hwidth
  exact ⟨hinfo, hpixel, hwidth, h1, h2, h3⟩

/-- C12 as stated fails: the line ` D  mov,mp4,m4a,3gp,3g2,mj2 QuickTime / MOV` has
scope `D`, an identifier and a description, and its identifier is not recorded. -/
theorem getInfoConfiguration_codec_line_counterexample :
    getInfoConfiguration listingLongId
        = .ok { modules := [], encode := ["avi"], decode := ["avi"] } ∧
      "mov,mp4,m4a,3gp,3g2,mj2" ∉ ["avi"] := by
  decide!

/-- C12, as amended, at the line ` D  3dostr          3DO STR` of `listingPadded`. -/
theorem getInfoConfiguration_codec_line_witness :
    listingPadded = String.mk (listingHead.data
        ++ codecLine 0 "D" 1 "3dostr".data 10 "3DO STR".data ++ listingTail.data) ∧
      endsLine listingHead.data = true ∧ atLineEnd listingTail.data = true ∧
      hasGap (' ' :: "3DO STR".data) = false ∧
      getInfoConfiguration listingPadded
        = .ok { modules := ["gpl", "libmp3lame"], encode := ["3g2", "avi"],
                decode := ["3dostr", "avi"] } := by
  have htext : listingPadded = String.mk (listingHead.data
      ++ codecLine 0 "D" 1 "3dostr".data 10 "3DO STR".data ++ listingTail.data) := by decide!
  have hpre : endsLine listingHead.data = true := by decide!
  have hpost : atLineEnd listingTail.data = true := by decide!
  have hgap : hasGap (' ' :: "3DO STR".data) = false := by decide!
  refine ⟨htext, hpre, hpost, hgap, ?_⟩
  have h := getInfoConfiguration_codec_line listingHead.data listingTail.data 0 1 10 "D"
    "3dostr".data "3DO STR".data hpre hpost (Or.inl rfl) (by decide) (by decide!)
    (by decide) (by decide!) hgap
  rw [← htext] at h
  rw [h]
  decide!

/-- C13 at the duration `00:01:30.50` with the default `7`: the value is `90`. -/
theorem durationToSeconds_clock_witness :
    '0'.isDigit = true ∧ '1'.isDigit = true ∧ '3'.isDigit = true ∧
      utils.durationToSeconds (JSVal.str "00:01:30.50") (JSVal.num (JSNum.ofNat 7))
        = JSVal.num (JSNum.ofNat 90) := by
  refine ⟨by decide, by decide, by decide, ?_⟩
  exact durationToSeconds_clock '0' '0' '0' '1' '3' '0' ".50".data (JSVal.num (JSNum.ofNat 7))
    (by decide) (by decide) (by decide) (by decide) (by decide) (by decide)

/-! ## The statements of the session at sample inputs -/

/-- C15 as stated fails: with the `libmp3lame` module enabled and no `mp3` in the
encode list, `setAudioCodec ("mp3")` fails and the session stays as it was. -/
theorem setAudioCodec_mp3_counterexample :
    "libmp3lame" ∈ configurationWithoutMp3.modules ∧
      (Video.new "in.mp4" configurationWithoutMp3 descriptor720).setAudioCodec "mp3"
        = (.error (errors.renderError "codec_not_supported" [JSVal.str "mp3"]),
            Video.new "in.mp4" configurationWithoutMp3 descriptor720) := by
  decide!

/-- C15, as amended, on the fresh session `session720`. -/
theorem setAudioCodec_mp3_witness :
    "mp3" ∈ session720.configuration.encode ∧
      "libmp3lame" ∈ session720.configuration.modules ∧
      (session720.setAudioCodec "mp3").1 = .ok () ∧
      (session720.setAudioCodec "mp3").2.getOption "audio" "codec" = JSVal.str "libmp3lame" ∧
      ((session720.setAudioCodec "mp3").2.save "out.mp3").1 = .ok () ∧
      ((session720.setAudioCodec "mp3").2.save "out.mp3").2.commands
        = [JSVal.str "-acodec", JSVal.str "libmp3lame"] := by
  have hencode : "mp3" ∈ session720.configuration.encode := by decide
  have hmodule : "libmp3lame" ∈ session720.configuration.modules := by decide
  obtain ⟨h1, h2, h3⟩ := setAudioCodec_mp3 session720 "out.mp3" hencode hmodule
  exact ⟨hencode, hmodule, h1, h2, h3 rfl rfl⟩

/-- C19 as stated fails: a codec of the encode list that is the text `-s` makes `save`
fail on the flag `-s`. -/
theorem save_codec_size_counterexample :
    "-s" ∈ configurationWithFlag.encode ∧
      (codecSizeSession "in.mp4" configurationWithFlag descriptor720 "-s" "640x?").1 = .ok () ∧
      ((codecSizeSession "in.mp4" configurationWithFlag descriptor720 "-s" "640x?").andThen
          (Video.save "out.mp4")).1
        = .error (errors.renderError "command_already_exists" [JSVal.str "-s"]) := by
  decide!

/-- C19, as amended, at the codec `h264` and the size `640x?` on a fresh session over
the `1280x720` descriptor: the command list is `-vcodec h264 -aspect 16:9 -s 640x360`,
and no token of it occurs twice. -/
theorem save_codec_size_witness :
    "h264" ∈ sampleConfiguration.encode ∧
      computeDimension descriptor720 (codecSizeOptions "h264" "640x?")
        = .ok { width := JSNum.ofNat 640, height := JSNum.ofNat 360
                aspect := some { x := JSNum.ofNat 16, y := JSNum.ofNat 9, string := "16:9" } } ∧
      ((codecSizeSession "in.mp4" sampleConfiguration descriptor720 "h264" "640x?").andThen
          (Video.save "out.mp4")).1 = .ok () ∧
      ((codecSizeSession "in.mp4" sampleConfiguration descriptor720 "h264" "640x?").andThen
          (Video.save "out.mp4")).2.commands
        = [JSVal.str "-vcodec", JSVal.str "h264", JSVal.str "-aspect", JSVal.str "16:9",
            JSVal.str "-s", JSVal.str "640x360"] ∧
      [JSVal.str "-vcodec", JSVal.str "h264", JSVal.str "-aspect", JSVal.str "16:9",
        JSVal.str "-s", JSVal.str "640x360"].Nodup := by
  have hcodec : "h264" ∈ sampleConfiguration.encode := by decide
  have hdim : computeDimension descriptor720 (codecSizeOptions "h264" "640x?")
      = .ok { width := JSNum.ofNat 640, height := JSNum.ofNat 360
              aspect := some { x := JSNum.ofNat 16, y := JSNum.ofNat 9, string := "16:9" } } := by
    decide!
  obtain ⟨_, _, aspect, hasp, hok, hcommands⟩ :=
    save_codec_size "in.mp4" "out.mp4" sampleConfiguration descriptor720 "h264" "640x?" _
      hcodec (by decide) (by decide) (by decide) hdim
  simp only [Option.some.injEq] at hasp
  subst hasp
  exact ⟨hcodec, hdim, hok, hcommands, by decide⟩

/-- C14 at the sample input: the text `30` yields the default `0`, the number `30` is
returned, and the number `10^21` yields the default. -/
theorem durationToSeconds_bare_integer_witness :
    Nat.repr 30 = "30" ∧
      utils.durationToSeconds (JSVal.str (Nat.repr 30)) (JSVal.num (JSNum.ofNat 0))
        = JSVal.num (JSNum.ofNat 0) ∧
      utils.durationToSeconds (JSVal.num (JSNum.ofNat 30)) (JSVal.num (JSNum.ofNat 0))
        = JSVal.num (JSNum.ofNat 30) ∧
      utils.durationToSeconds (JSVal.num (JSNum.ofNat (10 ^ 21))) (JSVal.num (JSNum.ofNat 0))
        = JSVal.num (JSNum.ofNat 0) :=
  ⟨by decide,
    (durationToSeconds_bare_integer 30 (JSVal.num (JSNum.ofNat 0))).1,
    (durationToSeconds_bare_integer 30 (JSVal.num (JSNum.ofNat 0))).2.1 (by norm_num),
    (durationToSeconds_bare_integer 30 (JSVal.num (JSNum.ofNat 0))).2.2⟩

/-! ## The statements of the last claims at sample inputs -/

/-- C22 at the size `640x360` on a fresh session over the `1280x720` descriptor: with
`keepAspectRatio = false` the command list is `-aspect -s 640x360` and the fragment is
written with `undefined/undefined`; with `keepAspectRatio = true` the command list is
`-aspect 16:9 -s 640x360` and the one fragment is written with `16/9` and the padding
color. -/
theorem save_size_without_aspect_witness :
    computeDimension descriptor720
        (sizeSession "in.mp4" sampleConfiguration descriptor720 "640x360" false).options
      = .ok { width := JSNum.ofNat 640, height := JSNum.ofNat 360, aspect := none } ∧
      ((sizeSession "in.mp4" sampleConfiguration descriptor720 "640x360" false).save
          "out.mp4").1 = .ok () ∧
      ((sizeSession "in.mp4" sampleConfiguration descriptor720 "640x360" false).save
          "out.mp4").2.commands
        = [JSVal.str "-aspect", JSVal.str "-s", JSVal.str "640x360"] ∧
      ((sizeSession "in.mp4" sampleConfiguration descriptor720 "640x360" false).save
          "out.mp4").2.filtersComplex
        = ["scale=iw*sar:ih, pad=max(iw\\,ih*(undefined/undefined)):ow/(undefined/undefined):(ow-iw)/2:(oh-ih)/2:black"] ∧
      ((sizeSession "in.mp4" sampleConfiguration descriptor720 "640x360" true).save
          "out.mp4").2.commands
        = [JSVal.str "-aspect", JSVal.str "16:9", JSVal.str "-s", JSVal.str "640x360"] ∧
      ((sizeSession "in.mp4" sampleConfiguration descriptor720 "640x360" true).save
          "out.mp4").2.filtersComplex
        = ["scale=iw*sar:ih, pad=max(iw\\,ih*(16/9)):ow/(16/9):(ow-iw)/2:(oh-ih)/2:black"] := by
  have hdim : computeDimension descriptor720
      (sizeSession "in.mp4" sampleConfiguration descriptor720 "640x360" false).options
      = .ok { width := JSNum.ofNat 640, height := JSNum.ofNat 360, aspect := none } := by
    decide!
  obtain ⟨_, hok, hcommands, hfilters⟩ :=
    save_size_without_aspect "in.mp4" "out.mp4" sampleConfiguration descriptor720 "640x360" _ hdim
  exact ⟨hdim, hok, hcommands, hfilters, by decide!, by decide!⟩

/-- C24 at the `1280x720` descriptor: the size `100%` gives `0x0`. -/
theorem computeDimension_hundred_percent_witness :
    referenceResolution descriptor720 (sizeContainer "100%")
        = some { w := JSNum.ofNat 1280, h := JSNum.ofNat 720 } ∧
      (∃ d, computeDimension descriptor720 (sizeOptions "100%") = .ok d ∧
        d.width = JSNum.ofNat 0 ∧ d.height = JSNum.ofNat 0) ∧
      computeDimension descriptor720 (sizeOptions "100%")
        = .ok { width := JSNum.ofNat 0, height := JSNum.ofNat 0,
                aspect := some { x := JSNum.nan, y := JSNum.nan, string := "NaN:NaN" } } := by
  have href : referenceResolution descriptor720 (sizeContainer "100%")
      = some { w := JSNum.ofNat 1280, h := JSNum.ofNat 720 } := by decide!
  exact ⟨href,
    (computeDimension_hundred_percent descriptor720 (sizeOptions "100%") (sizeContainer "100%")
      1280 720 (sizeOptions_video "100%") href (by decide)).2,
    by decide!⟩

end Ffmpeg

